import Mathlib

/-!
Verification of the SSA builder of pombredanne/go.tools (src/ssa/builder.go).

The builder walks a type-checked AST and emits SSA basic blocks.  The
instruction model, basic blocks and the emit helpers live outside the
builder file and are modelled here from the specification (sections 3,
4.1 and 4.2); every function translated from src/ssa/builder.go keeps
its source name and follows the source line by line.
-/

set_option maxHeartbeats 1000000

namespace SSAV

/-- Constant literal payloads carried by SSA Literal values
(Modelled from the spec: the IR Model's Literal/Constant variant). -/
inductive Lit where
  | intL (n : Int)
  | boolL (b : Bool)
  | nilL
deriving DecidableEq

/-- Operator tokens used by the builder (go/token subset). -/
inductive Op where
  | land
  | lor
  | notOp
  | add
  | sub
  | mul
  | lss
  | eql
  | arrow
deriving DecidableEq

/-- Types as provided by the type oracle (Modelled from the spec, section 6:
named types are kept resolved to their underlying structure, so
Underlying is the identity here; Deref strips one pointer). -/
inductive Ty where
  | boolT
  | intT
  | stringT
  | array (elem : Ty) (len : Int)
  | slice (elem : Ty)
  | pointer (elem : Ty)
  | chanT (elem : Ty)
  | mapT (key elem : Ty)
  | tuple (elems : List Ty)
  | funcT
  | anyT
  | invalid

mutual

/-- Structural equality test on types. -/
def Ty.beq : Ty → Ty → Bool
  | .boolT, .boolT => true
  | .intT, .intT => true
  | .stringT, .stringT => true
  | .array a n, .array b m => Ty.beq a b && n == m
  | .slice a, .slice b => Ty.beq a b
  | .pointer a, .pointer b => Ty.beq a b
  | .chanT a, .chanT b => Ty.beq a b
  | .mapT a b, .mapT c d => Ty.beq a c && Ty.beq b d
  | .tuple as_, .tuple bs => Ty.beqList as_ bs
  | .funcT, .funcT => true
  | .anyT, .anyT => true
  | .invalid, .invalid => true
  | _, _ => false

/-- Pointwise equality test on type lists. -/
def Ty.beqList : List Ty → List Ty → Bool
  | [], [] => true
  | a :: as_, b :: bs => Ty.beq a b && Ty.beqList as_ bs
  | _, _ => false
end

/-- Deref: the pointee for pointer types, the type itself otherwise
(mirrors types.Type.Deref used throughout builder.go). -/
def Ty.deref : Ty → Ty
  | .pointer t => t
  | t => t

/-- Underlying: identity, because the model keeps types pre-resolved
(Modelled from the spec, section 6). -/
def Ty.underlying : Ty → Ty := fun t => t

/-- The pointee of a pointer type; invalid elsewhere. -/
def Ty.pointee : Ty → Ty
  | .pointer t => t
  | _ => .invalid

/-- A function signature as exposed by the type oracle: ordered normal
parameters (the final one is the variadic element type when variadic),
a variadic flag, and result types. -/
structure Sig where
  params : List Ty
  variadic : Bool
  results : List Ty

/-- How a Value is referred to: a folded constant literal, the register
defined by an emitted instruction (by id), the address of a package-level
global, a function or builtin object, or a local/parameter slot address
(Modelled from the spec: the Value contract of section 3). -/
inductive VKind where
  | lit (l : Lit)
  | reg (id : Nat)
  | global (name : String)
  | fnref (name : String)
  | param (name : String)

/-- A Value: every value carries an immutable type (spec, section 3). -/
structure Value where
  kind : VKind
  ty : Ty

/-- The integer literal helper intLiteral of the source. -/
def intLiteral (n : Int) : Value := ⟨.lit (.intL n), .intT⟩

/-- SSA value constant vTrue of the source. -/
def vTrue : Value := ⟨.lit (.boolL true), .boolT⟩

/-- SSA value constant vFalse of the source. -/
def vFalse : Value := ⟨.lit (.boolL false), .boolT⟩

/-- SSA value constant vOne of the source. -/
def vOne : Value := intLiteral 1

/-- SSA value constant vZero of the source. -/
def vZero : Value := intLiteral 0

/-- The nil literal of a given (slice) type, nilLiteral of the source. -/
def nilLiteral (t : Ty) : Value := ⟨.lit .nilL, t⟩

/-- Instruction variants needed by the builder paths under verification
(Modelled from the spec: the IR Model of sections 3 and 4.1). -/
inductive Instr where
  | call (func : Value) (args : List Value)
  | phi (edges : List Value) (comment : String)
  | binop (op : Op) (x y : Value)
  | unop (op : Op) (x : Value)
  | conv (x : Value) (t : Ty)
  | load (addr : Value)
  | store (addr v : Value)
  | alloc (t : Ty) (heap : Bool)
  | indexAddr (x idx : Value)
  | indexI (x idx : Value)
  | sliceI (x : Value) (low high : Option Value)
  | makeSlice (len cap : Value)
  | makeMap (reserve : Option Value)
  | makeChan (size : Value)
  | extract (tuple : Value) (idx : Nat)
  | lookupI (x idx : Value)
  | jump (target : Nat)
  | ifI (cond : Value) (t f : Nat)
  | retI (results : List Value)
  | panicI (x : Value)
  | runDefers

/-- Is the instruction a control-transfer terminator (Jump, If, Ret,
Panic — spec, section 3)? -/
def Instr.isTerm : Instr → Bool
  | .jump _ => true
  | .ifI _ _ _ => true
  | .retI _ => true
  | .panicI _ => true
  | _ => false

/-- A basic block: debug name, predecessor and successor block indices,
and the ordered instruction sequence, each instruction paired with the
id of the register it defines (Modelled from the spec, section 3). -/
structure BasicBlock where
  name : String
  preds : List Nat
  succs : List Nat
  instrs : List (Nat × Instr)

/-- A break/continue/fallthrough target frame, the targets struct of the
source builder (innermost frame at the head of the stack). -/
structure Tgts where
  tbreak : Option Nat
  tcontinue : Option Nat
  tfallthrough : Option Nat

/-- A named label's blocks, the lblock struct of the source builder. -/
structure LBlock where
  lgoto : Nat
  lbreak : Option Nat
  lcontinue : Option Nat

/-- The build-time mutable bookkeeping of one Function under
construction (Modelled from the spec, section 3: current block, target
frames, labels, named results). -/
structure FnState where
  blocks : List BasicBlock
  currentBlock : Option Nat
  nextId : Nat
  targets : List Tgts
  lblocks : List (String × LBlock)
  namedResults : List Value
  resultTys : List Ty
  isInit : Bool

/-- A placeholder block returned for out-of-range block lookups. -/
def emptyBlock : BasicBlock := ⟨"?", [], [], []⟩

/-- The block at index i of the function under construction. -/
def getBlock (s : FnState) (i : Nat) : BasicBlock :=
  s.blocks.getD i emptyBlock

/-- Append one instruction, tagged with a fresh id, to block c
(Modelled from the spec, section 4.1: blocks expose emit which appends
and assigns an identity). -/
def appendInstr (c : Nat) (ins : Instr) (s : FnState) : FnState :=
  let bb := getBlock s c
  { s with
    blocks := s.blocks.set c { bb with instrs := bb.instrs ++ [(s.nextId, ins)] }
    nextId := s.nextId + 1 }

/-- Record a control-flow edge b -> t: succs of b and preds of t
(Modelled from the spec, section 4.2: emitJump and emitIf record
predecessor links). -/
def addEdge (b t : Nat) (s : FnState) : FnState :=
  let bb := getBlock s b
  let s := { s with blocks := s.blocks.set b { bb with succs := bb.succs ++ [t] } }
  let bt := getBlock s t
  { s with blocks := s.blocks.set t { bt with preds := bt.preds ++ [b] } }

/-- Function.emit: append an instruction to the current block and return
the Value it defines (Modelled from the spec, section 4.1).  With no
current block — which never happens on the verified paths — only the id
counter advances. -/
def emit (ins : Instr) (t : Ty) (s : FnState) : Value × FnState :=
  match s.currentBlock with
  | some c => (⟨.reg s.nextId, t⟩, appendInstr c ins s)
  | none => (⟨.reg s.nextId, t⟩, { s with nextId := s.nextId + 1 })

/-- Function.newBasicBlock: adds a fresh empty block and returns its
index (Modelled from the spec, section 3). -/
def newBasicBlock (name : String) (s : FnState) : Nat × FnState :=
  (s.blocks.length, { s with blocks := s.blocks ++ [⟨name, [], [], []⟩] })

/-- Set the current block of the function under construction. -/
def setCur (c : Nat) (s : FnState) : FnState :=
  { s with currentBlock := some c }

/-- emitJump: terminates the current block with an unconditional
transfer, records predecessor links, and clears the current block
(Modelled from the spec, section 4.2). -/
def emitJump (target : Nat) (s : FnState) : FnState :=
  match s.currentBlock with
  | some c =>
      let s := appendInstr c (.jump target) s
      let s := addEdge c target s
      { s with currentBlock := none }
  | none => { s with currentBlock := none }

/-- emitIf: terminates the current block with a two-way branch and
records predecessor links on both targets (Modelled from the spec,
section 4.2). -/
def emitIf (cnd : Value) (t f : Nat) (s : FnState) : FnState :=
  match s.currentBlock with
  | some c =>
      let s := appendInstr c (.ifI cnd t f) s
      let s := addEdge c t s
      let s := addEdge c f s
      { s with currentBlock := none }
  | none => { s with currentBlock := none }

/-- emitLoad: reads through a pointer value; the result type is the
pointee (Modelled from the spec, section 4.2). -/
def emitLoad (addr : Value) (s : FnState) : Value × FnState :=
  emit (.load addr) addr.ty.pointee s

/-- emitConv: the least-cost conversion — the value itself when the
types already agree, an untyped constant specialised by retyping, and a
conversion instruction otherwise (Modelled from the spec, section
4.2). -/
def emitConv (v : Value) (t : Ty) (s : FnState) : Value × FnState :=
  if Ty.beq v.ty t then (v, s)
  else
    match v.kind with
    | .lit l => (⟨.lit l, t⟩, s)
    | _ => emit (.conv v t) t s

/-- emitStore: writes through a pointer, inserting an implicit
assignability conversion (Modelled from the spec, section 4.2). -/
def emitStore (addr v : Value) (s : FnState) : FnState :=
  let (v', s) := emitConv v addr.ty.pointee s
  (emit (.store addr v') .invalid s).2

/-- emitExtract: projects one component of a multi-result value
(Modelled from the spec, section 4.2). -/
def emitExtract (tup : Value) (i : Nat) (t : Ty) (s : FnState) : Value × FnState :=
  emit (.extract tup i) t s

/-- emitCompare: comparison construction; the result is boolean
(Modelled from the spec, section 4.2). -/
def emitCompare (op : Op) (x y : Value) (s : FnState) : Value × FnState :=
  emit (.binop op x y) .boolT s

/-- emitArith: binary arithmetic construction at the given type
(Modelled from the spec, section 4.2). -/
def emitArith (op : Op) (x y : Value) (t : Ty) (s : FnState) : Value × FnState :=
  emit (.binop op x y) t s

/-- emitNew: heap allocation; the result is a pointer to t (Modelled
from the spec, section 4.2). -/
def emitNew (t : Ty) (s : FnState) : Value × FnState :=
  emit (.alloc t true) (.pointer t) s

/-- Function.addLocal: a stack slot whose address may later escape; the
result is the slot's address (Modelled from the spec, section 4.2). -/
def addLocal (t : Ty) (s : FnState) : Value × FnState :=
  emit (.alloc t false) (.pointer t) s

/-- Function.startBody: install the entry block as current (Modelled
from the spec, section 4.6: create the entry block, then lower the
body). -/
def startBody (nres : List Value) (rts : List Ty) (isInit : Bool) : FnState :=
  ⟨[⟨"entry", [], [], []⟩], some 0, 0, [], [], nres, rts, isInit⟩

/-- The function position of a call: a source-level function object or a
universe builtin, as resolved by the type oracle. -/
inductive Callee where
  | fnV (name : String)
  | builtinV (name : String)

/-- Type-checked expressions, the AST subset consumed by the builder
paths under verification.  Constant folding is an input (spec, section
6): the folded constants are the boolLit/intLit leaves.  typeRef stands
for the type argument of make, which the builder never evaluates. -/
inductive Expr where
  | boolLit (b : Bool)
  | intLit (n : Int)
  | paren (x : Expr)
  | notE (x : Expr)
  | bin (op : Op) (x y : Expr)
  | callE (fn : Callee) (sig : Sig) (args : List Expr) (hasDots : Bool)
  | ident (name : String) (ty : Ty)
  | typeRef (t : Ty)

/-- TypeOracle.ValueOf: the constant the type checker folded for e, if
any (spec, section 6). -/
def valueOf : Expr → Option Value
  | .boolLit b => some ⟨.lit (.boolL b), .boolT⟩
  | .intLit n => some ⟨.lit (.intL n), .intT⟩
  | _ => none

/-- TypeOracle.TypeOf for the modelled expressions (spec, section 6). -/
def typeOf : Expr → Ty
  | .boolLit _ => .boolT
  | .intLit _ => .intT
  | .paren x => typeOf x
  | .notE _ => .boolT
  | .bin op x _ =>
      match op with
      | .land => .boolT
      | .lor => .boolT
      | .lss => .boolT
      | .eql => .boolT
      | _ => typeOf x
  | .callE _ sig _ _ =>
      match sig.results with
      | [t] => t
      | ts => .tuple ts
  | .ident _ t => t
  | .typeRef t => t

/-- The Value standing for a resolved callee: package functions and
builtins are looked up in the builder's globals (source builder,
setCallFunc case 0/2). -/
def calleeValue : Callee → Value
  | .fnV n => ⟨.fnref n, .funcT⟩
  | .builtinV n => ⟨.fnref n, .funcT⟩

/-- The number of normal (non-variadic) parameters of sig (source,
emitCallArgs: np). -/
def normalParams (sig : Sig) : Nat :=
  if sig.variadic then sig.params.length - 1 else sig.params.length

/-- The actual-to-formal conversions for normal parameters of
emitCallArgs (source lines 1062-1064): position offset+i is converted
to the i-th parameter type. -/
def convLoop (offset : Nat) (ps : List Ty) (i : Nat) (acc : List Value)
    (s : FnState) : List Value × FnState :=
  match ps with
  | [] => (acc, s)
  | t :: rest =>
      let v := acc.getD (offset + i) (nilLiteral .invalid)
      let (v', s) := emitConv v t s
      convLoop offset rest (i + 1) (acc.set (offset + i) v') s

/-- The store loop of emitCallArgs (source lines 1078-1086): for each
tail argument, an IndexAddr into the fresh array followed by a store. -/
def storeVarargs (a : Value) (vt : Ty) (vs : List Value) (i : Nat)
    (s : FnState) : FnState :=
  match vs with
  | [] => s
  | v :: rest =>
      let (ia, s) := emit (.indexAddr a (intLiteral i)) (.pointer vt) s
      let s := emitStore ia v s
      storeVarargs a vt rest (i + 1) s

/-- Extract every component of a tuple value in order (source,
emitCallArgs MRV chain; also the multi-result return path). -/
def extractAll (v : Value) (ts : List Ty) (i : Nat) (acc : List Value)
    (s : FnState) : List Value × FnState :=
  match ts with
  | [] => (acc, s)
  | t :: rest =>
      let (x, s) := emitExtract v i t s
      extractAll v rest (i + 1) (acc ++ [x]) s

/-- Flatten one evaluated actual argument: a multi-result (tuple-typed)
value is expanded via Extract (source, emitCallArgs lines 1046-1055). -/
def flattenArg (v : Value) (acc : List Value) (s : FnState) : List Value × FnState :=
  match v.ty with
  | .tuple ts => extractAll v ts 0 acc s
  | _ => (acc ++ [v], s)

mutual

/-- Builder.expr (source lines 689-830): lower a single-result
expression, first consulting the type checker's folded constant. -/
def expr (e : Expr) (s : FnState) : Value × FnState :=
  match valueOf e with
  | some lit => (lit, s)
  | none =>
      match e with
      | .boolLit b => (⟨.lit (.boolL b), .boolT⟩, s)
      | .intLit n => (⟨.lit (.intL n), .intT⟩, s)
      | .paren x => expr x s
      | .notE x =>
          let (v, s) := expr x s
          emit (.unop .notOp v) .boolT s
      | .bin op x y =>
          match op with
          | .land => logicalBinop .land x y s
          | .lor => logicalBinop .lor x y s
          | .lss =>
              let (vx, s) := expr x s
              let (vy, s) := expr y s
              emitCompare .lss vx vy s
          | .eql =>
              let (vx, s) := expr x s
              let (vy, s) := expr y s
              emitCompare .eql vx vy s
          | op' =>
              let (vx, s) := expr x s
              let (vy, s) := expr y s
              emitArith op' vx vy (typeOf x) s
      | .callE c sig args dots =>
          let typ := match sig.results with
                     | [t] => t
                     | ts => Ty.tuple ts
          match c with
          | .builtinV name =>
              match builtin name args typ s with
              | some r => r
              | none =>
                  let (as_, s) := emitCallArgs sig dots args [] s
                  emit (.call (calleeValue c) as_) typ s
          | .fnV _ =>
              let (as_, s) := emitCallArgs sig dots args [] s
              emit (.call (calleeValue c) as_) typ s
      | .ident n t => emitLoad ⟨.param n, .pointer t⟩ s
      | .typeRef _ => (⟨.lit .nilL, .invalid⟩, s)
termination_by (sizeOf e, 3)

/-- Builder.exprN (source lines 314-369): lower a multi-result call;
the comma-ok forms (map index, type assert, receive) are not needed by
the verified paths and fall back to expr. -/
def exprN (e : Expr) (s : FnState) : Value × FnState :=
  match e with
  | .paren x => exprN x s
  | .callE c sig args dots =>
      let typ := match sig.results with
                 | [t] => t
                 | ts => Ty.tuple ts
      let (as_, s) := emitCallArgs sig dots args [] s
      emit (.call (calleeValue c) as_) typ s
  | e' => expr e' s
termination_by (sizeOf e, 4)

/-- Builder.cond (source lines 213-254): evaluate a boolean condition
and jump to t or f, unwrapping parentheses, distributing negation,
splitting the short-circuit operators, and dispatching constant
conditions statically. -/
def cond (e : Expr) (t f : Nat) (s : FnState) : FnState :=
  match e with
  | .paren x => cond x t f s
  | .bin .land x y =>
      let (ltrue, s) := newBasicBlock "cond.true" s
      let s := cond x ltrue f s
      let s := setCur ltrue s
      cond y t f s
  | .bin .lor x y =>
      let (lfalse, s) := newBasicBlock "cond.false" s
      let s := cond x t lfalse s
      let s := setCur lfalse s
      cond y t f s
  | .notE x => cond x f t s
  | e' =>
      let (c, s) := expr e' s
      match c.kind with
      | .lit (.boolL b) => if b then emitJump t s else emitJump f s
      | _ => emitIf c t f s
termination_by (sizeOf e, 5)

/-- Builder.logicalBinop (source lines 260-303): reify the value of an
and/or expression, simplifying when one side is unreachable and
otherwise merging with a phi whose edges carry the short-circuit
constant. -/
def logicalBinop (op : Op) (x y : Expr) (s : FnState) : Value × FnState :=
  let (rhs, s) := newBasicBlock "binop.rhs" s
  let (done, s) := newBasicBlock "binop.done" s
  let short := if op == Op.land then vFalse else vTrue
  let s := if op == Op.land then cond x rhs done s else cond x done rhs s
  if (getBlock s rhs).preds.isEmpty then
    (short, setCur done s)
  else if (getBlock s done).preds.isEmpty then
    expr y (setCur rhs s)
  else
    let edges := (getBlock s done).preds.map (fun _ => short)
    let s := setCur rhs s
    let (vy, s) := expr y s
    let edges := edges ++ [vy]
    let s := emitJump done s
    let s := setCur done s
    emit (.phi edges (if op == Op.land then "&&" else "||"))
      (edges.headD vFalse).ty s
termination_by (2 + sizeOf x + sizeOf y, 0)

/-- Builder.builtin (source lines 379-443): make, new, len/cap of
arrays (constant length, argument still evaluated for effects), and
panic; none means no special handling and the caller emits a regular
call. -/
def builtin (name : String) (args : List Expr) (typ : Ty) (s : FnState) :
    Option (Value × FnState) :=
  match name with
  | "make" =>
      match typ.underlying with
      | .slice _ =>
          match args with
          | [_, nE] =>
              let (n, s) := expr nE s
              some (emit (.makeSlice n n) typ s)
          | [_, nE, mE] =>
              let (n, s) := expr nE s
              let (m, s) := expr mE s
              some (emit (.makeSlice n m) typ s)
          | _ => none
      | .mapT _ _ =>
          match args with
          | [_] => some (emit (.makeMap none) typ s)
          | [_, rE] =>
              let (r, s) := expr rE s
              some (emit (.makeMap (some r)) typ s)
          | _ => none
      | .chanT _ =>
          match args with
          | [_] => some (emit (.makeChan vZero) typ s)
          | [_, szE] =>
              let (sz, s) := expr szE s
              some (emit (.makeChan sz) typ s)
          | _ => none
      | _ => none
  | "new" => some (emitNew typ.underlying.deref s)
  | "len" | "cap" =>
      match args with
      | [a] =>
          match (typeOf a).deref.underlying with
          | .array _ n =>
              let (_, s) := expr a s
              some (intLiteral n, s)
          | _ => none
      | _ => none
  | "panic" =>
      match args with
      | [a] =>
          let (v, s) := expr a s
          let (v', s) := emitConv v .anyT s
          let (_, s) := emit (.panicI v') .invalid s
          let (ub, s) := newBasicBlock "unreachable" s
          some (vFalse, setCur ub s)
      | _ => none
  | _ => none
termination_by (sizeOf args, 0)

/-- The evaluation loop of Builder.emitCallArgs (source lines
1041-1055): evaluate each actual parameter, flattening a multi-result
chain via Extract. -/
def evalArgs (args : List Expr) (acc : List Value) (s : FnState) :
    List Value × FnState :=
  match args with
  | [] => (acc, s)
  | a :: rest =>
      let (v, s) := expr a s
      let (acc, s) := flattenArg v acc s
      evalArgs rest acc s
termination_by (sizeOf args, 0)

/-- The explicit-ellipsis branch of Builder.emitCallArgs (source lines
1026-1037): the slice is passed straight through, each argument
converted to its formal type. -/
def ellipsisArgs (sig : Sig) (nArgs i : Nat) (args : List Expr)
    (acc : List Value) (s : FnState) : List Value × FnState :=
  match args with
  | [] => (acc, s)
  | a :: rest =>
      let t0 := sig.params.getD i .invalid
      let t := if sig.variadic && i == nArgs - 1 then Ty.slice t0 else t0
      let (v, s) := expr a s
      let (v', s) := emitConv v t s
      ellipsisArgs sig nArgs (i + 1) rest (acc ++ [v']) s
termination_by (sizeOf args, 0)

/-- Builder.emitCallArgs (source lines 1024-1094): argument
marshalling — pass-through for an explicit ellipsis; otherwise
evaluation, per-parameter conversion, and for a variadic callee the
construction of a fresh array and slice holding the tail arguments
(or a nil slice when the tail is empty). -/
def emitCallArgs (sig : Sig) (hasDots : Bool) (args : List Expr)
    (pre : List Value) (s : FnState) : List Value × FnState :=
  if hasDots then
    ellipsisArgs sig args.length 0 args pre s
  else
    let offset := pre.length
    let (acc, s) := evalArgs args pre s
    let np := normalParams sig
    let (acc, s) := convLoop offset (sig.params.take np) 0 acc s
    if sig.variadic then
      let varargs := acc.drop (offset + np)
      let vt := sig.params.getD np .invalid
      let st := Ty.slice vt
      if varargs.isEmpty then
        (acc ++ [nilLiteral st], s)
      else
        let at_ := Ty.array vt varargs.length
        let (a, s) := emitNew at_ s
        let s := storeVarargs a vt varargs 0 s
        let (sl, s) := emit (.sliceI a none none) st s
        (acc.take (offset + np) ++ [sl], s)
    else (acc, s)
termination_by (sizeOf args, 1)

end

/-- The 1:1 return-operand loop of the ReturnStmt lowering (source
lines 2200-2206): each operand converted to its declared result
type. -/
def convEach (res : List Expr) (rts : List Ty) (s : FnState) :
    List Value × FnState :=
  match res, rts with
  | [], _ => ([], s)
  | r :: rest, [] =>
      let (v, s) := expr r s
      let (vs, s) := convEach rest [] s
      (v :: vs, s)
  | r :: rest, t :: ts =>
      let (v, s) := expr r s
      let (v', s) := emitConv v t s
      let (vs, s) := convEach rest ts s
      (v' :: vs, s)

/-- The multi-result return expansion (source lines 2193-2199):
Extract each component of the tuple and convert it to the declared
result type. -/
def extractConvAll (tup : Value) (ts rts : List Ty) (i : Nat) (s : FnState) :
    List Value × FnState :=
  match ts, rts with
  | t :: ts', rt :: rts' =>
      let (x, s) := emitExtract tup i t s
      let (x', s) := emitConv x rt s
      let (vs, s) := extractConvAll tup ts' rts' (i + 1) s
      (x' :: vs, s)
  | _, _ => ([], s)

/-- The return-operand computation of the ReturnStmt case of
Builder.stmt (source lines 2190-2206), covering the single
multi-result expression case and the 1:1 case. -/
def retResults (res : List Expr) (s : FnState) : List Value × FnState :=
  if res.length = 1 ∧ s.resultTys.length > 1 then
    match res with
    | [r] =>
        let (tup, s) := exprN r s
        match tup.ty with
        | .tuple ts => extractConvAll tup ts s.resultTys 0 s
        | _ => ([tup], s)
    | _ => ([], s)
  else convEach res s.resultTys s

/-- The named-result store loop of the ReturnStmt lowering (source
lines 2207-2213). -/
def storeResults (nrs vals : List Value) (s : FnState) : FnState :=
  match nrs, vals with
  | nr :: nrs', v :: vs => storeResults nrs' vs (emitStore nr v s)
  | _, _ => s

/-- The named-result reload loop of the ReturnStmt lowering (source
lines 2217-2223). -/
def loadNamed (nrs : List Value) (s : FnState) : List Value × FnState :=
  match nrs with
  | [] => ([], s)
  | nr :: rest =>
      let (v, s) := emitLoad nr s
      let (vs, s) := loadNamed rest s
      (v :: vs, s)

/-- The outermost non-nil break target, the loop of the init-return
special case (source lines 2176-2181). -/
def outermostBreak (ts : List Tgts) : Option Nat :=
  (ts.filterMap (fun t => t.tbreak)).getLast?

/-- The innermost non-nil break target (source lines 2233-2237). -/
def firstBreak (ts : List Tgts) : Option Nat :=
  (ts.filterMap (fun t => t.tbreak)).head?

/-- The innermost non-nil continue target (source lines 2242-2246). -/
def firstContinue (ts : List Tgts) : Option Nat :=
  (ts.filterMap (fun t => t.tcontinue)).head?

/-- The innermost non-nil fallthrough target (source lines
2248-2251). -/
def firstFallthrough (ts : List Tgts) : Option Nat :=
  (ts.filterMap (fun t => t.tfallthrough)).head?

/-- Function.labelledBlock: the lazily created blocks of a named label;
creates the goto block on first use. -/
def labelledBlock (l : String) (s : FnState) : LBlock × FnState :=
  match s.lblocks.lookup l with
  | some lb => (lb, s)
  | none =>
      let (nb, s) := newBasicBlock l s
      let lb : LBlock := ⟨nb, none, none⟩
      (lb, { s with lblocks := s.lblocks ++ [(l, lb)] })

/-- Branch statement tokens. -/
inductive BrTok where
  | brk
  | contin
  | fallth
  | gotoT

/-- The target-resolution part of the BranchStmt case of Builder.stmt
(source lines 2228-2255). -/
def branchTarget (tok : BrTok) (lbl : Option String) (s : FnState) :
    Option Nat × FnState :=
  match tok with
  | .brk =>
      match lbl with
      | some l =>
          let (lb, s) := labelledBlock l s
          (lb.lbreak, s)
      | none => (firstBreak s.targets, s)
  | .contin =>
      match lbl with
      | some l =>
          let (lb, s) := labelledBlock l s
          (lb.lcontinue, s)
      | none => (firstContinue s.targets, s)
  | .fallth => (firstFallthrough s.targets, s)
  | .gotoT =>
      match lbl with
      | some l =>
          let (lb, s) := labelledBlock l s
          (some lb.lgoto, s)
      | none => (none, s)

/-- The statements consumed by the verified paths of Builder.stmt. -/
inductive Stmt where
  | exprS (e : Expr)
  | ret (res : List Expr)
  | branch (tok : BrTok) (lbl : Option String)

/-- Builder.stmt (source lines 2103-2308), the ExprStmt, ReturnStmt and
BranchStmt cases.  A return in the package Init function jumps to the
outermost break target after RunDefers; a normal return optionally
stores to and reloads the named result slots around RunDefers; both
paths, and every resolved branch, leave a fresh unreachable block as
current. -/
def stmt (st : Stmt) (s : FnState) : FnState :=
  match st with
  | .exprS e => (expr e s).2
  | .ret res =>
      if s.isInit then
        let blk := outermostBreak s.targets
        let (_, s) := emit .runDefers .invalid s
        match blk with
        | some b =>
            let s := emitJump b s
            let (nb, s) := newBasicBlock "unreachable" s
            setCur nb s
        | none =>
            let (nb, s) := newBasicBlock "unreachable" s
            setCur nb s
      else
        let (results, s) := retResults res s
        let s := if s.namedResults.isEmpty then s
                 else storeResults s.namedResults results s
        let (_, s) := emit .runDefers .invalid s
        let (results, s) := if s.namedResults.isEmpty then (results, s)
                            else loadNamed s.namedResults s
        let (_, s) := emit (.retI results) .invalid s
        let (nb, s) := newBasicBlock "unreachable" s
        setCur nb s
  | .branch tok lbl =>
      let (blk, s) := branchTarget tok lbl s
      match blk with
      | none => s
      | some b =>
          let s := emitJump b s
          let (nb, s) := newBasicBlock "unreachable" s
          setCur nb s

/-- Builder.stmtList. -/
def stmtList (sts : List Stmt) (s : FnState) : FnState :=
  match sts with
  | [] => s
  | st :: rest => stmtList rest (stmt st s)

/-- Builder.buildFunction (source lines 2311-2351) for a function with
a body: start the body, lower its statements, and append the implicit
RunDefers and Ret when control can fall off the end.  The finishing
passes (block numbering, dead-block removal) do not add or reorder
instructions and are not modelled. -/
def buildFunction (body : List Stmt) (nres : List Value) (rts : List Ty) :
    FnState :=
  let s := startBody nres rts false
  let s := stmtList body s
  match s.currentBlock with
  | some cb =>
      if cb = 0 ∨ ¬(getBlock s cb).preds.isEmpty then
        let (_, s) := emit .runDefers .invalid s
        (emit (.retI []) .invalid s).2
      else s
  | none => s

/-- Builder.rangeIndexed (source lines 1837-1921): the loop header for
a range over array, pointer-to-array or slice — a static literal
length for (pointer-to-)array and a len call otherwise, an index slot
starting at -1 and incremented at the loop head before the bound
comparison and branch, and a per-iteration element fetch.  Returns
(k, v, loop, done, state). -/
def rangeIndexed (x : Value) (tv : Option Ty) (s : FnState) :
    Value × Option Value × Nat × Nat × FnState :=
  let (length, s) :=
    match x.ty.deref with
    | .array _ n => (intLiteral n, s)
    | _ => emit (.call ⟨.fnref "len", .funcT⟩ [x]) .intT s
  let (index, s) := addLocal .intT s
  let s := emitStore index (intLiteral (-1)) s
  let (loop, s) := newBasicBlock "rangeindex.loop" s
  let s := emitJump loop s
  let s := setCur loop s
  let (iv, s) := emitLoad index s
  let (incr, s) := emit (.binop .add iv vOne) .intT s
  let s := emitStore index incr s
  let (body, s) := newBasicBlock "rangeindex.body" s
  let (done, s) := newBasicBlock "rangeindex.done" s
  let (cmp, s) := emitCompare .lss incr length s
  let s := emitIf cmp body done s
  let s := setCur body s
  let (k, s) := emitLoad index s
  match tv with
  | none => (k, none, loop, done, s)
  | some _ =>
      match x.ty.underlying with
      | .array et _ =>
          let (v, s) := emit (.indexI x k) et s
          (k, some v, loop, done, s)
      | .pointer (.array et _) =>
          let (ia, s) := emit (.indexAddr x k) (.pointer et) s
          let (v, s) := emitLoad ia s
          (k, some v, loop, done, s)
      | .slice et =>
          let (ia, s) := emit (.indexAddr x k) (.pointer et) s
          let (v, s) := emitLoad ia s
          (k, some v, loop, done, s)
      | _ => (k, none, loop, done, s)

/-- The address of the synthesised boolean guard global init$guard
(source, createPackageImpl lines 2588-2594). -/
def initguard : Value := ⟨.global "init$guard", .pointer .boolT⟩

/-- One Call to the Init function of an imported package (source,
BuildPackage lines 2736-2740). -/
def importInitCall (path : String) : Instr :=
  .call ⟨.fnref ("init." ++ path), .funcT⟩ []

/-- First-occurrence deduplication of import paths, the seen set of
BuildPackage (source lines 2718-2729). -/
def dedupFirst : List String → List String → List String
  | [], _ => []
  | x :: xs, seen =>
      if x ∈ seen then dedupFirst xs seen else x :: dedupFirst xs (x :: seen)

/-- Emit a Call to the Init of each import in order (source lines
2719-2741). -/
def emitImportCalls (ps : List String) (s : FnState) : FnState :=
  match ps with
  | [] => s
  | p :: rest => emitImportCalls rest (emit (importInitCall p) (.tuple []) s).2

/-- Emit a list of raw instructions into the current block in order:
the declaration-building phase of BuildPackage (the code buildDecl
emits for var specs and init blocks, source lines 2752-2756),
abstracted as straight-line code. -/
def emitBody (body : List Instr) (s : FnState) : FnState :=
  match body with
  | [] => s
  | i :: rest => emitBody rest (emit i .invalid s).2

/-- Builder.BuildPackage (source lines 2692-2770), the emission of the
package Init function: the entry block loads init$guard and branches
to init.done when it is set, otherwise to init.start, which first
stores true into the guard, then calls the Init of each imported
package once (first-occurrence deduplication, file order), then runs
the declaration-building phase (abstracted to the instruction list
body), and jumps to init.done, which runs deferred calls and
returns. -/
def BuildPackage (imports : List String) (body : List Instr) : FnState :=
  let s := startBody [] [] true
  let (doinit, s) := newBasicBlock "init.start" s
  let (done, s) := newBasicBlock "init.done" s
  let (g, s) := emitLoad initguard s
  let s := emitIf g done doinit s
  let s := setCur doinit s
  let s := emitStore initguard vTrue s
  let s := emitImportCalls (dedupFirst imports []) s
  let s := emitBody body s
  let s := emitJump done s
  let s := setCur done s
  let (_, s) := emit .runDefers .invalid s
  let (_, s) := emit (.retI []) .invalid s
  s

/-- A diagnostic produced by the type checker. -/
structure Diag where
  msg : String

/-- The created SSA package surface needed by the create path: its
path and member names, including the synthesised init$guard (source,
createPackageImpl lines 2533-2601). -/
structure Pkg where
  path : String
  members : List String

/-- The builder's package registry (Builder.packages and
Prog.Packages). -/
structure BuilderSt where
  packages : List (String × Pkg)

/-- Builder.typecheck (source lines 2472-2499): the checker is an
external collaborator (spec, section 6); diags is the ordered list of
diagnostics it produced, and typecheck surfaces the first of them. -/
def typecheck (diags : List Diag) : Option Diag := diags.head?

/-- Builder.createPackageImpl (source lines 2533-2601): construct the
package and its members, adding the init$guard global; memberNames
stands for the members created from the declarations. -/
def createPackageImpl (path : String) (memberNames : List String) : Pkg :=
  ⟨path, memberNames ++ ["init$guard"]⟩

/-- Builder.CreatePackage (source lines 2512-2518): type-check, and on
failure return the first diagnostic without constructing any SSA
package; otherwise build and register the package. -/
def CreatePackage (b : BuilderSt) (path : String) (memberNames : List String)
    (diags : List Diag) : Except Diag Pkg × BuilderSt :=
  match typecheck diags with
  | some e => (.error e, b)
  | none =>
      let p := createPackageImpl path memberNames
      (.ok p, ⟨b.packages ++ [(path, p)]⟩)

/-- Execution-time state for running an emitted Init function: a value
environment for the registers, the boolean guard cell, and the trace
of calls made.  This is the reference execution semantics used to
state the run-at-most-once property; it is not part of the builder. -/
structure ExecSt where
  env : Nat → Bool
  guard : Bool
  tr : List String

/-- Control-transfer outcome of executing a block. -/
inductive Xfer where
  | goto (n : Nat)
  | halt
  | fallOff

/-- The name a call instruction invokes, for the execution trace. -/
def calleeName (v : Value) : String :=
  match v.kind with
  | .fnref n => n
  | _ => "?"

/-- Evaluate a value to a boolean in the execution environment. -/
def evalB (env : Nat → Bool) (v : Value) : Bool :=
  match v.kind with
  | .lit (.boolL b) => b
  | .reg n => env n
  | _ => false

/-- Execute the instructions of one block in order: loads and stores
of the guard global read and write the guard cell, calls append to
the trace, terminators yield the transfer. -/
def execInstrs (l : List (Nat × Instr)) (st : ExecSt) : ExecSt × Xfer :=
  match l with
  | [] => (st, .fallOff)
  | (id, ins) :: rest =>
      match ins with
      | .jump n => (st, .goto n)
      | .ifI c t f => (st, .goto (if evalB st.env c then t else f))
      | .retI _ => (st, .halt)
      | .panicI _ => (st, .halt)
      | .load a =>
          match a.kind with
          | .global g =>
              if g = "init$guard" then
                execInstrs rest
                  { st with env := fun m => if m = id then st.guard else st.env m }
              else execInstrs rest st
          | _ => execInstrs rest st
      | .store a v =>
          match a.kind with
          | .global g =>
              if g = "init$guard" then
                execInstrs rest { st with guard := evalB st.env v }
              else execInstrs rest st
          | _ => execInstrs rest st
      | .call f _ => execInstrs rest { st with tr := st.tr ++ [calleeName f] }
      | _ => execInstrs rest st

/-- Run the function from block b with the given fuel. -/
def execFrom (f : FnState) (fuel b : Nat) (st : ExecSt) : ExecSt × Bool :=
  match fuel with
  | 0 => (st, false)
  | fuel' + 1 =>
      match execInstrs (getBlock f b).instrs st with
      | (st', .halt) => (st', true)
      | (st', .goto n) => execFrom f fuel' n st'
      | (st', .fallOff) => (st', false)

/-- Run an Init function from its entry block with guard cell g. -/
def runInit (f : FnState) (g : Bool) : ExecSt × Bool :=
  execFrom f (f.blocks.length + 1) 0 ⟨fun _ => false, g, []⟩

/-- The call targets of a straight-line instruction list, in order. -/
def callsOf (body : List Instr) : List String :=
  body.filterMap (fun i =>
    match i with
    | .call f _ => some (calleeName f)
    | _ => none)

/-- Straight-line code: no control-transfer terminators. -/
def straightLine (body : List Instr) : Bool :=
  body.all (fun i => !i.isTerm)

/-- Code that never writes the init$guard cell. -/
def noGuardStore (body : List Instr) : Bool :=
  body.all (fun i =>
    match i with
    | .store a _ =>
        match a.kind with
        | .global g => g != "init$guard"
        | _ => true
    | _ => true)

/-- A function state mid-build: the entry block is current and already
holds an arbitrary instruction prefix, with an arbitrary next id. -/
def mkState (pre : List (Nat × Instr)) (n : Nat) : FnState :=
  ⟨[⟨"entry", [], [], pre⟩], some 0, n, [], [], [], [], false⟩

/-- Count the instructions satisfying p across all blocks. -/
def countInstr (p : Instr → Bool) (s : FnState) : Nat :=
  (s.blocks.map (fun bb => (bb.instrs.filter (fun q => p q.2)).length)).sum

/-- Phi test. -/
def isPhi : Instr → Bool
  | .phi _ _ => true
  | _ => false

/-- Two-way branch test. -/
def isIfInstr : Instr → Bool
  | .ifI _ _ _ => true
  | _ => false

/-- Allocation test. -/
def isAllocInstr : Instr → Bool
  | .alloc _ _ => true
  | _ => false

/-- Store test. -/
def isStoreInstr : Instr → Bool
  | .store _ _ => true
  | _ => false

/-- Slice-construction test. -/
def isSliceInstr : Instr → Bool
  | .sliceI _ _ _ => true
  | _ => false

/-- Call-to-g test. -/
def isCallTo (g : String) : Instr → Bool
  | .call f _ => calleeName f = g
  | _ => false

/-- Heap allocation of an array type of the given length. -/
def isArrAllocLen (len : Int) : Instr → Bool
  | .alloc (.array _ l) true => l == len
  | _ => false

/-- All instructions of a function, in block order. -/
def allInstrs (s : FnState) : List (Nat × Instr) :=
  (s.blocks.map (fun bb => bb.instrs)).flatten

/-- A call to a source function g yielding bool, the scenario input. -/
def gBoolCall : Expr := .callE (.fnV "g") ⟨[], false, [.boolT]⟩ [] false

/-- The build of func() bool with body return true and-and g(). -/
def andTrueFn : FnState :=
  buildFunction [.ret [.bin .land (.boolLit true) gBoolCall]] [] [.boolT]

/-- The build of func() bool with body return false and-and g(). -/
def andFalseFn : FnState :=
  buildFunction [.ret [.bin .land (.boolLit false) gBoolCall]] [] [.boolT]

/-- The signature of the variadic scenario callee func(xs ...int) bool. -/
def sigVar : Sig := ⟨[.intT], true, [.boolT]⟩

/-- The forwarding argument xs of slice-of-int type. -/
def xsFwd : Expr := .ident "xs" (.slice .intT)

/-- A call to a function g returning a 3-element int array, used as a
side-effecting argument of array type. -/
def gArrCall : Expr := .callE (.fnV "g") ⟨[], false, [.array .intT 3]⟩ [] false

/-- The expected id-tagged store sequence of the named-result store
loop, given aligned types. -/
def storeShape : List Value → List Value → Nat → List (Nat × Instr)
  | nr :: nrs, v :: vs, id => (id, .store nr v) :: storeShape nrs vs (id + 1)
  | _, _, _ => []

/-- The expected id-tagged load sequence of the named-result reload
loop. -/
def loadShape : List Value → Nat → List (Nat × Instr)
  | nr :: nrs, id => (id, .load nr) :: loadShape nrs (id + 1)
  | [], _ => []

/-- The values produced by the named-result reload loop. -/
def loadVals : List Value → Nat → List Value
  | nr :: nrs, id => ⟨.reg id, nr.ty.pointee⟩ :: loadVals nrs (id + 1)
  | [], _ => []

/-- A function state mid-build with named result slots: the entry
block is current with prefix pre and next id n. -/
def mkNamedState (pre : List (Nat × Instr)) (n : Nat) (nrs : List Value)
    (rts : List Ty) : FnState :=
  ⟨[⟨"entry", [], [], pre⟩], some 0, n, [], [], nrs, rts, false⟩

/-- Tag a raw instruction list with consecutive ids. -/
def withIds (l : List Instr) (id : Nat) : List (Nat × Instr) :=
  match l with
  | [] => []
  | i :: rest => (id, i) :: withIds rest (id + 1)

/-- The trace the Init calls of the given import paths leave. -/
def importCallNames (ps : List String) : List String :=
  ps.map (fun p => "init." ++ p)

/-- No terminator among id-tagged instructions. -/
def noTermP (l : List (Nat × Instr)) : Bool :=
  l.all (fun q => !q.2.isTerm)

/-- The call targets of id-tagged instructions, in order. -/
def callsOfP (l : List (Nat × Instr)) : List String :=
  callsOf (l.map (fun q => q.2))

/-- Id-tagged instructions that never write the init$guard cell. -/
def noGuardStoreP (l : List (Nat × Instr)) : Bool :=
  noGuardStore (l.map (fun q => q.2))

/-- Every instruction but the last is a non-terminator: the at most one
terminator, at the tail block invariant (spec, section 8). -/
def okInstrs (l : List (Nat × Instr)) : Bool :=
  l.dropLast.all (fun q => !q.2.isTerm)

/-- Does the instruction list end in a terminator? -/
def termL (l : List (Nat × Instr)) : Bool :=
  match l.getLast? with
  | some q => q.2.isTerm
  | none => false

/-- Does the block end in a terminator? -/
def terminatedB (bb : BasicBlock) : Bool :=
  termL bb.instrs

/-- The build-time well-formedness invariant: every block has at most
one terminator, at its tail, and the current block, when set, is in
range and not yet terminated. -/
def invChk (s : FnState) : Bool :=
  s.blocks.all (fun bb => okInstrs bb.instrs) &&
    (match s.currentBlock with
     | none => true
     | some c => decide (c < s.blocks.length) && !terminatedB (getBlock s c))

/-- One lowering step is sound: the invariant is preserved, blocks only
grow, the instructions of blocks other than the current one are
untouched, and the current block can only stay or move to a newly
created block. -/
def StepOk (s s' : FnState) : Prop :=
  invChk s' = true ∧ s.blocks.length ≤ s'.blocks.length ∧
    (∀ i, i < s.blocks.length → s.currentBlock ≠ some i →
      (getBlock s' i).instrs = (getBlock s i).instrs) ∧
    (∀ c', s'.currentBlock = some c' →
      s'.currentBlock = s.currentBlock ∨ s.blocks.length ≤ c')

/-- The soundness contract of a value-producing lowering step: under
the invariant the step is sound and the entry current block either
stays current or has been terminated, the current block never becoming
unset. -/
def EProp (s s' : FnState) : Prop :=
  invChk s = true →
    StepOk s s' ∧
    ∀ c, s.currentBlock = some c →
      s'.currentBlock.isSome = true ∧
      (s'.currentBlock = some c ∨ terminatedB (getBlock s' c) = true)

/-- The soundness contract of cond: under the invariant the step is
sound, the current block is unset on return, and the entry current
block has been terminated. -/
def CProp (s s' : FnState) : Prop :=
  invChk s = true →
    StepOk s s' ∧ s'.currentBlock = none ∧
    ∀ c, s.currentBlock = some c → terminatedB (getBlock s' c) = true

/-! Claim theorems. -/

/-- C1 counterexample: the claim quantifies over every and-and
expression whose left operand the builder can prove constant, but
lowering func() bool with body return true and-and g() — left operand
the folded constant true — yields a body that does contain a Call to
g, so the emitted function does evaluate y. -/
theorem shortCircuitConstCex :
    countInstr (isCallTo "g") andTrueFn = 1 ∧
    countInstr (isCallTo "g") andTrueFn ≠ 0 := by
  have h : countInstr (isCallTo "g") andTrueFn = 1 := by
    simp [countInstr, andTrueFn, gBoolCall, buildFunction, stmtList, stmt,
      retResults, convEach, expr, exprN, logicalBinop, cond, valueOf, emitJump,
      emitIf, emit, appendInstr, addEdge, getBlock, newBasicBlock, setCur,
      startBody, emitConv, emitCallArgs, evalArgs, ellipsisArgs, builtin,
      calleeValue, Ty.beq, emptyBlock, storeResults, loadNamed, normalParams,
      convLoop, Ty.underlying, Ty.deref, typeOf, emitLoad, flattenArg, vFalse,
      vTrue, isCallTo, calleeName]
  exact ⟨h, by simp [h]⟩

/-- C1 (amended): when the folded constant left operand decides the
result — false for and-and, true for or-or — the emitted code is
independent of y, so y is never evaluated; lowering return true
and-and g() yields a body that calls g and returns its result with no
phi and no branch; lowering return false and-and g() yields a body
with no Call that returns the literal false. -/
theorem shortCircuitConstAmended :
    (allInstrs andTrueFn =
      [(0, .jump 1), (1, .call ⟨.fnref "g", .funcT⟩ []), (2, .runDefers),
       (3, .retI [⟨.reg 1, .boolT⟩])]) ∧
    (allInstrs andFalseFn =
      [(0, .jump 2), (1, .runDefers), (2, .retI [⟨.lit (.boolL false), .boolT⟩])]) ∧
    (∀ y pre n,
      logicalBinop .land (.boolLit false) y (mkState pre n) =
        (vFalse,
         ⟨[⟨"entry", [], [2], pre ++ [(n, .jump 2)]⟩,
           ⟨"binop.rhs", [], [], []⟩,
           ⟨"binop.done", [0], [], []⟩], some 2, n + 1, [], [], [], [], false⟩)) ∧
    (∀ y pre n,
      logicalBinop .lor (.boolLit true) y (mkState pre n) =
        (vTrue,
         ⟨[⟨"entry", [], [2], pre ++ [(n, .jump 2)]⟩,
           ⟨"binop.rhs", [], [], []⟩,
           ⟨"binop.done", [0], [], []⟩], some 2, n + 1, [], [], [], [], false⟩)) := by
  refine ⟨?_, ?_, ?_, ?_⟩
  · simp [allInstrs, andTrueFn, gBoolCall, buildFunction, stmtList, stmt,
      retResults, convEach, expr, exprN, logicalBinop, cond, valueOf, emitJump,
      emitIf, emit, appendInstr, addEdge, getBlock, newBasicBlock, setCur,
      startBody, emitConv, emitCallArgs, evalArgs, ellipsisArgs, builtin,
      calleeValue, Ty.beq, emptyBlock, storeResults, loadNamed, normalParams,
      convLoop, Ty.underlying, Ty.deref, typeOf, emitLoad, flattenArg, vFalse,
      vTrue]
  · simp [allInstrs, andFalseFn, gBoolCall, buildFunction, stmtList, stmt,
      retResults, convEach, expr, exprN, logicalBinop, cond, valueOf, emitJump,
      emitIf, emit, appendInstr, addEdge, getBlock, newBasicBlock, setCur,
      startBody, emitConv, emitCallArgs, evalArgs, ellipsisArgs, builtin,
      calleeValue, Ty.beq, emptyBlock, storeResults, loadNamed, normalParams,
      convLoop, Ty.underlying, Ty.deref, typeOf, emitLoad, flattenArg, vFalse,
      vTrue]
  · intro y pre n
    simp [logicalBinop, cond, expr, valueOf, emitJump, emit, appendInstr,
      addEdge, getBlock, newBasicBlock, setCur, mkState, emptyBlock, vFalse]
  · intro y pre n
    simp [logicalBinop, cond, expr, valueOf, emitJump, emit, appendInstr,
      addEdge, getBlock, newBasicBlock, setCur, mkState, emptyBlock, vTrue]

/-- C4 counterexample: the claim reads the length operand as a static
integer literal for arrays and otherwise a call to len, but for a range
over a pointer-to-array the code determines the iteration count through
Deref of the type: ranging over a value of type pointer to [3]int emits
no call to len at all, and the loop-head comparison reads the static
literal 3. -/
theorem rangeIndexedPtrArrayCex :
    countInstr (isCallTo "len")
      (rangeIndexed ⟨.param "a", .pointer (.array .intT 3)⟩ (some .intT)
        (mkState [] 0)).2.2.2.2 = 0 ∧
    (getBlock (rangeIndexed ⟨.param "a", .pointer (.array .intT 3)⟩ (some .intT)
        (mkState [] 0)).2.2.2.2 1).instrs =
      [(3, .load ⟨.reg 0, .pointer .intT⟩),
       (4, .binop .add ⟨.reg 3, .intT⟩ vOne),
       (5, .store ⟨.reg 0, .pointer .intT⟩ ⟨.reg 4, .intT⟩),
       (6, .binop .lss ⟨.reg 4, .intT⟩ (intLiteral 3)),
       (7, .ifI ⟨.reg 6, .boolT⟩ 2 3)] :=
  ⟨rfl, rfl⟩

/-- C4: rangeIndexed over a slice emits a len call, an index slot
stored -1, a jump to the loop head, which loads, increments and stores
the index, compares it to the length and branches; the body block
reloads the index into k and fetches the element by IndexAddr plus
Load; over an array the length is the static literal of the
compile-time length and the element fetch is an Index; over a
pointer-to-array the length is again the static literal — no len
call — and the element fetch is IndexAddr plus Load. -/
theorem rangeIndexedShapeAmended (xk : VKind) (T : Ty) (m : Int)
    (pre : List (Nat × Instr)) (n : Nat) :
    ((rangeIndexed ⟨xk, .slice T⟩ (some T) (mkState pre n)).1 = ⟨.reg (n+9), .intT⟩ ∧
     (rangeIndexed ⟨xk, .slice T⟩ (some T) (mkState pre n)).2.1 = some ⟨.reg (n+11), T⟩ ∧
     (rangeIndexed ⟨xk, .slice T⟩ (some T) (mkState pre n)).2.2.1 = 1 ∧
     (rangeIndexed ⟨xk, .slice T⟩ (some T) (mkState pre n)).2.2.2.1 = 3 ∧
     (getBlock (rangeIndexed ⟨xk, .slice T⟩ (some T) (mkState pre n)).2.2.2.2 0).instrs =
       pre ++ [(n, .call ⟨.fnref "len", .funcT⟩ [⟨xk, .slice T⟩]),
               (n+1, .alloc .intT false),
               (n+2, .store ⟨.reg (n+1), .pointer .intT⟩ (intLiteral (-1))),
               (n+3, .jump 1)] ∧
     (getBlock (rangeIndexed ⟨xk, .slice T⟩ (some T) (mkState pre n)).2.2.2.2 1).instrs =
       [(n+4, .load ⟨.reg (n+1), .pointer .intT⟩),
        (n+5, .binop .add ⟨.reg (n+4), .intT⟩ vOne),
        (n+6, .store ⟨.reg (n+1), .pointer .intT⟩ ⟨.reg (n+5), .intT⟩),
        (n+7, .binop .lss ⟨.reg (n+5), .intT⟩ ⟨.reg n, .intT⟩),
        (n+8, .ifI ⟨.reg (n+7), .boolT⟩ 2 3)] ∧
     (getBlock (rangeIndexed ⟨xk, .slice T⟩ (some T) (mkState pre n)).2.2.2.2 2).instrs =
       [(n+9, .load ⟨.reg (n+1), .pointer .intT⟩),
        (n+10, .indexAddr ⟨xk, .slice T⟩ ⟨.reg (n+9), .intT⟩),
        (n+11, .load ⟨.reg (n+10), .pointer T⟩)]) ∧
    ((rangeIndexed ⟨xk, .array T m⟩ (some T) (mkState pre n)).1 = ⟨.reg (n+8), .intT⟩ ∧
     (rangeIndexed ⟨xk, .array T m⟩ (some T) (mkState pre n)).2.1 = some ⟨.reg (n+9), T⟩ ∧
     (getBlock (rangeIndexed ⟨xk, .array T m⟩ (some T) (mkState pre n)).2.2.2.2 0).instrs =
       pre ++ [(n, .alloc .intT false),
               (n+1, .store ⟨.reg n, .pointer .intT⟩ (intLiteral (-1))),
               (n+2, .jump 1)] ∧
     (getBlock (rangeIndexed ⟨xk, .array T m⟩ (some T) (mkState pre n)).2.2.2.2 1).instrs =
       [(n+3, .load ⟨.reg n, .pointer .intT⟩),
        (n+4, .binop .add ⟨.reg (n+3), .intT⟩ vOne),
        (n+5, .store ⟨.reg n, .pointer .intT⟩ ⟨.reg (n+4), .intT⟩),
        (n+6, .binop .lss ⟨.reg (n+4), .intT⟩ (intLiteral m)),
        (n+7, .ifI ⟨.reg (n+6), .boolT⟩ 2 3)] ∧
     (getBlock (rangeIndexed ⟨xk, .array T m⟩ (some T) (mkState pre n)).2.2.2.2 2).instrs =
       [(n+8, .load ⟨.reg n, .pointer .intT⟩),
        (n+9, .indexI ⟨xk, .array T m⟩ ⟨.reg (n+8), .intT⟩)]) ∧
    ((rangeIndexed ⟨xk, .pointer (.array T m)⟩ (some T) (mkState pre n)).1 =
        ⟨.reg (n+8), .intT⟩ ∧
     (rangeIndexed ⟨xk, .pointer (.array T m)⟩ (some T) (mkState pre n)).2.1 =
        some ⟨.reg (n+10), T⟩ ∧
     (rangeIndexed ⟨xk, .pointer (.array T m)⟩ (some T) (mkState pre n)).2.2.1 = 1 ∧
     (rangeIndexed ⟨xk, .pointer (.array T m)⟩ (some T) (mkState pre n)).2.2.2.1 = 3 ∧
     (getBlock (rangeIndexed ⟨xk, .pointer (.array T m)⟩ (some T)
        (mkState pre n)).2.2.2.2 0).instrs =
       pre ++ [(n, .alloc .intT false),
               (n+1, .store ⟨.reg n, .pointer .intT⟩ (intLiteral (-1))),
               (n+2, .jump 1)] ∧
     (getBlock (rangeIndexed ⟨xk, .pointer (.array T m)⟩ (some T)
        (mkState pre n)).2.2.2.2 1).instrs =
       [(n+3, .load ⟨.reg n, .pointer .intT⟩),
        (n+4, .binop .add ⟨.reg (n+3), .intT⟩ vOne),
        (n+5, .store ⟨.reg n, .pointer .intT⟩ ⟨.reg (n+4), .intT⟩),
        (n+6, .binop .lss ⟨.reg (n+4), .intT⟩ (intLiteral m)),
        (n+7, .ifI ⟨.reg (n+6), .boolT⟩ 2 3)] ∧
     (getBlock (rangeIndexed ⟨xk, .pointer (.array T m)⟩ (some T)
        (mkState pre n)).2.2.2.2 2).instrs =
       [(n+8, .load ⟨.reg n, .pointer .intT⟩),
        (n+9, .indexAddr ⟨xk, .pointer (.array T m)⟩ ⟨.reg (n+8), .intT⟩),
        (n+10, .load ⟨.reg (n+9), .pointer T⟩)]) := by
  refine ⟨?_, ?_, ?_⟩
  · refine ⟨?_, ?_, ?_, ?_, ?_, ?_, ?_⟩ <;>
    simp [rangeIndexed, mkState, emit, appendInstr, addEdge, getBlock,
      newBasicBlock, setCur, emitJump, emitIf, emitLoad, emitStore, emitConv,
      emitCompare, addLocal, emptyBlock, Ty.deref, Ty.underlying, Ty.pointee,
      Ty.beq, vOne, intLiteral]
  · refine ⟨?_, ?_, ?_, ?_, ?_⟩ <;>
    simp [rangeIndexed, mkState, emit, appendInstr, addEdge, getBlock,
      newBasicBlock, setCur, emitJump, emitIf, emitLoad, emitStore, emitConv,
      emitCompare, addLocal, emptyBlock, Ty.deref, Ty.underlying, Ty.pointee,
      Ty.beq, vOne, intLiteral]
  · refine ⟨?_, ?_, ?_, ?_, ?_, ?_, ?_⟩ <;>
    simp [rangeIndexed, mkState, emit, appendInstr, addEdge, getBlock,
      newBasicBlock, setCur, emitJump, emitIf, emitLoad, emitStore, emitConv,
      emitCompare, addLocal, emptyBlock, Ty.deref, Ty.underlying, Ty.pointee,
      Ty.beq, vOne, intLiteral]

/-- C6: len and cap of an expression of array (or pointer-to-array)
type return the integer literal of the compile-time length, and the
resulting state is exactly the state after evaluating the argument, so
the argument is still evaluated for its effects. -/
theorem lenCapArrayConst (a : Expr) (t : Ty) (s : FnState) (et : Ty) (n : Int)
    (h : (typeOf a).deref.underlying = .array et n) :
    builtin "len" [a] t s = some (intLiteral n, (expr a s).2) ∧
    builtin "cap" [a] t s = some (intLiteral n, (expr a s).2) := by
  constructor <;> simp [builtin, h]

/-- C6 witness: len of a call returning a 3-element int array folds to
the literal 3 and keeps the call in the block. -/
theorem lenCapArrayConstWitness :
    (typeOf gArrCall).deref.underlying = .array .intT 3 ∧
    builtin "len" [gArrCall] .intT (mkState [] 0) =
      some (intLiteral 3, (expr gArrCall (mkState [] 0)).2) ∧
    countInstr (isCallTo "g") (expr gArrCall (mkState [] 0)).2 = 1 := by
  refine ⟨rfl, (lenCapArrayConst gArrCall .intT (mkState [] 0) .intT 3 rfl).1, ?_⟩
  simp [countInstr, expr, gArrCall, valueOf, emitCallArgs, evalArgs, builtin,
    emit, appendInstr, getBlock, mkState, emptyBlock, calleeValue, normalParams,
    convLoop, isCallTo, calleeName, typeOf]

/-- C7: for make of a slice type with exactly one size argument, the
emitted MakeSlice has its Len and Cap operands both equal to the value
computed for n. -/
theorem makeSliceLenEqCap (tE nE : Expr) (T : Ty) (s : FnState) :
    builtin "make" [tE, nE] (.slice T) s =
      some (emit (.makeSlice (expr nE s).1 (expr nE s).1) (.slice T) (expr nE s).2) := by
  simp [builtin, Ty.underlying]

/-- C8: CreatePackage returns an error exactly when type-checking
fails, attaching the first diagnostic and constructing no SSA package
in that case; on success the package is built and registered. -/
theorem createPackageErrorIff (b : BuilderSt) (p : String) (ms : List String) :
    (∀ e es, CreatePackage b p ms (e :: es) = (.error e, b)) ∧
    CreatePackage b p ms [] =
      (.ok (createPackageImpl p ms),
       ⟨b.packages ++ [(p, createPackageImpl p ms)]⟩) :=
  ⟨fun _ _ => rfl, rfl⟩

/-! Helper lemmas: instruction counting across the emit helpers. -/

theorem filterSum_set_append (p : Instr → Bool) (bs : List BasicBlock)
    (c : Nat) (q : Nat × Instr) (hc : c < bs.length) :
    ((bs.set c { bs.getD c emptyBlock with
        instrs := (bs.getD c emptyBlock).instrs ++ [q] }).map
      (fun bb => (bb.instrs.filter (fun r => p r.2)).length)).sum =
    ((bs.map (fun bb => (bb.instrs.filter (fun r => p r.2)).length)).sum +
      (if p q.2 then 1 else 0)) := by
  induction bs generalizing c with
  | nil => simp at hc
  | cons b rest ih =>
      cases c with
      | zero =>
          simp only [List.set, List.getD_cons_zero, List.map_cons, List.sum_cons,
            List.filter_append, List.length_append]
          cases hpq : p q.2 <;> simp [hpq] <;> omega
      | succ c' =>
          have hc' : c' < rest.length := by simpa using hc
          have e2 : (b :: rest).getD (c' + 1) emptyBlock = rest.getD c' emptyBlock := rfl
          rw [e2]
          have e1 : ∀ z : BasicBlock, (b :: rest).set (c' + 1) z = b :: rest.set c' z :=
            fun z => rfl
          rw [e1]
          simp only [List.map_cons, List.sum_cons]
          rw [ih c' hc']
          omega

theorem countInstr_appendInstr (p : Instr → Bool) (c : Nat) (ins : Instr)
    (s : FnState) (hc : c < s.blocks.length) :
    countInstr p (appendInstr c ins s) =
      countInstr p s + (if p ins then 1 else 0) := by
  simp only [countInstr, appendInstr, getBlock]
  exact filterSum_set_append p s.blocks c (s.nextId, ins) hc

theorem emit_counts (p : Instr → Bool) (ins : Instr) (t : Ty) (s : FnState)
    (c : Nat) (hcur : s.currentBlock = some c) (hc : c < s.blocks.length) :
    countInstr p (emit ins t s).2 = countInstr p s + (if p ins then 1 else 0) ∧
    (emit ins t s).2.currentBlock = some c ∧
    (emit ins t s).2.blocks.length = s.blocks.length := by
  simp only [emit, hcur]
  exact ⟨countInstr_appendInstr p c ins s hc, hcur, by simp [appendInstr]⟩

theorem emitConv_counts (p : Instr → Bool) (v : Value) (t : Ty) (s : FnState)
    (c : Nat) (hcur : s.currentBlock = some c) (hc : c < s.blocks.length)
    (hconv : ∀ x u, p (.conv x u) = false) :
    countInstr p (emitConv v t s).2 = countInstr p s ∧
    (emitConv v t s).2.currentBlock = some c ∧
    (emitConv v t s).2.blocks.length = s.blocks.length := by
  unfold emitConv
  by_cases hb : Ty.beq v.ty t = true
  · simp [hb, hcur]
  · simp only [hb]
    cases hv : v.kind with
    | lit l => simp [hcur]
    | _ => simp_all [emit_counts p _ _ s c hcur hc, hconv]


theorem emitStore_counts (p : Instr → Bool) (pb : Bool) (a v : Value)
    (s : FnState) (c : Nat) (hcur : s.currentBlock = some c)
    (hc : c < s.blocks.length)
    (hconv : ∀ x u, p (.conv x u) = false)
    (hst : ∀ x y, p (.store x y) = pb) :
    countInstr p (emitStore a v s) = countInstr p s + (if pb then 1 else 0) ∧
    (emitStore a v s).currentBlock = some c ∧
    (emitStore a v s).blocks.length = s.blocks.length := by
  unfold emitStore
  rcases hco : emitConv v a.ty.pointee s with ⟨v1, s1⟩
  have hc1 := emitConv_counts p v a.ty.pointee s c hcur hc hconv
  rw [hco] at hc1
  obtain ⟨hcnt, hcur1, hlen1⟩ := hc1
  have he := emit_counts p (.store a v1) .invalid s1 c hcur1 (hlen1 ▸ hc)
  simp only [hst] at he
  exact ⟨by rw [he.1, hcnt], he.2.1, by rw [he.2.2, hlen1]⟩

theorem storeVarargs_counts (p : Instr → Bool) (pb : Bool) (vs : List Value)
    (a : Value) (vt : Ty) (i : Nat) (s : FnState) (c : Nat)
    (hcur : s.currentBlock = some c) (hc : c < s.blocks.length)
    (hconv : ∀ x u, p (.conv x u) = false)
    (hst : ∀ x y, p (.store x y) = pb)
    (hia : ∀ x y, p (.indexAddr x y) = false) :
    countInstr p (storeVarargs a vt vs i s) =
      countInstr p s + vs.length * (if pb then 1 else 0) ∧
    (storeVarargs a vt vs i s).currentBlock = some c ∧
    (storeVarargs a vt vs i s).blocks.length = s.blocks.length := by
  induction vs generalizing i s with
  | nil => simp [storeVarargs, hcur]
  | cons v rest ih =>
      simp only [storeVarargs]
      rcases hia1 : emit (.indexAddr a (intLiteral i)) (.pointer vt) s with ⟨ia, s1⟩
      have he := emit_counts p (.indexAddr a (intLiteral i)) (.pointer vt) s c hcur hc
      rw [hia1] at he
      obtain ⟨hcnt1, hcur1, hlen1⟩ := he
      simp only [hia] at hcnt1
      have hst1 := emitStore_counts p pb ia v s1 c hcur1 (hlen1 ▸ hc) hconv hst
      obtain ⟨hcnt2, hcur2, hlen2⟩ := hst1
      have hrec := ih (i + 1) (emitStore ia v s1) hcur2 (by rw [hlen2, hlen1]; exact hc)
      obtain ⟨hcnt3, hcur3, hlen3⟩ := hrec
      refine ⟨?_, hcur3, by rw [hlen3, hlen2, hlen1]⟩
      rw [hcnt3, hcnt2, hcnt1]
      cases pb <;> simp <;> omega


theorem emit_fst (ins : Instr) (t : Ty) (s : FnState) :
    (emit ins t s).1 = ⟨.reg s.nextId, t⟩ := by
  cases h : s.currentBlock <;> simp [emit, h]

theorem emitCallArgs_variadic_eq (sig : Sig) (args : List Expr)
    (pre acc acc2 : List Value) (s s1 s2 : FnState)
    (hvar : sig.variadic = true)
    (h1 : evalArgs args pre s = (acc, s1))
    (h2 : convLoop pre.length (sig.params.take (normalParams sig)) 0 acc s1 = (acc2, s2))
    (hne : (acc2.drop (pre.length + normalParams sig)).isEmpty = false) :
    emitCallArgs sig false args pre s =
      (acc2.take (pre.length + normalParams sig) ++
        [(emit (.sliceI (emitNew (Ty.array (sig.params.getD (normalParams sig) .invalid)
            ((acc2.drop (pre.length + normalParams sig)).length)) s2).1 none none)
          (.slice (sig.params.getD (normalParams sig) .invalid))
          (storeVarargs
            (emitNew (Ty.array (sig.params.getD (normalParams sig) .invalid)
              ((acc2.drop (pre.length + normalParams sig)).length)) s2).1
            (sig.params.getD (normalParams sig) .invalid)
            (acc2.drop (pre.length + normalParams sig)) 0
            (emitNew (Ty.array (sig.params.getD (normalParams sig) .invalid)
              ((acc2.drop (pre.length + normalParams sig)).length)) s2).2)).1],
       (emit (.sliceI (emitNew (Ty.array (sig.params.getD (normalParams sig) .invalid)
            ((acc2.drop (pre.length + normalParams sig)).length)) s2).1 none none)
          (.slice (sig.params.getD (normalParams sig) .invalid))
          (storeVarargs
            (emitNew (Ty.array (sig.params.getD (normalParams sig) .invalid)
              ((acc2.drop (pre.length + normalParams sig)).length)) s2).1
            (sig.params.getD (normalParams sig) .invalid)
            (acc2.drop (pre.length + normalParams sig)) 0
            (emitNew (Ty.array (sig.params.getD (normalParams sig) .invalid)
              ((acc2.drop (pre.length + normalParams sig)).length)) s2).2)).2) := by
  simp only [emitCallArgs, h1, h2, hvar, hne, Bool.false_eq_true, if_false, if_true,
    Bool.true_eq_false]




theorem variadicMarshalAmended (sig : Sig) (args : List Expr)
    (pre acc acc2 : List Value) (s s1 s2 : FnState) (c : Nat)
    (hvar : sig.variadic = true)
    (h1 : evalArgs args pre s = (acc, s1))
    (h2 : convLoop pre.length (sig.params.take (normalParams sig)) 0 acc s1 = (acc2, s2))
    (hcur : s2.currentBlock = some c) (hc : c < s2.blocks.length)
    (hne : (acc2.drop (pre.length + normalParams sig)).isEmpty = false) :
    (∃ sid s',
      emitCallArgs sig false args pre s =
        (acc2.take (pre.length + normalParams sig) ++
          [⟨.reg sid, .slice (sig.params.getD (normalParams sig) .invalid)⟩], s') ∧
      countInstr isAllocInstr s' = countInstr isAllocInstr s2 + 1 ∧
      countInstr (isArrAllocLen ((acc2.drop (pre.length + normalParams sig)).length)) s' =
        countInstr (isArrAllocLen ((acc2.drop (pre.length + normalParams sig)).length)) s2 + 1 ∧
      countInstr isStoreInstr s' = countInstr isStoreInstr s2 +
        (acc2.drop (pre.length + normalParams sig)).length ∧
      countInstr isSliceInstr s' = countInstr isSliceInstr s2 + 1) ∧
    (∀ (sg : Sig) (as2 : List Expr) (pr : List Value) (st : FnState),
      emitCallArgs sg true as2 pr st = ellipsisArgs sg as2.length 0 as2 pr st) ∧
    countInstr isAllocInstr (emitCallArgs sigVar true [xsFwd] [] (mkState [] 0)).2 = 0 ∧
    emitCallArgs sigVar false [.intLit 1, .intLit 2, .intLit 3] [] (mkState [] 0) =
      ([⟨.reg 7, .slice .intT⟩],
       ⟨[⟨"entry", [], [],
          [(0, .alloc (.array .intT 3) true),
           (1, .indexAddr ⟨.reg 0, .pointer (.array .intT 3)⟩ (intLiteral 0)),
           (2, .store ⟨.reg 1, .pointer .intT⟩ (intLiteral 1)),
           (3, .indexAddr ⟨.reg 0, .pointer (.array .intT 3)⟩ (intLiteral 1)),
           (4, .store ⟨.reg 3, .pointer .intT⟩ (intLiteral 2)),
           (5, .indexAddr ⟨.reg 0, .pointer (.array .intT 3)⟩ (intLiteral 2)),
           (6, .store ⟨.reg 5, .pointer .intT⟩ (intLiteral 3)),
           (7, .sliceI ⟨.reg 0, .pointer (.array .intT 3)⟩ none none)]⟩],
        some 0, 8, [], [], [], [], false⟩) := by
  refine ⟨?_, fun sg as2 pr st => by simp [emitCallArgs], ?_, ?_⟩
  · have heq := emitCallArgs_variadic_eq sig args pre acc acc2 s s1 s2 hvar h1 h2 hne
    rcases h3 : emitNew (Ty.array (sig.params.getD (normalParams sig) .invalid)
        ((acc2.drop (pre.length + normalParams sig)).length)) s2 with ⟨a, s3⟩
    rw [h3] at heq
    have hal := emit_counts isAllocInstr
      (.alloc (Ty.array (sig.params.getD (normalParams sig) .invalid)
        ((acc2.drop (pre.length + normalParams sig)).length)) true)
      (.pointer (Ty.array (sig.params.getD (normalParams sig) .invalid)
        ((acc2.drop (pre.length + normalParams sig)).length))) s2 c hcur hc
    have harr := emit_counts (isArrAllocLen ((acc2.drop (pre.length + normalParams sig)).length))
      (.alloc (Ty.array (sig.params.getD (normalParams sig) .invalid)
        ((acc2.drop (pre.length + normalParams sig)).length)) true)
      (.pointer (Ty.array (sig.params.getD (normalParams sig) .invalid)
        ((acc2.drop (pre.length + normalParams sig)).length))) s2 c hcur hc
    have hstc := emit_counts isStoreInstr
      (.alloc (Ty.array (sig.params.getD (normalParams sig) .invalid)
        ((acc2.drop (pre.length + normalParams sig)).length)) true)
      (.pointer (Ty.array (sig.params.getD (normalParams sig) .invalid)
        ((acc2.drop (pre.length + normalParams sig)).length))) s2 c hcur hc
    have hslc := emit_counts isSliceInstr
      (.alloc (Ty.array (sig.params.getD (normalParams sig) .invalid)
        ((acc2.drop (pre.length + normalParams sig)).length)) true)
      (.pointer (Ty.array (sig.params.getD (normalParams sig) .invalid)
        ((acc2.drop (pre.length + normalParams sig)).length))) s2 c hcur hc
    rw [show emit (.alloc (Ty.array (sig.params.getD (normalParams sig) .invalid)
        ((acc2.drop (pre.length + normalParams sig)).length)) true)
      (.pointer (Ty.array (sig.params.getD (normalParams sig) .invalid)
        ((acc2.drop (pre.length + normalParams sig)).length))) s2 =
      emitNew (Ty.array (sig.params.getD (normalParams sig) .invalid)
        ((acc2.drop (pre.length + normalParams sig)).length)) s2 from rfl, h3] at hal harr hstc hslc
    simp only [isAllocInstr, isArrAllocLen, isStoreInstr, isSliceInstr, beq_self_eq_true,
      if_true, if_false, Bool.false_eq_true] at hal harr hstc hslc
    obtain ⟨hal1, hcur3, hlen3⟩ := hal
    have hsv_al := storeVarargs_counts isAllocInstr false
      (acc2.drop (pre.length + normalParams sig)) a
      (sig.params.getD (normalParams sig) .invalid) 0 s3 c hcur3 (hlen3 ▸ hc)
      (fun x u => rfl) (fun x y => rfl) (fun x y => rfl)
    have hsv_arr := storeVarargs_counts (isArrAllocLen ((acc2.drop (pre.length + normalParams sig)).length)) false
      (acc2.drop (pre.length + normalParams sig)) a
      (sig.params.getD (normalParams sig) .invalid) 0 s3 c hcur3 (hlen3 ▸ hc)
      (fun x u => rfl) (fun x y => rfl) (fun x y => rfl)
    have hsv_st := storeVarargs_counts isStoreInstr true
      (acc2.drop (pre.length + normalParams sig)) a
      (sig.params.getD (normalParams sig) .invalid) 0 s3 c hcur3 (hlen3 ▸ hc)
      (fun x u => rfl) (fun x y => rfl) (fun x y => rfl)
    have hsv_sl := storeVarargs_counts isSliceInstr false
      (acc2.drop (pre.length + normalParams sig)) a
      (sig.params.getD (normalParams sig) .invalid) 0 s3 c hcur3 (hlen3 ▸ hc)
      (fun x u => rfl) (fun x y => rfl) (fun x y => rfl)
    obtain ⟨hsv1, hcur4, hlen4⟩ := hsv_al
    have hem_al := emit_counts isAllocInstr (.sliceI a none none)
      (.slice (sig.params.getD (normalParams sig) .invalid))
      (storeVarargs a (sig.params.getD (normalParams sig) .invalid)
        (acc2.drop (pre.length + normalParams sig)) 0 s3) c hcur4
      (by rw [hlen4, hlen3]; exact hc)
    have hem_arr := emit_counts (isArrAllocLen ((acc2.drop (pre.length + normalParams sig)).length))
      (.sliceI a none none)
      (.slice (sig.params.getD (normalParams sig) .invalid))
      (storeVarargs a (sig.params.getD (normalParams sig) .invalid)
        (acc2.drop (pre.length + normalParams sig)) 0 s3) c hcur4
      (by rw [hlen4, hlen3]; exact hc)
    have hem_st := emit_counts isStoreInstr (.sliceI a none none)
      (.slice (sig.params.getD (normalParams sig) .invalid))
      (storeVarargs a (sig.params.getD (normalParams sig) .invalid)
        (acc2.drop (pre.length + normalParams sig)) 0 s3) c hcur4
      (by rw [hlen4, hlen3]; exact hc)
    have hem_sl := emit_counts isSliceInstr (.sliceI a none none)
      (.slice (sig.params.getD (normalParams sig) .invalid))
      (storeVarargs a (sig.params.getD (normalParams sig) .invalid)
        (acc2.drop (pre.length + normalParams sig)) 0 s3) c hcur4
      (by rw [hlen4, hlen3]; exact hc)
    simp only [isAllocInstr, isArrAllocLen, isStoreInstr, isSliceInstr,
      if_true, if_false, Bool.false_eq_true] at hem_al hem_arr hem_st hem_sl
    refine ⟨(storeVarargs a (sig.params.getD (normalParams sig) .invalid)
        (acc2.drop (pre.length + normalParams sig)) 0 s3).nextId,
      (emit (.sliceI a none none) (.slice (sig.params.getD (normalParams sig) .invalid))
        (storeVarargs a (sig.params.getD (normalParams sig) .invalid)
          (acc2.drop (pre.length + normalParams sig)) 0 s3)).2, ?_, ?_, ?_, ?_, ?_⟩
    · rw [heq, emit_fst]
    · rw [hem_al.1, hsv1, hal1]; simp
    · rw [hem_arr.1, hsv_arr.1, harr.1]; simp
    · rw [hem_st.1, hsv_st.1, hstc.1]; simp
    · rw [hem_sl.1, hsv_sl.1, hslc.1]; simp
  · simp [emitCallArgs, ellipsisArgs, expr, valueOf, xsFwd, sigVar, emitConv,
      emitLoad, emit, appendInstr, getBlock, mkState, emptyBlock, Ty.beq,
      Ty.pointee, countInstr, isAllocInstr]
  · simp [emitCallArgs, evalArgs, expr, valueOf, sigVar, normalParams, convLoop,
      flattenArg, emitNew, storeVarargs, emitStore, emitConv, emit, appendInstr,
      getBlock, mkState, emptyBlock, Ty.beq, Ty.pointee, intLiteral, typeOf]


theorem variadicZeroArgsCex :
    emitCallArgs sigVar false [] [] (mkState [] 0) =
      ([nilLiteral (.slice .intT)], mkState [] 0) ∧
    countInstr isAllocInstr (emitCallArgs sigVar false [] [] (mkState [] 0)).2 = 0 ∧
    countInstr isAllocInstr (emitCallArgs sigVar false [] [] (mkState [] 0)).2 ≠ 1 := by
  have h : emitCallArgs sigVar false [] [] (mkState [] 0) =
      ([nilLiteral (.slice .intT)], mkState [] 0) := by
    simp [emitCallArgs, evalArgs, sigVar, normalParams, convLoop]
  refine ⟨h, ?_, ?_⟩ <;> rw [h] <;> simp [countInstr, mkState]

theorem variadicMarshalAmendedWitness :
    ∃ sid s',
      emitCallArgs sigVar false [.intLit 1, .intLit 2, .intLit 3] [] (mkState [] 0) =
        ([⟨.reg sid, .slice .intT⟩], s') ∧
      countInstr isAllocInstr s' = 1 ∧
      countInstr (isArrAllocLen 3) s' = 1 ∧
      countInstr isStoreInstr s' = 3 ∧
      countInstr isSliceInstr s' = 1 := by
  have h := (variadicMarshalAmended sigVar [.intLit 1, .intLit 2, .intLit 3]
      [] [intLiteral 1, intLiteral 2, intLiteral 3]
      [intLiteral 1, intLiteral 2, intLiteral 3]
      (mkState [] 0) (mkState [] 0) (mkState [] 0) 0 rfl
      (by simp [evalArgs, expr, valueOf, flattenArg, intLiteral])
      rfl rfl (by simp [mkState]) rfl).1
  simpa [sigVar, normalParams, countInstr, mkState] using h

theorem getBlock_appendInstr_self (c : Nat) (ins : Instr) (s : FnState)
    (hc : c < s.blocks.length) :
    getBlock (appendInstr c ins s) c =
      { getBlock s c with instrs := (getBlock s c).instrs ++ [(s.nextId, ins)] } := by
  simp [getBlock, appendInstr, List.getD, List.getElem?_set_self, hc]

theorem getBlock_appendInstr_ne (c i : Nat) (ins : Instr) (s : FnState)
    (hne : i ≠ c) :
    getBlock (appendInstr c ins s) i = getBlock s i := by
  simp [getBlock, appendInstr, List.getD, List.getElem?_set_ne, hne.symm]


theorem storeResults_shape (nrs vals : List Value) (s : FnState) (c : Nat)
    (hcur : s.currentBlock = some c) (hc : c < s.blocks.length)
    (hal : List.Forall₂ (fun (nr v : Value) => Ty.beq v.ty nr.ty.pointee = true) nrs vals) :
    (storeResults nrs vals s).currentBlock = some c ∧
    (storeResults nrs vals s).blocks.length = s.blocks.length ∧
    (storeResults nrs vals s).nextId = s.nextId + nrs.length ∧
    (storeResults nrs vals s).namedResults = s.namedResults ∧
    (getBlock (storeResults nrs vals s) c).instrs =
      (getBlock s c).instrs ++ storeShape nrs vals s.nextId := by
  induction hal generalizing s with
  | nil => simp [storeResults, storeShape, hcur]
  | @cons nr v nrs' vals' hb htl ih =>
      simp only [storeResults]
      have hst : emitStore nr v s = appendInstr c (.store nr v) s := by
        simp [emitStore, emitConv, hb, emit, hcur]
      rw [hst]
      have hrec := ih (appendInstr c (.store nr v) s) (by simp [appendInstr, hcur])
        (by simp [appendInstr, hc])
      obtain ⟨r1, r2, r3, r4, r5⟩ := hrec
      refine ⟨r1, ?_, ?_, ?_, ?_⟩
      · rw [r2]; simp [appendInstr]
      · rw [r3]; simp [appendInstr]; omega
      · rw [r4]; simp [appendInstr]
      · rw [r5, getBlock_appendInstr_self c _ s hc]
        simp [appendInstr, storeShape, List.append_assoc]

theorem loadNamed_shape (nrs : List Value) (s : FnState) (c : Nat)
    (hcur : s.currentBlock = some c) (hc : c < s.blocks.length) :
    (loadNamed nrs s).1 = loadVals nrs s.nextId ∧
    (loadNamed nrs s).2.currentBlock = some c ∧
    (loadNamed nrs s).2.blocks.length = s.blocks.length ∧
    (loadNamed nrs s).2.nextId = s.nextId + nrs.length ∧
    (loadNamed nrs s).2.namedResults = s.namedResults ∧
    (getBlock (loadNamed nrs s).2 c).instrs =
      (getBlock s c).instrs ++ loadShape nrs s.nextId := by
  induction nrs generalizing s with
  | nil => simp [loadNamed, loadShape, loadVals, hcur]
  | cons nr rest ih =>
      simp only [loadNamed]
      have hld : emitLoad nr s = (⟨.reg s.nextId, nr.ty.pointee⟩, appendInstr c (.load nr) s) := by
        simp [emitLoad, emit, hcur]
      rw [hld]
      have hrec := ih (appendInstr c (.load nr) s) (by simp [appendInstr, hcur])
        (by simp [appendInstr, hc])
      obtain ⟨r0, r1, r2, r3, r4, r5⟩ := hrec
      refine ⟨?_, r1, ?_, ?_, ?_, ?_⟩
      · rw [r0]; simp [loadVals, appendInstr]
      · rw [r2]; simp [appendInstr]
      · rw [r3]; simp [appendInstr]; omega
      · rw [r4]; simp [appendInstr]
      · rw [r5, getBlock_appendInstr_self c _ s hc]
        simp [appendInstr, loadShape, List.append_assoc]


theorem getBlock_newBB (nm : String) (s : FnState) (c : Nat)
    (hc : c < s.blocks.length) :
    getBlock (newBasicBlock nm s).2 c = getBlock s c := by
  simp only [newBasicBlock, getBlock]
  rw [List.getD_append _ _ _ _ hc]

theorem length_appendInstr (c : Nat) (ins : Instr) (s : FnState) :
    (appendInstr c ins s).blocks.length = s.blocks.length := by
  simp [appendInstr]

theorem getBlock_fresh_tail (nm : String) (s : FnState) (c : Nat)
    (hc : c < s.blocks.length) :
    getBlock (setCur (newBasicBlock nm s).1 (newBasicBlock nm s).2) c =
      getBlock s c := by
  simp only [newBasicBlock, setCur, getBlock]
  rw [List.getD_append _ _ _ _ hc]

theorem namedResultsReturnOrder (res : List Expr) (s s1 : FnState)
    (vals : List Value) (c : Nat)
    (hinit : s.isInit = false)
    (h1 : retResults res s = (vals, s1))
    (hcur : s1.currentBlock = some c) (hc : c < s1.blocks.length)
    (hnr : s1.namedResults ≠ [])
    (hal : List.Forall₂ (fun (nr v : Value) => Ty.beq v.ty nr.ty.pointee = true)
      s1.namedResults vals) :
    (getBlock (stmt (.ret res) s) c).instrs =
      (getBlock s1 c).instrs ++
      storeShape s1.namedResults vals s1.nextId ++
      [(s1.nextId + s1.namedResults.length, .runDefers)] ++
      loadShape s1.namedResults (s1.nextId + s1.namedResults.length + 1) ++
      [(s1.nextId + s1.namedResults.length + 1 + s1.namedResults.length,
        .retI (loadVals s1.namedResults (s1.nextId + s1.namedResults.length + 1)))] := by
  have hie : s1.namedResults.isEmpty = false := by
    cases hx : s1.namedResults with
    | nil => exact absurd hx hnr
    | cons a l => rfl
  obtain ⟨curA, lenA, nidA, nmrA, blkA⟩ :=
    storeResults_shape s1.namedResults vals s1 c hcur hc hal
  have hemit : emit Instr.runDefers Ty.invalid (storeResults s1.namedResults vals s1) =
      (⟨.reg (storeResults s1.namedResults vals s1).nextId, .invalid⟩,
       appendInstr c .runDefers (storeResults s1.namedResults vals s1)) := by
    simp [emit, curA]
  have curB : (appendInstr c Instr.runDefers (storeResults s1.namedResults vals s1)).currentBlock = some c := by
    simp [appendInstr, curA]
  have lenB : (appendInstr c Instr.runDefers (storeResults s1.namedResults vals s1)).blocks.length = s1.blocks.length := by
    simp [appendInstr, lenA]
  have nidB : (appendInstr c Instr.runDefers (storeResults s1.namedResults vals s1)).nextId =
      s1.nextId + s1.namedResults.length + 1 := by
    simp [appendInstr, nidA]
  have nmrB : (appendInstr c Instr.runDefers (storeResults s1.namedResults vals s1)).namedResults =
      s1.namedResults := by
    simp [appendInstr, nmrA]
  have blkB : (getBlock (appendInstr c Instr.runDefers (storeResults s1.namedResults vals s1)) c).instrs =
      (getBlock s1 c).instrs ++ storeShape s1.namedResults vals s1.nextId ++
        [(s1.nextId + s1.namedResults.length, .runDefers)] := by
    rw [getBlock_appendInstr_self c _ _ (lenA ▸ hc)]
    simp [blkA, nidA]
  obtain ⟨lv, curC, lenC, nidC, nmrC, blkC⟩ :=
    loadNamed_shape s1.namedResults
      (appendInstr c Instr.runDefers (storeResults s1.namedResults vals s1)) c curB (lenB ▸ hc)
  have hemit2 : emit
      (Instr.retI (loadNamed s1.namedResults
        (appendInstr c Instr.runDefers (storeResults s1.namedResults vals s1))).1) Ty.invalid
      (loadNamed s1.namedResults
        (appendInstr c Instr.runDefers (storeResults s1.namedResults vals s1))).2 =
      (⟨.reg (loadNamed s1.namedResults
        (appendInstr c Instr.runDefers (storeResults s1.namedResults vals s1))).2.nextId, .invalid⟩,
       appendInstr c
        (Instr.retI (loadNamed s1.namedResults
          (appendInstr c Instr.runDefers (storeResults s1.namedResults vals s1))).1)
        (loadNamed s1.namedResults
          (appendInstr c Instr.runDefers (storeResults s1.namedResults vals s1))).2) := by
    simp [emit, curC]
  simp only [stmt, hinit, Bool.false_eq_true, if_false, h1, hie, nmrB, hemit, hemit2]
  rw [getBlock_fresh_tail _ _ c
    (by simp only [length_appendInstr, lenC, lenB]; exact hc)]
  rw [getBlock_appendInstr_self c _ _ (by rw [lenC, lenB]; exact hc)]
  simp [blkC, blkB, nidC, nidB, nmrB, lv, List.append_assoc]


theorem freshTail_spec (nm : String) (t : FnState) :
    ∃ m,
      (let (nb, s2) := newBasicBlock nm t
       setCur nb s2).currentBlock = some m ∧
      m + 1 =
        (let (nb, s2) := newBasicBlock nm t
         setCur nb s2).blocks.length ∧
      (getBlock
        (let (nb, s2) := newBasicBlock nm t
         setCur nb s2) m).instrs = [] ∧
      (getBlock
        (let (nb, s2) := newBasicBlock nm t
         setCur nb s2) m).preds = [] := by
  refine ⟨t.blocks.length, ?_, ?_, ?_, ?_⟩ <;>
    simp [newBasicBlock, setCur, getBlock, List.getD_append_right]

theorem stmtFreshUnreachable :
    (∀ (res : List Expr) (s : FnState), ∃ m,
      (stmt (.ret res) s).currentBlock = some m ∧
      m + 1 = (stmt (.ret res) s).blocks.length ∧
      (getBlock (stmt (.ret res) s) m).instrs = [] ∧
      (getBlock (stmt (.ret res) s) m).preds = []) ∧
    (∀ (tok : BrTok) (lbl : Option String) (s : FnState) (b : Nat) (s1 : FnState),
      branchTarget tok lbl s = (some b, s1) → ∃ m,
      (stmt (.branch tok lbl) s).currentBlock = some m ∧
      m + 1 = (stmt (.branch tok lbl) s).blocks.length ∧
      (getBlock (stmt (.branch tok lbl) s) m).instrs = [] ∧
      (getBlock (stmt (.branch tok lbl) s) m).preds = []) := by
  constructor
  · intro res s
    cases hi : s.isInit
    · rcases h1 : retResults res s with ⟨vals, s1⟩
      simp only [stmt, hi, Bool.false_eq_true, if_false, h1]
      cases hne1 : s1.namedResults.isEmpty <;> simp only [hne1, Bool.false_eq_true, if_false, if_true] <;>
        exact freshTail_spec "unreachable" _
    · simp only [stmt, hi, if_true]
      cases hb : outermostBreak s.targets <;> simp only [hb] <;>
        exact freshTail_spec "unreachable" _
  · intro tok lbl s b s1 hbt
    simp only [stmt, hbt]
    exact freshTail_spec "unreachable" _

theorem stmtFreshUnreachableWitness :
    (∃ m,
      (stmt (.ret [.intLit 5]) (mkState [] 0)).currentBlock = some m ∧
      m + 1 = (stmt (.ret [.intLit 5]) (mkState [] 0)).blocks.length ∧
      (getBlock (stmt (.ret [.intLit 5]) (mkState [] 0)) m).instrs = [] ∧
      (getBlock (stmt (.ret [.intLit 5]) (mkState [] 0)) m).preds = []) ∧
    (∃ m,
      (stmt (.branch .brk none)
        ⟨[⟨"entry", [], [], []⟩], some 0, 0, [⟨some 0, none, none⟩], [], [], [], false⟩).currentBlock = some m ∧
      m + 1 = (stmt (.branch .brk none)
        ⟨[⟨"entry", [], [], []⟩], some 0, 0, [⟨some 0, none, none⟩], [], [], [], false⟩).blocks.length ∧
      (getBlock (stmt (.branch .brk none)
        ⟨[⟨"entry", [], [], []⟩], some 0, 0, [⟨some 0, none, none⟩], [], [], [], false⟩) m).instrs = [] ∧
      (getBlock (stmt (.branch .brk none)
        ⟨[⟨"entry", [], [], []⟩], some 0, 0, [⟨some 0, none, none⟩], [], [], [], false⟩) m).preds = []) := by
  constructor
  · exact stmtFreshUnreachable.1 [.intLit 5] (mkState [] 0)
  · exact stmtFreshUnreachable.2 .brk none
      ⟨[⟨"entry", [], [], []⟩], some 0, 0, [⟨some 0, none, none⟩], [], [], [], false⟩ 0
      ⟨[⟨"entry", [], [], []⟩], some 0, 0, [⟨some 0, none, none⟩], [], [], [], false⟩
      (by simp [branchTarget, firstBreak])


theorem namedResultsReturnOrderWitness :
    (getBlock (stmt (.ret [.intLit 7])
        (mkNamedState [] 0 [⟨.param "r0", .pointer .intT⟩] [.intT])) 0).instrs =
      [(0, .store ⟨.param "r0", .pointer .intT⟩ (intLiteral 7)),
       (1, .runDefers),
       (2, .load ⟨.param "r0", .pointer .intT⟩),
       (3, .retI [⟨.reg 2, .intT⟩])] := by
  have h := namedResultsReturnOrder [.intLit 7]
      (mkNamedState [] 0 [⟨.param "r0", .pointer .intT⟩] [.intT])
      (mkNamedState [] 0 [⟨.param "r0", .pointer .intT⟩] [.intT])
      [intLiteral 7] 0 rfl
      (by simp [retResults, convEach, expr, valueOf, emitConv, Ty.beq, mkNamedState,
        intLiteral])
      rfl (by simp [mkNamedState]) (by simp [mkNamedState])
      (by simp [mkNamedState, Ty.beq, Ty.pointee, intLiteral])
  simpa [mkNamedState, storeShape, loadShape, loadVals, getBlock, emptyBlock,
    Ty.pointee, intLiteral] using h

theorem withIds_map_snd (l : List Instr) (n : Nat) :
    (withIds l n).map (fun q => q.2) = l := by
  induction l generalizing n with
  | nil => simp [withIds]
  | cons i rest ih => simp [withIds, ih]

theorem execInstrs_straight (l rest : List (Nat × Instr)) (st : ExecSt)
    (hnt : noTermP l = true) (hng : noGuardStoreP l = true) :
    ∃ env', execInstrs (l ++ rest) st =
      execInstrs rest ⟨env', st.guard, st.tr ++ callsOfP l⟩ := by
  induction l generalizing st with
  | nil => exact ⟨st.env, by simp [callsOfP, callsOf]⟩
  | cons q l2 ih =>
      obtain ⟨id, ins⟩ := q
      have hnt2 : noTermP l2 = true := by
        simp [noTermP] at hnt ⊢
        exact hnt.2
      have hng2 : noGuardStoreP l2 = true := by
        simp [noGuardStoreP, noGuardStore] at hng ⊢
        exact hng.2
      cases ins with
      | jump n => simp [noTermP, Instr.isTerm] at hnt
      | ifI c t f => simp [noTermP, Instr.isTerm] at hnt
      | retI rs => simp [noTermP, Instr.isTerm] at hnt
      | panicI x => simp [noTermP, Instr.isTerm] at hnt
      | load a =>
          simp only [List.cons_append, execInstrs]
          cases hk : a.kind with
          | global g =>
              by_cases hg : g = "init$guard"
              · obtain ⟨env', he⟩ :=
                  ih ⟨fun m => if m = id then st.guard else st.env m, st.guard, st.tr⟩
                    hnt2 hng2
                exact ⟨env', by simpa [hg, callsOfP, callsOf] using he⟩
              · obtain ⟨env', he⟩ := ih st hnt2 hng2
                exact ⟨env', by simpa [hg, callsOfP, callsOf] using he⟩
          | _ =>
              obtain ⟨env', he⟩ := ih st hnt2 hng2
              exact ⟨env', by simpa [callsOfP, callsOf] using he⟩
      | store a v =>
          simp only [List.cons_append, execInstrs]
          cases hk : a.kind with
          | global g =>
              have hg : ¬(g = "init$guard") := by
                simp [noGuardStoreP, noGuardStore, hk] at hng
                simpa using hng.1
              obtain ⟨env', he⟩ := ih st hnt2 hng2
              exact ⟨env', by simpa [hg, callsOfP, callsOf] using he⟩
          | _ =>
              obtain ⟨env', he⟩ := ih st hnt2 hng2
              exact ⟨env', by simpa [callsOfP, callsOf] using he⟩
      | call f args =>
          simp only [List.cons_append, execInstrs]
          obtain ⟨env', he⟩ := ih ⟨st.env, st.guard, st.tr ++ [calleeName f]⟩ hnt2 hng2
          exact ⟨env', by simpa [callsOfP, callsOf, List.append_assoc] using he⟩
      | _ =>
          simp only [List.cons_append, execInstrs]
          obtain ⟨env', he⟩ := ih st hnt2 hng2
          exact ⟨env', by simpa [callsOfP, callsOf] using he⟩


theorem emitImportCalls_shape (ps : List String) (s : FnState) (c : Nat)
    (hcur : s.currentBlock = some c) (hc : c < s.blocks.length) :
    (emitImportCalls ps s).currentBlock = some c ∧
    (emitImportCalls ps s).blocks.length = s.blocks.length ∧
    (emitImportCalls ps s).nextId = s.nextId + ps.length ∧
    (getBlock (emitImportCalls ps s) c).instrs =
      (getBlock s c).instrs ++ withIds (ps.map importInitCall) s.nextId ∧
    (getBlock (emitImportCalls ps s) c).name = (getBlock s c).name ∧
    (∀ i, i ≠ c → getBlock (emitImportCalls ps s) i = getBlock s i) := by
  induction ps generalizing s with
  | nil => simp [emitImportCalls, withIds, hcur]
  | cons p rest ih =>
      simp only [emitImportCalls]
      have hem : emit (importInitCall p) (.tuple []) s =
          (⟨.reg s.nextId, .tuple []⟩, appendInstr c (importInitCall p) s) := by
        simp [emit, hcur]
      rw [hem]
      have hrec := ih (appendInstr c (importInitCall p) s)
        (by simp [appendInstr, hcur]) (by simp [appendInstr, hc])
      obtain ⟨r1, r2, r3, r4, r6, r5⟩ := hrec
      refine ⟨r1, ?_, ?_, ?_, ?_, ?_⟩
      · rw [r2]; simp [appendInstr]
      · rw [r3]; simp [appendInstr]; omega
      · rw [r4, getBlock_appendInstr_self c _ s hc]
        simp [appendInstr, withIds, List.append_assoc]
      · rw [r6, getBlock_appendInstr_self c _ s hc]
      · intro i hi
        rw [r5 i hi, getBlock_appendInstr_ne c i _ s hi]

theorem emitBody_shape (body : List Instr) (s : FnState) (c : Nat)
    (hcur : s.currentBlock = some c) (hc : c < s.blocks.length) :
    (emitBody body s).currentBlock = some c ∧
    (emitBody body s).blocks.length = s.blocks.length ∧
    (emitBody body s).nextId = s.nextId + body.length ∧
    (getBlock (emitBody body s) c).instrs =
      (getBlock s c).instrs ++ withIds body s.nextId ∧
    (getBlock (emitBody body s) c).name = (getBlock s c).name ∧
    (∀ i, i ≠ c → getBlock (emitBody body s) i = getBlock s i) := by
  induction body generalizing s with
  | nil => simp [emitBody, withIds, hcur]
  | cons ins rest ih =>
      simp only [emitBody]
      have hem : emit ins .invalid s =
          (⟨.reg s.nextId, .invalid⟩, appendInstr c ins s) := by
        simp [emit, hcur]
      rw [hem]
      have hrec := ih (appendInstr c ins s)
        (by simp [appendInstr, hcur]) (by simp [appendInstr, hc])
      obtain ⟨r1, r2, r3, r4, r6, r5⟩ := hrec
      refine ⟨r1, ?_, ?_, ?_, ?_, ?_⟩
      · rw [r2]; simp [appendInstr]
      · rw [r3]; simp [appendInstr]; omega
      · rw [r4, getBlock_appendInstr_self c _ s hc]
        simp [appendInstr, withIds, List.append_assoc]
      · rw [r6, getBlock_appendInstr_self c _ s hc]
      · intro i hi
        rw [r5 i hi, getBlock_appendInstr_ne c i _ s hi]



theorem getD_set_self (bs : List BasicBlock) (c : Nat) (bb : BasicBlock)
    (hc : c < bs.length) :
    (bs.set c bb).getD c emptyBlock = bb := by
  simp [List.getD, List.getElem?_set_self, hc]

theorem getD_set_ne (bs : List BasicBlock) (c i : Nat) (bb : BasicBlock)
    (hne : i ≠ c) :
    (bs.set c bb).getD i emptyBlock = bs.getD i emptyBlock := by
  simp [List.getD, List.getElem?_set_ne, hne.symm]

theorem getBlock_addEdge_other (b t i : Nat) (s : FnState)
    (hib : i ≠ b) (hit : i ≠ t) :
    getBlock (addEdge b t s) i = getBlock s i := by
  simp only [addEdge, getBlock]
  rw [getD_set_ne _ _ _ _ hit, getD_set_ne _ _ _ _ hib]

theorem getBlock_addEdge_b (b t : Nat) (s : FnState) (hbt : b ≠ t)
    (hb : b < s.blocks.length) :
    getBlock (addEdge b t s) b =
      { getBlock s b with succs := (getBlock s b).succs ++ [t] } := by
  simp only [addEdge, getBlock]
  rw [getD_set_ne _ _ _ _ hbt, getD_set_self _ _ _ hb]

theorem getBlock_addEdge_t (b t : Nat) (s : FnState) (hbt : b ≠ t)
    (ht : t < s.blocks.length) :
    getBlock (addEdge b t s) t =
      { getBlock s t with preds := (getBlock s t).preds ++ [b] } := by
  simp only [addEdge, getBlock]
  rw [getD_set_self _ _ _ (by simpa using ht)]
  rw [getD_set_ne _ _ _ _ (Ne.symm hbt)]

theorem length_addEdge (b t : Nat) (s : FnState) :
    (addEdge b t s).blocks.length = s.blocks.length := by
  simp [addEdge]

theorem cur_addEdge (b t : Nat) (s : FnState) :
    (addEdge b t s).currentBlock = s.currentBlock := rfl

theorem nextId_addEdge (b t : Nat) (s : FnState) :
    (addEdge b t s).nextId = s.nextId := rfl


theorem buildPackage_shape (imports : List String) (body : List Instr) :
    (BuildPackage imports body).blocks.length = 3 ∧
    getBlock (BuildPackage imports body) 0 =
      ⟨"entry", [], [2, 1], [(0, .load initguard), (1, .ifI ⟨.reg 0, .boolT⟩ 2 1)]⟩ ∧
    (getBlock (BuildPackage imports body) 1).name = "init.start" ∧
    (getBlock (BuildPackage imports body) 1).instrs =
      [(2, .store initguard vTrue)] ++
      withIds ((dedupFirst imports []).map importInitCall) 3 ++
      withIds body (3 + (dedupFirst imports []).length) ++
      [(3 + (dedupFirst imports []).length + body.length, .jump 2)] ∧
    (getBlock (BuildPackage imports body) 2).name = "init.done" ∧
    (getBlock (BuildPackage imports body) 2).instrs =
      [(4 + (dedupFirst imports []).length + body.length, .runDefers),
       (5 + (dedupFirst imports []).length + body.length, .retI [])] := by
  have h0 : BuildPackage imports body =
      (emit (.retI []) .invalid
        (emit .runDefers .invalid
          (setCur 2 (emitJump 2 (emitBody body (emitImportCalls (dedupFirst imports [])
            (⟨[⟨"entry", [], [2, 1],
                [(0, .load initguard), (1, .ifI ⟨.reg 0, .boolT⟩ 2 1)]⟩,
               ⟨"init.start", [0], [], [(2, .store initguard vTrue)]⟩,
               ⟨"init.done", [0], [], []⟩], some 1, 3, [], [], [], [], true⟩ :
             FnState)))))).2).2 := by
    simp [BuildPackage, startBody, newBasicBlock, emitLoad, emit, emitIf,
      appendInstr, addEdge, setCur, emitStore, emitConv, getBlock, emptyBlock,
      initguard, vTrue, Ty.beq, Ty.pointee]
  rw [h0]
  obtain ⟨i1, i2, i3, i4, i6, i5⟩ := emitImportCalls_shape (dedupFirst imports [])
    (⟨[⟨"entry", [], [2, 1],
        [(0, .load initguard), (1, .ifI ⟨.reg 0, .boolT⟩ 2 1)]⟩,
       ⟨"init.start", [0], [], [(2, .store initguard vTrue)]⟩,
       ⟨"init.done", [0], [], []⟩], some 1, 3, [], [], [], [], true⟩ : FnState)
    1 rfl (by simp)
  obtain ⟨b1, b2, b3, b4, b6, b5⟩ := emitBody_shape body
    (emitImportCalls (dedupFirst imports [])
      (⟨[⟨"entry", [], [2, 1],
          [(0, .load initguard), (1, .ifI ⟨.reg 0, .boolT⟩ 2 1)]⟩,
         ⟨"init.start", [0], [], [(2, .store initguard vTrue)]⟩,
         ⟨"init.done", [0], [], []⟩], some 1, 3, [], [], [], [], true⟩ : FnState))
    1 i1 (by rw [i2]; simp)
  set sP : FnState := ⟨[⟨"entry", [], [2, 1],
      [(0, .load initguard), (1, .ifI ⟨.reg 0, .boolT⟩ 2 1)]⟩,
     ⟨"init.start", [0], [], [(2, .store initguard vTrue)]⟩,
     ⟨"init.done", [0], [], []⟩], some 1, 3, [], [], [], [], true⟩ with hsP
  set s1 : FnState := emitImportCalls (dedupFirst imports []) sP with hs1
  set s2 : FnState := emitBody body s1 with hs2
  have hlen2 : s2.blocks.length = 3 := by rw [b2, i2]; simp [hsP]
  have hjump : emitJump 2 s2 =
      { addEdge 1 2 (appendInstr 1 (.jump 2) s2) with currentBlock := none } := by
    simp [emitJump, b1]
  rw [hjump]
  have hnid2 : s2.nextId = 3 + (dedupFirst imports []).length + body.length := by
    rw [b3, i3]
  -- facts about the post-jump state
  have hJ0 : getBlock (addEdge 1 2 (appendInstr 1 (.jump 2) s2)) 0 = getBlock sP 0 := by
    rw [getBlock_addEdge_other 1 2 0 _ (by omega) (by omega),
      getBlock_appendInstr_ne 1 0 _ _ (by omega), b5 0 (by omega), i5 0 (by omega)]
  have hJ1i : (getBlock (addEdge 1 2 (appendInstr 1 (.jump 2) s2)) 1).instrs =
      (getBlock s2 1).instrs ++ [(s2.nextId, .jump 2)] ∧
      (getBlock (addEdge 1 2 (appendInstr 1 (.jump 2) s2)) 1).name =
      (getBlock s2 1).name := by
    rw [getBlock_addEdge_b 1 2 _ (by omega) (by simp [appendInstr, hlen2]),
      getBlock_appendInstr_self 1 _ _ (by omega)]
    constructor <;> rfl
  have hJ2 : (getBlock (addEdge 1 2 (appendInstr 1 (.jump 2) s2)) 2).instrs =
      (getBlock sP 2).instrs ∧
      (getBlock (addEdge 1 2 (appendInstr 1 (.jump 2) s2)) 2).name =
      (getBlock sP 2).name := by
    rw [getBlock_addEdge_t 1 2 _ (by omega) (by simp [appendInstr, hlen2]),
      getBlock_appendInstr_ne 1 2 _ _ (by omega), b5 2 (by omega), i5 2 (by omega)]
    constructor <;> rfl
  have hnidJ : (addEdge 1 2 (appendInstr 1 (.jump 2) s2)).nextId = s2.nextId + 1 := by
    rw [nextId_addEdge]; simp [appendInstr]
  have hlenJ : (addEdge 1 2 (appendInstr 1 (.jump 2) s2)).blocks.length = 3 := by
    rw [length_addEdge]; simp [appendInstr, hlen2]
  set sJ : FnState :=
    { addEdge 1 2 (appendInstr 1 (.jump 2) s2) with currentBlock := none } with hsJ
  have hJcur : (setCur 2 sJ).currentBlock = some 2 := rfl
  have hem1 : emit Instr.runDefers Ty.invalid (setCur 2 sJ) =
      (⟨.reg (setCur 2 sJ).nextId, .invalid⟩,
       appendInstr 2 .runDefers (setCur 2 sJ)) := by
    simp [emit, setCur]
  have hem2 : emit (Instr.retI []) Ty.invalid (appendInstr 2 .runDefers (setCur 2 sJ)) =
      (⟨.reg (appendInstr 2 .runDefers (setCur 2 sJ)).nextId, .invalid⟩,
       appendInstr 2 (.retI []) (appendInstr 2 .runDefers (setCur 2 sJ))) := by
    simp [emit, setCur, appendInstr]
  rw [hem1, hem2]
  have hgJ : ∀ i, getBlock sJ i = getBlock (addEdge 1 2 (appendInstr 1 (.jump 2) s2)) i :=
    fun i => rfl
  have hgS : ∀ i, getBlock (setCur 2 sJ) i = getBlock sJ i := fun i => rfl
  have hnidS : (setCur 2 sJ).nextId = s2.nextId + 1 := by
    simp [setCur, hsJ, nextId_addEdge, appendInstr]
  have hlenS : (setCur 2 sJ).blocks.length = 3 := by
    simp [setCur, hsJ, hlenJ]
  refine ⟨?_, ?_, ?_, ?_, ?_, ?_⟩
  · simp [appendInstr, hlenS]
  · rw [getBlock_appendInstr_ne 2 0 _ _ (by omega),
      getBlock_appendInstr_ne 2 0 _ _ (by omega), hgS 0, hgJ 0, hJ0]
    simp [hsP, getBlock, emptyBlock]
  · rw [getBlock_appendInstr_ne 2 1 _ _ (by omega),
      getBlock_appendInstr_ne 2 1 _ _ (by omega), hgS 1, hgJ 1, hJ1i.2, b6, i6]
    simp [hsP, getBlock, emptyBlock]
  · rw [getBlock_appendInstr_ne 2 1 _ _ (by omega),
      getBlock_appendInstr_ne 2 1 _ _ (by omega), hgS 1, hgJ 1, hJ1i.1, b4, i4, i3,
      hnid2]
    simp [hsP, getBlock, emptyBlock, List.append_assoc]
  · rw [getBlock_appendInstr_self 2 _ _ (by simp [appendInstr, hlenS]),
      getBlock_appendInstr_self 2 _ _ (by simp [hlenS])]
    rw [hgS 2, hgJ 2]
    exact hJ2.2
  · rw [getBlock_appendInstr_self 2 _ _ (by simp [appendInstr, hlenS]),
      getBlock_appendInstr_self 2 _ _ (by simp [hlenS])]
    rw [hgS 2, hgJ 2]
    simp only [hJ2.1, hnidS]
    simp only [appendInstr, hnidS, hgS 2, hgJ 2, hJ2.1]
    simp [hsP, getBlock, emptyBlock, hnid2]
    omega


theorem noTermP_withIds (l : List Instr) (n : Nat) :
    noTermP (withIds l n) = straightLine l := by
  induction l generalizing n with
  | nil => simp [withIds, noTermP, straightLine]
  | cons a rest ih =>
      have h := ih (n + 1)
      simp [withIds, noTermP, straightLine] at h ⊢
      rw [h]

theorem noGuardStoreP_withIds (l : List Instr) (n : Nat) :
    noGuardStoreP (withIds l n) = noGuardStore l := by
  simp [noGuardStoreP, noGuardStore, withIds_map_snd]

theorem callsOfP_withIds (l : List Instr) (n : Nat) :
    callsOfP (withIds l n) = callsOf l := by
  simp [callsOfP, withIds_map_snd]

theorem importCalls_straight (ps : List String) :
    straightLine (ps.map importInitCall) = true ∧
    noGuardStore (ps.map importInitCall) = true ∧
    callsOf (ps.map importInitCall) = importCallNames ps := by
  induction ps with
  | nil => simp [straightLine, noGuardStore, callsOf, importCallNames]
  | cons p rest ih =>
      simp [straightLine, noGuardStore, callsOf, importCallNames, importInitCall,
        Instr.isTerm, calleeName] at ih ⊢
      exact ih

theorem runInit_first (imports : List String) (body : List Instr)
    (hnt : straightLine body = true) (hng : noGuardStore body = true) :
    ∃ env, runInit (BuildPackage imports body) false =
      (⟨env, true, importCallNames (dedupFirst imports []) ++ callsOf body⟩, true) := by
  obtain ⟨hlen, hb0, hn1, hb1, hn2, hb2⟩ := buildPackage_shape imports body
  have himp := importCalls_straight (dedupFirst imports [])
  -- straight-line composite in block 1 after the guard store
  have hstep : ∀ st : ExecSt,
      ∃ env', execInstrs (getBlock (BuildPackage imports body) 1).instrs st =
        (⟨env', true, st.tr ++ (importCallNames (dedupFirst imports []) ++ callsOf body)⟩,
         Xfer.goto 2) := by
    intro st
    rw [hb1]
    have h1 : execInstrs ([(2, Instr.store initguard vTrue)] ++
        withIds ((dedupFirst imports []).map importInitCall) 3 ++
        withIds body (3 + (dedupFirst imports []).length) ++
        [(3 + (dedupFirst imports []).length + body.length, Instr.jump 2)]) st =
        execInstrs (withIds ((dedupFirst imports []).map importInitCall) 3 ++
          (withIds body (3 + (dedupFirst imports []).length) ++
           [(3 + (dedupFirst imports []).length + body.length, Instr.jump 2)])) 
          ⟨st.env, true, st.tr⟩ := by
      simp [execInstrs, initguard, evalB, vTrue, List.append_assoc]
    rw [h1]
    obtain ⟨env1, he1⟩ := execInstrs_straight
      (withIds ((dedupFirst imports []).map importInitCall) 3)
      (withIds body (3 + (dedupFirst imports []).length) ++
        [(3 + (dedupFirst imports []).length + body.length, Instr.jump 2)])
      ⟨st.env, true, st.tr⟩
      (by rw [noTermP_withIds]; exact himp.1)
      (by rw [noGuardStoreP_withIds]; exact himp.2.1)
    rw [he1]
    obtain ⟨env2, he2⟩ := execInstrs_straight
      (withIds body (3 + (dedupFirst imports []).length))
      [(3 + (dedupFirst imports []).length + body.length, Instr.jump 2)]
      ⟨env1, true, st.tr ++ callsOfP (withIds ((dedupFirst imports []).map importInitCall) 3)⟩
      (by rw [noTermP_withIds]; exact hnt)
      (by rw [noGuardStoreP_withIds]; exact hng)
    rw [he2]
    refine ⟨env2, ?_⟩
    simp [execInstrs, callsOfP_withIds, himp.2.2, List.append_assoc]
  have hexec0 : execInstrs (getBlock (BuildPackage imports body) 0).instrs
      ⟨fun _ => false, false, []⟩ =
      (⟨fun m => if m = 0 then false else false, false, []⟩, Xfer.goto 1) := by
    rw [hb0]
    simp [execInstrs, initguard, evalB]
  obtain ⟨env', hstep1⟩ := hstep ⟨fun m => if m = 0 then false else false, false, []⟩
  refine ⟨env', ?_⟩
  simp only [runInit, hlen]
  show execFrom (BuildPackage imports body) 4 0 ⟨fun _ => false, false, []⟩ = _
  rw [show (4 : Nat) = 3 + 1 from rfl]
  simp only [execFrom, hexec0, hstep1, hb2]
  simp [execInstrs]

theorem runInit_second (imports : List String) (body : List Instr) :
    (runInit (BuildPackage imports body) true).1.guard = true ∧
    (runInit (BuildPackage imports body) true).1.tr = [] ∧
    (runInit (BuildPackage imports body) true).2 = true := by
  obtain ⟨hlen, hb0, hn1, hb1, hn2, hb2⟩ := buildPackage_shape imports body
  have hexec0 : execInstrs (getBlock (BuildPackage imports body) 0).instrs
      ⟨fun _ => false, true, []⟩ =
      (⟨fun m => if m = 0 then true else false, true, []⟩, Xfer.goto 2) := by
    rw [hb0]
    simp [execInstrs, initguard, evalB]
  have hrun : runInit (BuildPackage imports body) true =
      (⟨fun m => if m = 0 then true else false, true, []⟩, true) := by
    simp only [runInit, hlen]
    show execFrom (BuildPackage imports body) 4 0 ⟨fun _ => false, true, []⟩ = _
    rw [show (4 : Nat) = 3 + 1 from rfl]
    simp only [execFrom, hexec0, hb2]
    simp [execInstrs]
  simp [hrun]


theorem initGuardOnce (imports : List String) (body : List Instr)
    (hnt : straightLine body = true) (hng : noGuardStore body = true) :
    (getBlock (BuildPackage imports body) 0).instrs =
      [(0, .load initguard), (1, .ifI ⟨.reg 0, .boolT⟩ 2 1)] ∧
    (getBlock (BuildPackage imports body) 2).name = "init.done" ∧
    (getBlock (BuildPackage imports body) 1).name = "init.start" ∧
    (getBlock (BuildPackage imports body) 1).instrs.head? =
      some (2, .store initguard vTrue) ∧
    (∃ env, runInit (BuildPackage imports body) false =
      (⟨env, true, importCallNames (dedupFirst imports []) ++ callsOf body⟩, true)) ∧
    (runInit (BuildPackage imports body) true).1.guard = true ∧
    (runInit (BuildPackage imports body) true).1.tr = [] ∧
    (runInit (BuildPackage imports body) true).2 = true := by
  obtain ⟨hlen, hb0, hn1, hb1, hn2, hb2⟩ := buildPackage_shape imports body
  refine ⟨by rw [hb0], hn2, hn1, ?_, runInit_first imports body hnt hng,
    (runInit_second imports body).1, (runInit_second imports body).2.1,
    (runInit_second imports body).2.2⟩
  rw [hb1]
  rfl

theorem initGuardOnceWitness :
    straightLine [Instr.call ⟨.fnref "work", .funcT⟩ []] = true ∧
    (∃ env, runInit (BuildPackage ["fmt"] [.call ⟨.fnref "work", .funcT⟩ []]) false =
      (⟨env, true, ["init.fmt", "work"]⟩, true)) ∧
    (runInit (BuildPackage ["fmt"] [.call ⟨.fnref "work", .funcT⟩ []]) true).1.tr = [] := by
  refine ⟨rfl, ?_, ?_⟩
  · have h := (initGuardOnce ["fmt"] [.call ⟨.fnref "work", .funcT⟩ []] rfl rfl).2.2.2.2.1
    simpa [importCallNames, dedupFirst, callsOf, calleeName] using h
  · exact (initGuardOnce ["fmt"] [.call ⟨.fnref "work", .funcT⟩ []] rfl rfl).2.2.2.2.2.2.1

end SSAV

namespace SSAV

theorem all_nonterm_of_ok (l : List (Nat × Instr)) (h1 : okInstrs l = true)
    (h2 : termL l = false) : l.all (fun q => !q.2.isTerm) = true := by
  induction l using List.reverseRecOn with
  | nil => rfl
  | append_singleton l2 a ih =>
      simp only [okInstrs, List.dropLast_concat] at h1
      simp only [termL, List.getLast?_concat] at h2
      simp [List.all_append, h1, h2]

theorem okInstrs_append_any (l : List (Nat × Instr)) (x : Nat × Instr)
    (h1 : okInstrs l = true) (h2 : termL l = false) :
    okInstrs (l ++ [x]) = true := by
  simp only [okInstrs, List.dropLast_concat]
  exact all_nonterm_of_ok l h1 h2

theorem termL_append (l : List (Nat × Instr)) (x : Nat × Instr) :
    termL (l ++ [x]) = x.2.isTerm := by
  simp [termL, List.getLast?_concat]

theorem getD_oor (bs : List BasicBlock) (i : Nat) (h : bs.length ≤ i) :
    bs.getD i emptyBlock = emptyBlock := by
  simp [List.getD, List.getElem?_eq_none h]

theorem set_oor (bs : List BasicBlock) (i : Nat) (bb : BasicBlock)
    (h : bs.length ≤ i) : bs.set i bb = bs :=
  List.set_eq_of_length_le h

theorem invChk_destr (s : FnState) (h : invChk s = true) :
    (∀ bb ∈ s.blocks, okInstrs bb.instrs = true) ∧
    (∀ c, s.currentBlock = some c →
      c < s.blocks.length ∧ terminatedB (getBlock s c) = false) := by
  simp only [invChk, Bool.and_eq_true, List.all_eq_true] at h
  obtain ⟨h1, h2⟩ := h
  refine ⟨h1, ?_⟩
  intro c hc
  rw [hc] at h2
  simpa using h2

theorem invChk_mk (s : FnState)
    (h1 : ∀ bb ∈ s.blocks, okInstrs bb.instrs = true)
    (h2 : ∀ c, s.currentBlock = some c →
      c < s.blocks.length ∧ terminatedB (getBlock s c) = false) :
    invChk s = true := by
  simp only [invChk, Bool.and_eq_true, List.all_eq_true]
  refine ⟨h1, ?_⟩
  cases hcv : s.currentBlock with
  | none => simp
  | some c => simpa using h2 c hcv

theorem getBlock_ok (s : FnState)
    (h1 : ∀ bb ∈ s.blocks, okInstrs bb.instrs = true) (i : Nat) :
    okInstrs (getBlock s i).instrs = true := by
  by_cases hi : i < s.blocks.length
  · have he : getBlock s i = s.blocks[i] := by
      simp [getBlock, List.getD, List.getElem?_eq_getElem hi]
    rw [he]
    exact h1 _ (List.getElem_mem hi)
  · have he : getBlock s i = emptyBlock := getD_oor s.blocks i (by omega)
    rw [he]
    rfl



theorem getD_set_instrs (bs : List BasicBlock) (c : Nat) (bb : BasicBlock)
    (h : bb.instrs = (bs.getD c emptyBlock).instrs) (i : Nat) :
    ((bs.set c bb).getD i emptyBlock).instrs = (bs.getD i emptyBlock).instrs := by
  by_cases hic : i = c
  · subst hic
    by_cases hl : i < bs.length
    · rw [getD_set_self _ _ _ hl, h]
    · rw [set_oor _ _ _ (by omega)]
  · rw [getD_set_ne _ _ _ _ hic]

theorem instrs_addEdge (b t i : Nat) (s : FnState) :
    (getBlock (addEdge b t s) i).instrs = (getBlock s i).instrs := by
  simp only [addEdge, getBlock]
  trans ((s.blocks.set b { s.blocks.getD b emptyBlock with
      succs := (s.blocks.getD b emptyBlock).succs ++ [t] }).getD i emptyBlock).instrs
  · refine getD_set_instrs _ _ _ ?_ i
    rfl
  · refine getD_set_instrs _ _ _ ?_ i
    rfl

theorem ok_blocks_set (bs : List BasicBlock) (c : Nat) (bb : BasicBlock)
    (h1 : ∀ x ∈ bs, okInstrs x.instrs = true)
    (h2 : okInstrs bb.instrs = true) :
    ∀ x ∈ bs.set c bb, okInstrs x.instrs = true := by
  intro x hx
  rcases List.mem_or_eq_of_mem_set hx with hx2 | hx2
  · exact h1 x hx2
  · rw [hx2]
    exact h2

theorem getD_ok (bs : List BasicBlock)
    (h1 : ∀ x ∈ bs, okInstrs x.instrs = true) (i : Nat) :
    okInstrs ((bs.getD i emptyBlock).instrs) = true := by
  by_cases hi : i < bs.length
  · have he : bs.getD i emptyBlock = bs[i] := by
      simp [List.getD, List.getElem?_eq_getElem hi]
    rw [he]
    exact h1 _ (List.getElem_mem hi)
  · rw [getD_oor _ _ (by omega)]
    rfl

theorem ok_addEdge (s : FnState)
    (h1 : ∀ bb ∈ s.blocks, okInstrs bb.instrs = true) (b t : Nat) :
    ∀ bb ∈ (addEdge b t s).blocks, okInstrs bb.instrs = true := by
  simp only [addEdge]
  apply ok_blocks_set
  · apply ok_blocks_set _ _ _ h1
    exact getD_ok s.blocks h1 b
  · show okInstrs (getBlock _ _).instrs = true
    apply getD_ok
    apply ok_blocks_set _ _ _ h1
    exact getD_ok s.blocks h1 b

end SSAV

namespace SSAV

theorem terminated_of_instrs (b1 b2 : BasicBlock)
    (h : b1.instrs = b2.instrs) : terminatedB b1 = terminatedB b2 := by
  simp [terminatedB, termL, h]

theorem cur_lt_of_inv (s : FnState) (h : invChk s = true) (c : Nat)
    (hc : s.currentBlock = some c) : c < s.blocks.length :=
  ((invChk_destr s h).2 c hc).1

theorem cur_unterminated_of_inv (s : FnState) (h : invChk s = true) (c : Nat)
    (hc : s.currentBlock = some c) : terminatedB (getBlock s c) = false :=
  ((invChk_destr s h).2 c hc).2

theorem cur_ne_big (s : FnState) (h : invChk s = true) (i : Nat)
    (hi : s.blocks.length ≤ i) : s.currentBlock ≠ some i := by
  intro hc
  have := cur_lt_of_inv s h i hc
  omega

theorem stepOk_refl (s : FnState) (h : invChk s = true) : StepOk s s :=
  ⟨h, le_refl _, fun _ _ _ => rfl, fun _ _ => Or.inl rfl⟩

theorem stepOk_trans (s s1 s2 : FnState) (h1 : StepOk s s1) (h2 : StepOk s1 s2) :
    StepOk s s2 := by
  obtain ⟨i1, l1, u1, c1⟩ := h1
  obtain ⟨i2, l2, u2, c2⟩ := h2
  refine ⟨i2, le_trans l1 l2, ?_, ?_⟩
  · intro i hi hne
    have hne1 : s1.currentBlock ≠ some i := by
      intro hcur
      rcases c1 i hcur with he | hge
      · exact hne (he.symm.trans hcur)
      · omega
    rw [u2 i (lt_of_lt_of_le hi l1) hne1, u1 i hi hne]
  · intro c' hc'
    rcases c2 c' hc' with he | hge
    · rcases c1 c' (he.symm.trans hc') with he2 | hge2
      · exact Or.inl (he.trans he2)
      · exact Or.inr hge2
    · exact Or.inr (le_trans l1 hge)

theorem eprop_refl (s : FnState) : EProp s s := by
  intro h
  refine ⟨stepOk_refl s h, ?_⟩
  intro c hc
  exact ⟨by rw [hc]; rfl, Or.inl hc⟩

theorem eprop_trans (s s1 s2 : FnState) (h1 : EProp s s1) (h2 : EProp s1 s2) :
    EProp s s2 := by
  intro h
  obtain ⟨hS1, hC1⟩ := h1 h
  obtain ⟨hS2, hC2⟩ := h2 hS1.1
  refine ⟨stepOk_trans s s1 s2 hS1 hS2, ?_⟩
  intro c hc
  rcases hC1 c hc with ⟨hsome1, hcase1⟩
  rcases hcase1 with hcur1 | hterm1
  · exact hC2 c hcur1
  · cases hcv : s1.currentBlock with
    | none => rw [hcv] at hsome1; simp at hsome1
    | some c1 =>
        rcases hC2 c1 hcv with ⟨hsome2, _⟩
        refine ⟨hsome2, Or.inr ?_⟩
        have hne : s1.currentBlock ≠ some c := by
          intro he
          have hu := cur_unterminated_of_inv s1 hS1.1 c he
          rw [hterm1] at hu
          exact absurd hu (by simp)
        have hlt : c < s1.blocks.length :=
          lt_of_lt_of_le (cur_lt_of_inv s h c hc) hS1.2.1
        have hinstr := hS2.2.2.1 c hlt hne
        rw [terminated_of_instrs _ _ hinstr]
        exact hterm1

theorem eprop_cprop_trans (s s1 s2 : FnState) (h1 : EProp s s1) (h2 : CProp s1 s2) :
    CProp s s2 := by
  intro h
  obtain ⟨hS1, hC1⟩ := h1 h
  obtain ⟨hS2, hnone, hterm⟩ := h2 hS1.1
  refine ⟨stepOk_trans s s1 s2 hS1 hS2, hnone, ?_⟩
  intro c hc
  rcases hC1 c hc with ⟨hsome1, hcase1⟩
  rcases hcase1 with hcur1 | hterm1
  · exact hterm c hcur1
  · have hne : s1.currentBlock ≠ some c := by
      intro he
      have hu := cur_unterminated_of_inv s1 hS1.1 c he
      rw [hterm1] at hu
      exact absurd hu (by simp)
    have hlt : c < s1.blocks.length :=
      lt_of_lt_of_le (cur_lt_of_inv s h c hc) hS1.2.1
    have hinstr := hS2.2.2.1 c hlt hne
    rw [terminated_of_instrs _ _ hinstr]
    exact hterm1

theorem invChk_appendInstr (s : FnState) (c : Nat) (ins : Instr)
    (h : invChk s = true) (hc : s.currentBlock = some c)
    (hnt : ins.isTerm = false) : invChk (appendInstr c ins s) = true := by
  obtain ⟨h1, h2⟩ := invChk_destr s h
  obtain ⟨hlt, hunt⟩ := h2 c hc
  apply invChk_mk
  · intro bb hbb
    show okInstrs bb.instrs = true
    have hset : (appendInstr c ins s).blocks =
        s.blocks.set c { getBlock s c with
          instrs := (getBlock s c).instrs ++ [(s.nextId, ins)] } := rfl
    rw [hset] at hbb
    rcases List.mem_or_eq_of_mem_set hbb with hx | hx
    · exact h1 bb hx
    · rw [hx]
      exact okInstrs_append_any _ _ (getBlock_ok s h1 c) hunt
  · intro c0 hc0
    have hcur : (appendInstr c ins s).currentBlock = s.currentBlock := rfl
    rw [hcur, hc] at hc0
    cases hc0
    refine ⟨by rw [length_appendInstr]; exact hlt, ?_⟩
    rw [getBlock_appendInstr_self c ins s hlt]
    show termL ((getBlock s c).instrs ++ [(s.nextId, ins)]) = false
    rw [termL_append]
    exact hnt

theorem eprop_emit (ins : Instr) (t : Ty) (s : FnState) (hnt : ins.isTerm = false) :
    EProp s (emit ins t s).2 := by
  intro h
  cases hcv : s.currentBlock with
  | none =>
      have hs : (emit ins t s).2 = { s with nextId := s.nextId + 1 } := by
        simp [emit, hcv]
      rw [hs]
      refine ⟨⟨h, le_refl _, fun _ _ _ => rfl, fun c' hc' => Or.inl rfl⟩, ?_⟩
      intro c hc
      exact Option.noConfusion hc
  | some c =>
      have hs : (emit ins t s).2 = appendInstr c ins s := by
        simp [emit, hcv]
      rw [hs]
      refine ⟨⟨invChk_appendInstr s c ins h hcv hnt, ?_, ?_, ?_⟩, ?_⟩
      · rw [length_appendInstr]
      · intro i hi hne
        have hic : i ≠ c := by
          intro he
          rw [he] at hne
          exact hne hcv
        rw [getBlock_appendInstr_ne c i ins s hic]
      · intro c' hc'
        exact Or.inl rfl
      · intro c0 hc0
        injection hc0 with hcc
        subst hcc
        have hcur : (appendInstr c ins s).currentBlock = some c := hcv
        exact ⟨by rw [hcur]; rfl, Or.inl hcur⟩

end SSAV

namespace SSAV

theorem ok_appendInstr (s : FnState) (c : Nat) (ins : Instr)
    (h1 : ∀ bb ∈ s.blocks, okInstrs bb.instrs = true)
    (hunt : terminatedB (getBlock s c) = false) :
    ∀ bb ∈ (appendInstr c ins s).blocks, okInstrs bb.instrs = true := by
  intro bb hbb
  have hset : (appendInstr c ins s).blocks =
      s.blocks.set c { getBlock s c with
        instrs := (getBlock s c).instrs ++ [(s.nextId, ins)] } := rfl
  rw [hset] at hbb
  rcases List.mem_or_eq_of_mem_set hbb with hx | hx
  · exact h1 bb hx
  · rw [hx]
    exact okInstrs_append_any _ _ (getBlock_ok s h1 c) hunt

theorem blocks_newBB (nm : String) (s : FnState) :
    (newBasicBlock nm s).2.blocks = s.blocks ++ [⟨nm, [], [], []⟩] := rfl

theorem cur_newBB (nm : String) (s : FnState) :
    (newBasicBlock nm s).2.currentBlock = s.currentBlock := rfl

theorem invChk_newBB (nm : String) (s : FnState) (h : invChk s = true) :
    invChk (newBasicBlock nm s).2 = true := by
  obtain ⟨h1, h2⟩ := invChk_destr s h
  apply invChk_mk
  · intro bb hbb
    rw [blocks_newBB] at hbb
    rcases List.mem_append.1 hbb with hx | hx
    · exact h1 bb hx
    · rw [List.mem_singleton.1 hx]
      rfl
  · intro c hc
    rw [cur_newBB] at hc
    obtain ⟨hlt, hunt⟩ := h2 c hc
    refine ⟨?_, ?_⟩
    · rw [blocks_newBB]
      rw [List.length_append]
      omega
    · rw [getBlock_newBB nm s c hlt]
      exact hunt

theorem stepOk_newBB (nm : String) (s : FnState) (h : invChk s = true) :
    StepOk s (newBasicBlock nm s).2 := by
  refine ⟨invChk_newBB nm s h, ?_, ?_, ?_⟩
  · rw [blocks_newBB, List.length_append]
    omega
  · intro i hi _
    rw [getBlock_newBB nm s i hi]
  · intro c' _
    exact Or.inl (cur_newBB nm s)

theorem getBlock_newBB_fresh (nm : String) (s : FnState) :
    getBlock (newBasicBlock nm s).2 s.blocks.length = ⟨nm, [], [], []⟩ := by
  simp [newBasicBlock, getBlock, List.getD, List.getElem?_append_right]

theorem stepOk_setCur_fresh (s s2 : FnState) (l : Nat)
    (hS : StepOk s s2) (hl : l < s2.blocks.length)
    (hfresh : s.blocks.length ≤ l)
    (hterm : terminatedB (getBlock s2 l) = false) :
    StepOk s (setCur l s2) := by
  obtain ⟨hi, hlen, hu, hc⟩ := hS
  obtain ⟨h1, _⟩ := invChk_destr s2 hi
  refine ⟨?_, hlen, hu, ?_⟩
  · apply invChk_mk
    · intro bb hbb
      exact h1 bb hbb
    · intro c hcv
      injection hcv with hcc
      subst hcc
      exact ⟨hl, hterm⟩
  · intro c' hc'
    injection hc' with hcc
    exact Or.inr (hcc ▸ hfresh)

theorem cprop_emitJump (t : Nat) (s : FnState) : CProp s (emitJump t s) := by
  intro h
  obtain ⟨h1, h2⟩ := invChk_destr s h
  cases hcv : s.currentBlock with
  | none =>
      have hs : emitJump t s = { s with currentBlock := none } := by
        simp [emitJump, hcv]
      rw [hs]
      refine ⟨⟨?_, le_refl _, fun _ _ _ => rfl, fun c' hc' => Option.noConfusion hc'⟩,
        rfl, fun c hc => Option.noConfusion hc⟩
      exact invChk_mk _ h1 (fun c hc => Option.noConfusion hc)
  | some c =>
      obtain ⟨hlt, hunt⟩ := h2 c hcv
      have hs : emitJump t s =
          { addEdge c t (appendInstr c (.jump t) s) with currentBlock := none } := by
        simp [emitJump, hcv]
      rw [hs]
      have hok1 := ok_appendInstr s c (.jump t) h1 hunt
      have hok2 := ok_addEdge (appendInstr c (.jump t) s) hok1 c t
      have hlen : (addEdge c t (appendInstr c (.jump t) s)).blocks.length =
          s.blocks.length := by
        rw [length_addEdge, length_appendInstr]
      refine ⟨⟨?_, ?_, ?_, fun c' hc' => Option.noConfusion hc'⟩, rfl, ?_⟩
      · exact invChk_mk _ hok2 (fun c0 hc0 => Option.noConfusion hc0)
      · rw [hlen]
      · intro i hi hne
        have hic : i ≠ c := fun he => hne (he ▸ hcv)
        show (getBlock (addEdge c t (appendInstr c (.jump t) s)) i).instrs = _
        rw [instrs_addEdge, getBlock_appendInstr_ne c i (.jump t) s hic]
      · intro c0 hc0
        injection hc0 with hcc
        subst hcc
        show termL (getBlock (addEdge c t (appendInstr c (.jump t) s)) c).instrs = true
        have hinstr : (getBlock (addEdge c t (appendInstr c (.jump t) s)) c).instrs =
            (getBlock s c).instrs ++ [(s.nextId, .jump t)] := by
          rw [instrs_addEdge, getBlock_appendInstr_self c (.jump t) s hlt]
        rw [hinstr, termL_append]
        rfl

theorem cprop_emitIf (v : Value) (t f : Nat) (s : FnState) : CProp s (emitIf v t f s) := by
  intro h
  obtain ⟨h1, h2⟩ := invChk_destr s h
  cases hcv : s.currentBlock with
  | none =>
      have hs : emitIf v t f s = { s with currentBlock := none } := by
        simp [emitIf, hcv]
      rw [hs]
      refine ⟨⟨?_, le_refl _, fun _ _ _ => rfl, fun c' hc' => Option.noConfusion hc'⟩,
        rfl, fun c hc => Option.noConfusion hc⟩
      exact invChk_mk _ h1 (fun c hc => Option.noConfusion hc)
  | some c =>
      obtain ⟨hlt, hunt⟩ := h2 c hcv
      have hs : emitIf v t f s =
          { addEdge c f (addEdge c t (appendInstr c (.ifI v t f) s)) with
            currentBlock := none } := by
        simp [emitIf, hcv]
      rw [hs]
      have hok1 := ok_appendInstr s c (.ifI v t f) h1 hunt
      have hok2 := ok_addEdge (appendInstr c (.ifI v t f) s) hok1 c t
      have hok3 := ok_addEdge (addEdge c t (appendInstr c (.ifI v t f) s)) hok2 c f
      have hlen : (addEdge c f (addEdge c t (appendInstr c (.ifI v t f) s))).blocks.length =
          s.blocks.length := by
        rw [length_addEdge, length_addEdge, length_appendInstr]
      refine ⟨⟨?_, ?_, ?_, fun c' hc' => Option.noConfusion hc'⟩, rfl, ?_⟩
      · exact invChk_mk _ hok3 (fun c0 hc0 => Option.noConfusion hc0)
      · rw [hlen]
      · intro i hi hne
        have hic : i ≠ c := fun he => hne (he ▸ hcv)
        show (getBlock (addEdge c f (addEdge c t (appendInstr c (.ifI v t f) s))) i).instrs = _
        rw [instrs_addEdge, instrs_addEdge, getBlock_appendInstr_ne c i (.ifI v t f) s hic]
      · intro c0 hc0
        injection hc0 with hcc
        subst hcc
        show termL (getBlock (addEdge c f (addEdge c t (appendInstr c (.ifI v t f) s))) c).instrs = true
        have hinstr : (getBlock (addEdge c f (addEdge c t (appendInstr c (.ifI v t f) s))) c).instrs =
            (getBlock s c).instrs ++ [(s.nextId, .ifI v t f)] := by
          rw [instrs_addEdge, instrs_addEdge, getBlock_appendInstr_self c (.ifI v t f) s hlt]
        rw [hinstr, termL_append]
        rfl

end SSAV

namespace SSAV

theorem eprop_emitLoad (a : Value) (s : FnState) : EProp s (emitLoad a s).2 :=
  eprop_emit _ _ s rfl

theorem eprop_emitNew (t : Ty) (s : FnState) : EProp s (emitNew t s).2 :=
  eprop_emit _ _ s rfl

theorem eprop_emitExtract (v : Value) (i : Nat) (t : Ty) (s : FnState) :
    EProp s (emitExtract v i t s).2 :=
  eprop_emit _ _ s rfl

theorem eprop_emitCompare (op : Op) (x y : Value) (s : FnState) :
    EProp s (emitCompare op x y s).2 :=
  eprop_emit _ _ s rfl

theorem eprop_emitArith (op : Op) (x y : Value) (t : Ty) (s : FnState) :
    EProp s (emitArith op x y t s).2 :=
  eprop_emit _ _ s rfl

theorem eprop_emitConv (v : Value) (t : Ty) (s : FnState) :
    EProp s (emitConv v t s).2 := by
  unfold emitConv
  split
  · exact eprop_refl s
  · split
    · exact eprop_refl s
    · exact eprop_emit _ _ s rfl

theorem eprop_emitStore (a v : Value) (s : FnState) : EProp s (emitStore a v s) := by
  unfold emitStore
  have h1 := eprop_emitConv v a.ty.pointee s
  cases hk : emitConv v a.ty.pointee s with
  | mk v2 s2 =>
      rw [hk] at h1
      exact eprop_trans _ _ _ h1 (eprop_emit _ _ s2 rfl)

theorem eprop_extractAll (v : Value) (ts : List Ty) (i : Nat) (acc : List Value)
    (s : FnState) : EProp s (extractAll v ts i acc s).2 := by
  induction ts generalizing i acc s with
  | nil => exact eprop_refl s
  | cons t rest ih =>
      unfold extractAll
      have h1 := eprop_emitExtract v i t s
      cases hk : emitExtract v i t s with
      | mk x s2 =>
          rw [hk] at h1
          exact eprop_trans _ _ _ h1 (ih (i + 1) (acc ++ [x]) s2)

theorem eprop_flattenArg (v : Value) (acc : List Value) (s : FnState) :
    EProp s (flattenArg v acc s).2 := by
  unfold flattenArg
  split
  · exact eprop_extractAll _ _ _ _ s
  · exact eprop_refl s

theorem eprop_convLoop (offset : Nat) (ps : List Ty) (i : Nat) (acc : List Value)
    (s : FnState) : EProp s (convLoop offset ps i acc s).2 := by
  induction ps generalizing i acc s with
  | nil => exact eprop_refl s
  | cons t rest ih =>
      unfold convLoop
      have h1 := eprop_emitConv (acc.getD (offset + i) (nilLiteral .invalid)) t s
      cases hk : emitConv (acc.getD (offset + i) (nilLiteral .invalid)) t s with
      | mk v2 s2 =>
          rw [hk] at h1
          simp only [hk]
          exact eprop_trans _ _ _ h1 (ih (i + 1) (acc.set (offset + i) v2) s2)

theorem eprop_storeVarargs (a : Value) (vt : Ty) (vs : List Value) (i : Nat)
    (s : FnState) : EProp s (storeVarargs a vt vs i s) := by
  induction vs generalizing i s with
  | nil => exact eprop_refl s
  | cons v rest ih =>
      unfold storeVarargs
      have h1 := eprop_emit (.indexAddr a (intLiteral i)) (.pointer vt) s rfl
      cases hk : emit (.indexAddr a (intLiteral i)) (.pointer vt) s with
      | mk ia s2 =>
          rw [hk] at h1
          exact eprop_trans _ _ _ h1
            (eprop_trans _ _ _ (eprop_emitStore ia v s2) (ih (i + 1) (emitStore ia v s2)))

theorem eprop_panic_seq (v' : Value) (s : FnState) :
    EProp s (setCur (newBasicBlock "unreachable" (emit (.panicI v') .invalid s).2).1
      (newBasicBlock "unreachable" (emit (.panicI v') .invalid s).2).2) := by
  intro h
  obtain ⟨h1, h2⟩ := invChk_destr s h
  cases hcv : s.currentBlock with
  | none =>
      have hs : (emit (.panicI v') .invalid s).2 = { s with nextId := s.nextId + 1 } := by
        simp [emit, hcv]
      rw [hs]
      have hbump : StepOk s { s with nextId := s.nextId + 1 } :=
        ⟨h, le_refl _, fun _ _ _ => rfl, fun c' _ => Or.inl rfl⟩
      have hS2 : StepOk s (newBasicBlock "unreachable" { s with nextId := s.nextId + 1 }).2 :=
        stepOk_trans _ _ _ hbump (stepOk_newBB _ _ h)
      refine ⟨stepOk_setCur_fresh s _ _ hS2 ?_ ?_ ?_, ?_⟩
      · show s.blocks.length < (s.blocks ++ [(⟨"unreachable", [], [], []⟩ : BasicBlock)]).length
        rw [List.length_append]
        simp
      · exact le_refl _
      · exact (terminated_of_instrs _ _
          (congrArg BasicBlock.instrs (getBlock_newBB_fresh "unreachable" _))).trans rfl
      · intro c hc
        exact Option.noConfusion hc
  | some c =>
      obtain ⟨hlt, hunt⟩ := h2 c hcv
      have hs : (emit (.panicI v') .invalid s).2 = appendInstr c (.panicI v') s := by
        simp [emit, hcv]
      rw [hs]
      have hok1 := ok_appendInstr s c (.panicI v') h1 hunt
      have hlen1 : (appendInstr c (.panicI v') s).blocks.length = s.blocks.length :=
        length_appendInstr c (.panicI v') s
      have hfreshblk := getBlock_newBB_fresh "unreachable" (appendInstr c (.panicI v') s)
      refine ⟨⟨?_, ?_, ?_, ?_⟩, ?_⟩
      · apply invChk_mk
        · intro bb hbb
          have hbb2 : bb ∈ (newBasicBlock "unreachable"
              (appendInstr c (.panicI v') s)).2.blocks := hbb
          rw [blocks_newBB] at hbb2
          rcases List.mem_append.1 hbb2 with hx | hx
          · exact hok1 bb hx
          · rw [List.mem_singleton.1 hx]
            rfl
        · intro c0 hc0
          injection hc0 with hcc
          subst hcc
          constructor
          · show (appendInstr c (.panicI v') s).blocks.length <
              ((appendInstr c (.panicI v') s).blocks ++
                [(⟨"unreachable", [], [], []⟩ : BasicBlock)]).length
            rw [List.length_append]
            simp
          · show terminatedB (getBlock (newBasicBlock "unreachable"
              (appendInstr c (.panicI v') s)).2 (appendInstr c (.panicI v') s).blocks.length) = false
            rw [hfreshblk]
            rfl
      · show s.blocks.length ≤
          ((appendInstr c (.panicI v') s).blocks ++
            [(⟨"unreachable", [], [], []⟩ : BasicBlock)]).length
        rw [List.length_append, hlen1]
        simp
      · intro i hi hne
        have hic : i ≠ c := fun he => hne (he ▸ hcv)
        have hi1 : i < (appendInstr c (.panicI v') s).blocks.length := by
          rw [hlen1]
          exact hi
        show (getBlock (newBasicBlock "unreachable" (appendInstr c (.panicI v') s)).2 i).instrs =
          (getBlock s i).instrs
        rw [getBlock_newBB _ _ i hi1, getBlock_appendInstr_ne c i (.panicI v') s hic]
      · intro c' hc'
        injection hc' with hcc
        refine Or.inr ?_
        rw [← hcc]
        show s.blocks.length ≤ (appendInstr c (.panicI v') s).blocks.length
        rw [hlen1]
      · intro c0 hc0
        injection hc0 with hcc
        subst hcc
        refine ⟨rfl, Or.inr ?_⟩
        have hc1 : c < (appendInstr c (.panicI v') s).blocks.length := by
          rw [hlen1]
          exact hlt
        show termL (getBlock (setCur _ (newBasicBlock "unreachable"
          (appendInstr c (.panicI v') s)).2) c).instrs = true
        have hinstr : (getBlock (setCur (newBasicBlock "unreachable"
            (appendInstr c (.panicI v') s)).1 (newBasicBlock "unreachable"
            (appendInstr c (.panicI v') s)).2) c).instrs =
            (getBlock s c).instrs ++ [(s.nextId, .panicI v')] := by
          show (getBlock (newBasicBlock "unreachable" (appendInstr c (.panicI v') s)).2 c).instrs = _
          rw [getBlock_newBB _ _ c hc1, getBlock_appendInstr_self c (.panicI v') s hlt]
        rw [hinstr, termL_append]
        rfl

end SSAV

namespace SSAV

theorem length_newBB (nm : String) (s : FnState) :
    (newBasicBlock nm s).2.blocks.length = s.blocks.length + 1 := by
  rw [blocks_newBB, List.length_append]
  rfl

theorem term_preserved (s1 s2 : FnState) (c : Nat) (hS : StepOk s1 s2)
    (hclt : c < s1.blocks.length) (hne : s1.currentBlock ≠ some c)
    (ht : terminatedB (getBlock s1 c) = true) :
    terminatedB (getBlock s2 c) = true := by
  rw [terminated_of_instrs _ _ (hS.2.2.1 c hclt hne)]
  exact ht

theorem cur_ne_of_low (s1 s2 : FnState) (hS : StepOk s1 s2) (c : Nat)
    (hc : c < s1.blocks.length) (hne1 : s1.currentBlock ≠ some c) :
    s2.currentBlock ≠ some c := by
  intro he
  rcases hS.2.2.2 c he with he2 | hge
  · exact hne1 (he2.symm.trans he)
  · omega

theorem cond_value_ok (cv : Value) (t f : Nat) (s1 : FnState) :
    CProp s1 (match cv.kind with
      | .lit (.boolL b) => if b then emitJump t s1 else emitJump f s1
      | _ => emitIf cv t f s1) := by
  cases hkd : cv.kind with
  | lit l =>
      cases l with
      | boolL b =>
          cases b
          · exact cprop_emitJump f s1
          · exact cprop_emitJump t s1
      | intL n => exact cprop_emitIf cv t f s1
      | nilL => exact cprop_emitIf cv t f s1
  | reg i => exact cprop_emitIf cv t f s1
  | global n => exact cprop_emitIf cv t f s1
  | fnref n => exact cprop_emitIf cv t f s1
  | param n => exact cprop_emitIf cv t f s1

end SSAV

namespace SSAV

mutual

/-- The value-step contract for Builder.expr: the invariant is
preserved and the current block survives or has been terminated with
control moved to a fresh block. -/
theorem expr_ok (e : Expr) (s : FnState) : EProp s (expr e s).2 := by
  cases e with
  | boolLit b =>
      rw [expr.eq_1]
      exact eprop_refl s
  | intLit n =>
      rw [expr.eq_2]
      exact eprop_refl s
  | paren x =>
      rw [expr.eq_3]
      exact expr_ok x s
  | notE x =>
      rw [expr.eq_4]
      show EProp s ((match expr x s with
        | (v, s1) => emit (.unop .notOp v) .boolT s1)).2
      have hx := expr_ok x s
      cases hk : expr x s with
      | mk v s1 =>
          rw [hk] at hx
          simp only [hk]
          exact eprop_trans _ _ _ hx (eprop_emit _ _ s1 rfl)
  | bin op x y =>
      cases op with
      | land =>
          rw [expr.eq_5]
          exact logicalBinop_ok .land x y s
      | lor =>
          rw [expr.eq_6]
          exact logicalBinop_ok .lor x y s
      | lss =>
          rw [expr.eq_7]
          show EProp s ((match expr x s with
            | (vx, s1) => match expr y s1 with
              | (vy, s2) => emitCompare .lss vx vy s2)).2
          have hx := expr_ok x s
          cases hk : expr x s with
          | mk vx s1 =>
              rw [hk] at hx
              simp only [hk]
              have hy := expr_ok y s1
              cases hk2 : expr y s1 with
              | mk vy s2 =>
                  rw [hk2] at hy
                  simp only [hk2]
                  exact eprop_trans _ _ _ hx (eprop_trans _ _ _ hy
                    (eprop_emitCompare .lss vx vy s2))
      | eql =>
          rw [expr.eq_8]
          show EProp s ((match expr x s with
            | (vx, s1) => match expr y s1 with
              | (vy, s2) => emitCompare .eql vx vy s2)).2
          have hx := expr_ok x s
          cases hk : expr x s with
          | mk vx s1 =>
              rw [hk] at hx
              simp only [hk]
              have hy := expr_ok y s1
              cases hk2 : expr y s1 with
              | mk vy s2 =>
                  rw [hk2] at hy
                  simp only [hk2]
                  exact eprop_trans _ _ _ hx (eprop_trans _ _ _ hy
                    (eprop_emitCompare .eql vx vy s2))
      | notOp =>
          rw [expr.eq_9 s .notOp x y (fun hx => Op.noConfusion hx) (fun hx => Op.noConfusion hx)
            (fun hx => Op.noConfusion hx) (fun hx => Op.noConfusion hx)]
          show EProp s ((match expr x s with
            | (vx, s1) => match expr y s1 with
              | (vy, s2) => emitArith .notOp vx vy (typeOf x) s2)).2
          have hx := expr_ok x s
          cases hk : expr x s with
          | mk vx s1 =>
              rw [hk] at hx
              simp only [hk]
              have hy := expr_ok y s1
              cases hk2 : expr y s1 with
              | mk vy s2 =>
                  rw [hk2] at hy
                  simp only [hk2]
                  exact eprop_trans _ _ _ hx (eprop_trans _ _ _ hy
                    (eprop_emitArith .notOp vx vy (typeOf x) s2))
      | add =>
          rw [expr.eq_9 s .add x y (fun hx => Op.noConfusion hx) (fun hx => Op.noConfusion hx)
            (fun hx => Op.noConfusion hx) (fun hx => Op.noConfusion hx)]
          show EProp s ((match expr x s with
            | (vx, s1) => match expr y s1 with
              | (vy, s2) => emitArith .add vx vy (typeOf x) s2)).2
          have hx := expr_ok x s
          cases hk : expr x s with
          | mk vx s1 =>
              rw [hk] at hx
              simp only [hk]
              have hy := expr_ok y s1
              cases hk2 : expr y s1 with
              | mk vy s2 =>
                  rw [hk2] at hy
                  simp only [hk2]
                  exact eprop_trans _ _ _ hx (eprop_trans _ _ _ hy
                    (eprop_emitArith .add vx vy (typeOf x) s2))
      | sub =>
          rw [expr.eq_9 s .sub x y (fun hx => Op.noConfusion hx) (fun hx => Op.noConfusion hx)
            (fun hx => Op.noConfusion hx) (fun hx => Op.noConfusion hx)]
          show EProp s ((match expr x s with
            | (vx, s1) => match expr y s1 with
              | (vy, s2) => emitArith .sub vx vy (typeOf x) s2)).2
          have hx := expr_ok x s
          cases hk : expr x s with
          | mk vx s1 =>
              rw [hk] at hx
              simp only [hk]
              have hy := expr_ok y s1
              cases hk2 : expr y s1 with
              | mk vy s2 =>
                  rw [hk2] at hy
                  simp only [hk2]
                  exact eprop_trans _ _ _ hx (eprop_trans _ _ _ hy
                    (eprop_emitArith .sub vx vy (typeOf x) s2))
      | mul =>
          rw [expr.eq_9 s .mul x y (fun hx => Op.noConfusion hx) (fun hx => Op.noConfusion hx)
            (fun hx => Op.noConfusion hx) (fun hx => Op.noConfusion hx)]
          show EProp s ((match expr x s with
            | (vx, s1) => match expr y s1 with
              | (vy, s2) => emitArith .mul vx vy (typeOf x) s2)).2
          have hx := expr_ok x s
          cases hk : expr x s with
          | mk vx s1 =>
              rw [hk] at hx
              simp only [hk]
              have hy := expr_ok y s1
              cases hk2 : expr y s1 with
              | mk vy s2 =>
                  rw [hk2] at hy
                  simp only [hk2]
                  exact eprop_trans _ _ _ hx (eprop_trans _ _ _ hy
                    (eprop_emitArith .mul vx vy (typeOf x) s2))
      | arrow =>
          rw [expr.eq_9 s .arrow x y (fun hx => Op.noConfusion hx) (fun hx => Op.noConfusion hx)
            (fun hx => Op.noConfusion hx) (fun hx => Op.noConfusion hx)]
          show EProp s ((match expr x s with
            | (vx, s1) => match expr y s1 with
              | (vy, s2) => emitArith .arrow vx vy (typeOf x) s2)).2
          have hx := expr_ok x s
          cases hk : expr x s with
          | mk vx s1 =>
              rw [hk] at hx
              simp only [hk]
              have hy := expr_ok y s1
              cases hk2 : expr y s1 with
              | mk vy s2 =>
                  rw [hk2] at hy
                  simp only [hk2]
                  exact eprop_trans _ _ _ hx (eprop_trans _ _ _ hy
                    (eprop_emitArith .arrow vx vy (typeOf x) s2))
  | callE cal sig args dots =>
      rw [expr.eq_10]
      cases cal with
      | builtinV nm =>
          show EProp s ((match builtin nm args
              (match sig.results with | [t] => t | ts => Ty.tuple ts) s with
            | some r => r
            | none => match emitCallArgs sig dots args [] s with
              | (as_, s2) => emit (.call (calleeValue (.builtinV nm)) as_)
                  (match sig.results with | [t] => t | ts => Ty.tuple ts) s2)).2
          cases hb : builtin nm args
              (match sig.results with | [t] => t | ts => Ty.tuple ts) s with
          | some r =>
              simp only [hb]
              exact builtin_ok nm args _ s r hb
          | none =>
              simp only [hb]
              have hca := emitCallArgs_ok sig dots args [] s
              cases hk : emitCallArgs sig dots args [] s with
              | mk as2 s2 =>
                  rw [hk] at hca
                  simp only [hk]
                  exact eprop_trans _ _ _ hca (eprop_emit _ _ s2 rfl)
      | fnV nm =>
          show EProp s ((match emitCallArgs sig dots args [] s with
            | (as_, s2) => emit (.call (calleeValue (.fnV nm)) as_)
                (match sig.results with | [t] => t | ts => Ty.tuple ts) s2)).2
          have hca := emitCallArgs_ok sig dots args [] s
          cases hk : emitCallArgs sig dots args [] s with
          | mk as2 s2 =>
              rw [hk] at hca
              simp only [hk]
              exact eprop_trans _ _ _ hca (eprop_emit _ _ s2 rfl)
  | ident n t =>
      rw [expr.eq_11]
      exact eprop_emitLoad _ s
  | typeRef t =>
      rw [expr.eq_12]
      exact eprop_refl s
termination_by (sizeOf e, 3)

/-- The termination contract for Builder.cond: whatever the condition,
the entry current block ends terminated and no block is current on
return. -/
theorem cond_ok (e : Expr) (t f : Nat) (s : FnState) : CProp s (cond e t f s) := by
  rw [cond.eq_def]
  cases e with
  | paren x => exact cond_ok x t f s
  | notE x => exact cond_ok x f t s
  | bin op x y =>
      cases op with
      | land =>
          show CProp s (cond y t f (setCur (newBasicBlock "cond.true" s).1 (cond x (newBasicBlock "cond.true" s).1 f (newBasicBlock "cond.true" s).2)))
          intro hinv
          have h1 : invChk (newBasicBlock "cond.true" s).2 = true := invChk_newBB _ s hinv
          have hS1 : StepOk s (newBasicBlock "cond.true" s).2 := stepOk_newBB _ s hinv
          obtain ⟨hS2, hnone2, hterm2⟩ := cond_ok x ((newBasicBlock "cond.true" s).1) f (newBasicBlock "cond.true" s).2 h1
          have hfst : (newBasicBlock "cond.true" s).1 = s.blocks.length := rfl
          have hlt1 : (newBasicBlock "cond.true" s).1 < ((newBasicBlock "cond.true" s).2).blocks.length := by
            rw [hfst, length_newBB]
            omega
          have hne1 : ((newBasicBlock "cond.true" s).2).currentBlock ≠ some (newBasicBlock "cond.true" s).1 := by
            rw [cur_newBB, hfst]
            exact cur_ne_big s hinv _ (le_refl _)
          have hfr : (getBlock (cond x (newBasicBlock "cond.true" s).1 f (newBasicBlock "cond.true" s).2) (newBasicBlock "cond.true" s).1).instrs = [] := by
            rw [hS2.2.2.1 _ hlt1 hne1, hfst, getBlock_newBB_fresh]
          have hterm_fr : terminatedB (getBlock (cond x (newBasicBlock "cond.true" s).1 f (newBasicBlock "cond.true" s).2) (newBasicBlock "cond.true" s).1) = false := by
            show termL (getBlock (cond x (newBasicBlock "cond.true" s).1 f (newBasicBlock "cond.true" s).2) (newBasicBlock "cond.true" s).1).instrs = false
            rw [hfr]
            rfl
          have hS3 : StepOk s (setCur (newBasicBlock "cond.true" s).1 (cond x (newBasicBlock "cond.true" s).1 f (newBasicBlock "cond.true" s).2)) := by
            refine stepOk_setCur_fresh s _ _ (stepOk_trans _ _ _ hS1 hS2) ?_ ?_ hterm_fr
            · exact lt_of_lt_of_le hlt1 hS2.2.1
            · rw [hfst]
          obtain ⟨hS4, hnone4, hterm4⟩ := cond_ok y t f (setCur (newBasicBlock "cond.true" s).1 (cond x (newBasicBlock "cond.true" s).1 f (newBasicBlock "cond.true" s).2)) hS3.1
          refine ⟨stepOk_trans _ _ _ hS3 hS4, hnone4, ?_⟩
          intro c hc
          have hcc : ((newBasicBlock "cond.true" s).2).currentBlock = some c := by
            rw [cur_newBB]
            exact hc
          have hterm_c : terminatedB (getBlock (cond x (newBasicBlock "cond.true" s).1 f (newBasicBlock "cond.true" s).2) c) = true := hterm2 c hcc
          have hclt : c < s.blocks.length := cur_lt_of_inv s hinv c hc
          have hne3 : (setCur (newBasicBlock "cond.true" s).1 (cond x (newBasicBlock "cond.true" s).1 f (newBasicBlock "cond.true" s).2)).currentBlock ≠ some c := by
            show some (newBasicBlock "cond.true" s).1 ≠ some c
            intro he
            injection he with he2
            rw [hfst] at he2
            omega
          refine term_preserved _ _ c hS4 ?_ hne3 hterm_c
          exact lt_of_lt_of_le hclt hS3.2.1
      | lor =>
          show CProp s (cond y t f (setCur (newBasicBlock "cond.false" s).1 (cond x t (newBasicBlock "cond.false" s).1 (newBasicBlock "cond.false" s).2)))
          intro hinv
          have h1 : invChk (newBasicBlock "cond.false" s).2 = true := invChk_newBB _ s hinv
          have hS1 : StepOk s (newBasicBlock "cond.false" s).2 := stepOk_newBB _ s hinv
          obtain ⟨hS2, hnone2, hterm2⟩ := cond_ok x t ((newBasicBlock "cond.false" s).1) (newBasicBlock "cond.false" s).2 h1
          have hfst : (newBasicBlock "cond.false" s).1 = s.blocks.length := rfl
          have hlt1 : (newBasicBlock "cond.false" s).1 < ((newBasicBlock "cond.false" s).2).blocks.length := by
            rw [hfst, length_newBB]
            omega
          have hne1 : ((newBasicBlock "cond.false" s).2).currentBlock ≠ some (newBasicBlock "cond.false" s).1 := by
            rw [cur_newBB, hfst]
            exact cur_ne_big s hinv _ (le_refl _)
          have hfr : (getBlock (cond x t (newBasicBlock "cond.false" s).1 (newBasicBlock "cond.false" s).2) (newBasicBlock "cond.false" s).1).instrs = [] := by
            rw [hS2.2.2.1 _ hlt1 hne1, hfst, getBlock_newBB_fresh]
          have hterm_fr : terminatedB (getBlock (cond x t (newBasicBlock "cond.false" s).1 (newBasicBlock "cond.false" s).2) (newBasicBlock "cond.false" s).1) = false := by
            show termL (getBlock (cond x t (newBasicBlock "cond.false" s).1 (newBasicBlock "cond.false" s).2) (newBasicBlock "cond.false" s).1).instrs = false
            rw [hfr]
            rfl
          have hS3 : StepOk s (setCur (newBasicBlock "cond.false" s).1 (cond x t (newBasicBlock "cond.false" s).1 (newBasicBlock "cond.false" s).2)) := by
            refine stepOk_setCur_fresh s _ _ (stepOk_trans _ _ _ hS1 hS2) ?_ ?_ hterm_fr
            · exact lt_of_lt_of_le hlt1 hS2.2.1
            · rw [hfst]
          obtain ⟨hS4, hnone4, hterm4⟩ := cond_ok y t f (setCur (newBasicBlock "cond.false" s).1 (cond x t (newBasicBlock "cond.false" s).1 (newBasicBlock "cond.false" s).2)) hS3.1
          refine ⟨stepOk_trans _ _ _ hS3 hS4, hnone4, ?_⟩
          intro c hc
          have hcc : ((newBasicBlock "cond.false" s).2).currentBlock = some c := by
            rw [cur_newBB]
            exact hc
          have hterm_c : terminatedB (getBlock (cond x t (newBasicBlock "cond.false" s).1 (newBasicBlock "cond.false" s).2) c) = true := hterm2 c hcc
          have hclt : c < s.blocks.length := cur_lt_of_inv s hinv c hc
          have hne3 : (setCur (newBasicBlock "cond.false" s).1 (cond x t (newBasicBlock "cond.false" s).1 (newBasicBlock "cond.false" s).2)).currentBlock ≠ some c := by
            show some (newBasicBlock "cond.false" s).1 ≠ some c
            intro he
            injection he with he2
            rw [hfst] at he2
            omega
          refine term_preserved _ _ c hS4 ?_ hne3 hterm_c
          exact lt_of_lt_of_le hclt hS3.2.1
      | lss =>
          have hx := expr_ok (.bin .lss x y) s
          cases hk : expr (.bin .lss x y) s with
          | mk cv s1 =>
              rw [hk] at hx
              simp only [hk]
              exact eprop_cprop_trans _ _ _ hx (cond_value_ok cv t f s1)
      | eql =>
          have hx := expr_ok (.bin .eql x y) s
          cases hk : expr (.bin .eql x y) s with
          | mk cv s1 =>
              rw [hk] at hx
              simp only [hk]
              exact eprop_cprop_trans _ _ _ hx (cond_value_ok cv t f s1)
      | notOp =>
          have hx := expr_ok (.bin .notOp x y) s
          cases hk : expr (.bin .notOp x y) s with
          | mk cv s1 =>
              rw [hk] at hx
              simp only [hk]
              exact eprop_cprop_trans _ _ _ hx (cond_value_ok cv t f s1)
      | add =>
          have hx := expr_ok (.bin .add x y) s
          cases hk : expr (.bin .add x y) s with
          | mk cv s1 =>
              rw [hk] at hx
              simp only [hk]
              exact eprop_cprop_trans _ _ _ hx (cond_value_ok cv t f s1)
      | sub =>
          have hx := expr_ok (.bin .sub x y) s
          cases hk : expr (.bin .sub x y) s with
          | mk cv s1 =>
              rw [hk] at hx
              simp only [hk]
              exact eprop_cprop_trans _ _ _ hx (cond_value_ok cv t f s1)
      | mul =>
          have hx := expr_ok (.bin .mul x y) s
          cases hk : expr (.bin .mul x y) s with
          | mk cv s1 =>
              rw [hk] at hx
              simp only [hk]
              exact eprop_cprop_trans _ _ _ hx (cond_value_ok cv t f s1)
      | arrow =>
          have hx := expr_ok (.bin .arrow x y) s
          cases hk : expr (.bin .arrow x y) s with
          | mk cv s1 =>
              rw [hk] at hx
              simp only [hk]
              exact eprop_cprop_trans _ _ _ hx (cond_value_ok cv t f s1)
    | boolLit b =>
        have hx := expr_ok (.boolLit b) s
        cases hk : expr (.boolLit b) s with
        | mk cv s1 =>
            rw [hk] at hx
            simp only [hk]
            exact eprop_cprop_trans _ _ _ hx (cond_value_ok cv t f s1)
    | intLit n =>
        have hx := expr_ok (.intLit n) s
        cases hk : expr (.intLit n) s with
        | mk cv s1 =>
            rw [hk] at hx
            simp only [hk]
            exact eprop_cprop_trans _ _ _ hx (cond_value_ok cv t f s1)
    | callE cal sig args dots =>
        have hx := expr_ok (.callE cal sig args dots) s
        cases hk : expr (.callE cal sig args dots) s with
        | mk cv s1 =>
            rw [hk] at hx
            simp only [hk]
            exact eprop_cprop_trans _ _ _ hx (cond_value_ok cv t f s1)
    | ident n ty =>
        have hx := expr_ok (.ident n ty) s
        cases hk : expr (.ident n ty) s with
        | mk cv s1 =>
            rw [hk] at hx
            simp only [hk]
            exact eprop_cprop_trans _ _ _ hx (cond_value_ok cv t f s1)
    | typeRef ty =>
        have hx := expr_ok (.typeRef ty) s
        cases hk : expr (.typeRef ty) s with
        | mk cv s1 =>
            rw [hk] at hx
            simp only [hk]
            exact eprop_cprop_trans _ _ _ hx (cond_value_ok cv t f s1)
termination_by (sizeOf e, 5)

/-- The merge tail of Builder.logicalBinop: given the state after the
two fresh blocks and the left-operand cond, each of the three
simplification branches satisfies the value-step contract. -/
theorem lb_tail_ok (y : Expr) (short : Value) (pnm : String) (rhs done : Nat)
    (s s3 : FnState)
    (hrhs : s.blocks.length ≤ rhs) (hdone : s.blocks.length ≤ done)
    (hrd : rhs ≠ done)
    (hS : StepOk s s3) (hnone : s3.currentBlock = none)
    (hterm : ∀ c, s.currentBlock = some c → terminatedB (getBlock s3 c) = true)
    (hrlt : rhs < s3.blocks.length) (hdlt : done < s3.blocks.length)
    (hri : terminatedB (getBlock s3 rhs) = false)
    (hdi : terminatedB (getBlock s3 done) = false) :
    EProp s (if (getBlock s3 rhs).preds.isEmpty then
        ((short, setCur done s3) : Value × FnState)
      else if (getBlock s3 done).preds.isEmpty then expr y (setCur rhs s3)
      else
        emit (.phi ((getBlock s3 done).preds.map (fun _ => short) ++
            [(expr y (setCur rhs s3)).1]) pnm)
          (((getBlock s3 done).preds.map (fun _ => short) ++
            [(expr y (setCur rhs s3)).1]).headD vFalse).ty
          (setCur done (emitJump done (expr y (setCur rhs s3)).2))).2 := by
  intro hinv
  split
  · have hS' : StepOk s (setCur done s3) := stepOk_setCur_fresh s s3 done hS hdlt hdone hdi
    refine ⟨hS', ?_⟩
    intro c hc
    refine ⟨rfl, Or.inr ?_⟩
    exact hterm c hc
  · split
    · have hS4 : StepOk s (setCur rhs s3) := stepOk_setCur_fresh s s3 rhs hS hrlt hrhs hri
      obtain ⟨hSy, hCy⟩ := expr_ok y (setCur rhs s3) hS4.1
      refine ⟨stepOk_trans _ _ _ hS4 hSy, ?_⟩
      intro c hc
      obtain ⟨hsome, _⟩ := hCy rhs rfl
      refine ⟨hsome, Or.inr ?_⟩
      have hclt : c < s.blocks.length := cur_lt_of_inv s hinv c hc
      have hne : (setCur rhs s3).currentBlock ≠ some c := by
        show some rhs ≠ some c
        intro he
        injection he with he2
        omega
      refine term_preserved _ _ c hSy ?_ hne ?_
      · exact lt_of_lt_of_le hclt hS4.2.1
      · exact hterm c hc
    · have hS4 : StepOk s (setCur rhs s3) := stepOk_setCur_fresh s s3 rhs hS hrlt hrhs hri
      obtain ⟨hSy, hCy⟩ := expr_ok y (setCur rhs s3) hS4.1
      cases hk : expr y (setCur rhs s3) with
      | mk vy s5 =>
          rw [hk] at hSy hCy
          simp only [hk]
          obtain ⟨hSJ, hnonej, htermj⟩ := cprop_emitJump done s5 hSy.1
          have hd5 : (getBlock s5 done).instrs = (getBlock (setCur rhs s3) done).instrs := by
            refine hSy.2.2.1 done hdlt ?_
            show some rhs ≠ some done
            intro he
            injection he with he2
            exact hrd he2
          have hne5d : s5.currentBlock ≠ some done := by
            refine cur_ne_of_low _ _ hSy done hdlt ?_
            show some rhs ≠ some done
            intro he
            injection he with he2
            exact hrd he2
          have hd6 : (getBlock (emitJump done s5) done).instrs = (getBlock s5 done).instrs :=
            hSJ.2.2.1 done (lt_of_lt_of_le hdlt hSy.2.1) hne5d
          have htermd6 : terminatedB (getBlock (emitJump done s5) done) = false := by
            show termL (getBlock (emitJump done s5) done).instrs = false
            rw [hd6, hd5]
            exact hdi
          have hS6 : StepOk s (emitJump done s5) :=
            stepOk_trans _ _ _ (stepOk_trans _ _ _ hS4 hSy) hSJ
          have hS7 : StepOk s (setCur done (emitJump done s5)) := by
            refine stepOk_setCur_fresh s _ done hS6 ?_ hdone htermd6
            exact lt_of_lt_of_le (lt_of_lt_of_le hdlt hSy.2.1) hSJ.2.1
          obtain ⟨hSE, hCE⟩ := eprop_emit
            (.phi ((getBlock s3 done).preds.map (fun _ => short) ++ [vy]) pnm)
            (((getBlock s3 done).preds.map (fun _ => short) ++ [vy]).headD vFalse).ty
            (setCur done (emitJump done s5)) rfl hS7.1
          refine ⟨stepOk_trans _ _ _ hS7 hSE, ?_⟩
          intro c hc
          obtain ⟨hsome, _⟩ := hCE done rfl
          refine ⟨hsome, Or.inr ?_⟩
          have hclt : c < s.blocks.length := cur_lt_of_inv s hinv c hc
          have hneA : (setCur rhs s3).currentBlock ≠ some c := by
            show some rhs ≠ some c
            intro he
            injection he with he2
            omega
          have ht5 : terminatedB (getBlock s5 c) = true := by
            refine term_preserved _ _ c hSy ?_ hneA (hterm c hc)
            exact lt_of_lt_of_le hclt hS4.2.1
          have hne5 : s5.currentBlock ≠ some c := by
            refine cur_ne_of_low _ _ hSy c ?_ hneA
            exact lt_of_lt_of_le hclt hS4.2.1
          have ht6 : terminatedB (getBlock (emitJump done s5) c) = true := by
            refine term_preserved _ _ c hSJ ?_ hne5 ht5
            exact lt_of_lt_of_le (lt_of_lt_of_le hclt hS4.2.1) hSy.2.1
          have hne7 : (setCur done (emitJump done s5)).currentBlock ≠ some c := by
            show some done ≠ some c
            intro he
            injection he with he2
            omega
          refine term_preserved _ _ c hSE ?_ hne7 ht6
          exact lt_of_lt_of_le hclt hS7.2.1
termination_by (sizeOf y, 4)

/-- The value-step contract for Builder.logicalBinop. -/
theorem logicalBinop_ok (op : Op) (x y : Expr) (s : FnState) :
    EProp s (logicalBinop op x y s).2 := by
  rw [logicalBinop.eq_def]
  cases hop : op == Op.land with
  | true =>
      intro hinv
      have hinv1 : invChk (newBasicBlock "binop.rhs" s).2 = true := invChk_newBB _ s hinv
      have hinv2 : invChk (newBasicBlock "binop.done" (newBasicBlock "binop.rhs" s).2).2 = true := invChk_newBB _ (newBasicBlock "binop.rhs" s).2 hinv1
      have hS01 : StepOk s (newBasicBlock "binop.rhs" s).2 := stepOk_newBB _ s hinv
      have hS12 : StepOk (newBasicBlock "binop.rhs" s).2 (newBasicBlock "binop.done" (newBasicBlock "binop.rhs" s).2).2 := stepOk_newBB _ (newBasicBlock "binop.rhs" s).2 hinv1
      obtain ⟨hS23, hnone3, hterm3⟩ := cond_ok x ((newBasicBlock "binop.rhs" s).1) ((newBasicBlock "binop.done" (newBasicBlock "binop.rhs" s).2).1) (newBasicBlock "binop.done" (newBasicBlock "binop.rhs" s).2).2 hinv2
      have hS3 : StepOk s (cond x (newBasicBlock "binop.rhs" s).1 (newBasicBlock "binop.done" (newBasicBlock "binop.rhs" s).2).1 (newBasicBlock "binop.done" (newBasicBlock "binop.rhs" s).2).2) :=
        stepOk_trans _ _ _ (stepOk_trans _ _ _ hS01 hS12) hS23
      have hfr : (newBasicBlock "binop.rhs" s).1 = s.blocks.length := rfl
      have hfd : (newBasicBlock "binop.done" (newBasicBlock "binop.rhs" s).2).1 = s.blocks.length + 1 :=
        length_newBB "binop.rhs" s
      have hlen2 : ((newBasicBlock "binop.done" (newBasicBlock "binop.rhs" s).2).2).blocks.length = s.blocks.length + 2 := by
        rw [length_newBB, length_newBB]
      have hrhsle : s.blocks.length ≤ (newBasicBlock "binop.rhs" s).1 := hfr.ge
      have hdonele : s.blocks.length ≤ (newBasicBlock "binop.done" (newBasicBlock "binop.rhs" s).2).1 := by omega
      have hrd : (newBasicBlock "binop.rhs" s).1 ≠ (newBasicBlock "binop.done" (newBasicBlock "binop.rhs" s).2).1 := by omega
      have hcur2 : ((newBasicBlock "binop.done" (newBasicBlock "binop.rhs" s).2).2).currentBlock = s.currentBlock := by
        rw [cur_newBB, cur_newBB]
      have htermS : ∀ c, s.currentBlock = some c →
          terminatedB (getBlock (cond x (newBasicBlock "binop.rhs" s).1 (newBasicBlock "binop.done" (newBasicBlock "binop.rhs" s).2).1 (newBasicBlock "binop.done" (newBasicBlock "binop.rhs" s).2).2) c) = true := by
        intro c hc
        exact hterm3 c (by rw [hcur2]; exact hc)
      have hrlt : (newBasicBlock "binop.rhs" s).1 < (cond x (newBasicBlock "binop.rhs" s).1 (newBasicBlock "binop.done" (newBasicBlock "binop.rhs" s).2).1 (newBasicBlock "binop.done" (newBasicBlock "binop.rhs" s).2).2).blocks.length := by
        refine lt_of_lt_of_le ?_ hS23.2.1
        omega
      have hdlt : (newBasicBlock "binop.done" (newBasicBlock "binop.rhs" s).2).1 < (cond x (newBasicBlock "binop.rhs" s).1 (newBasicBlock "binop.done" (newBasicBlock "binop.rhs" s).2).1 (newBasicBlock "binop.done" (newBasicBlock "binop.rhs" s).2).2).blocks.length := by
        refine lt_of_lt_of_le ?_ hS23.2.1
        omega
      have hne_r : ((newBasicBlock "binop.done" (newBasicBlock "binop.rhs" s).2).2).currentBlock ≠ some (newBasicBlock "binop.rhs" s).1 := by
        rw [hcur2]
        exact cur_ne_big s hinv _ hrhsle
      have hne_d : ((newBasicBlock "binop.done" (newBasicBlock "binop.rhs" s).2).2).currentBlock ≠ some (newBasicBlock "binop.done" (newBasicBlock "binop.rhs" s).2).1 := by
        rw [hcur2]
        exact cur_ne_big s hinv _ hdonele
      have hi_r2 : (getBlock (newBasicBlock "binop.done" (newBasicBlock "binop.rhs" s).2).2 (newBasicBlock "binop.rhs" s).1).instrs = [] := by
        have hr1 : (newBasicBlock "binop.rhs" s).1 < ((newBasicBlock "binop.rhs" s).2).blocks.length := by
          rw [length_newBB]
          omega
        rw [getBlock_newBB _ _ _ hr1, hfr, getBlock_newBB_fresh]
      have hi_d2 : (getBlock (newBasicBlock "binop.done" (newBasicBlock "binop.rhs" s).2).2 (newBasicBlock "binop.done" (newBasicBlock "binop.rhs" s).2).1).instrs = [] := by
        have hd1 : (newBasicBlock "binop.done" (newBasicBlock "binop.rhs" s).2).1 = ((newBasicBlock "binop.rhs" s).2).blocks.length := rfl
        rw [hd1, getBlock_newBB_fresh]
      have hri : terminatedB (getBlock (cond x (newBasicBlock "binop.rhs" s).1 (newBasicBlock "binop.done" (newBasicBlock "binop.rhs" s).2).1 (newBasicBlock "binop.done" (newBasicBlock "binop.rhs" s).2).2) (newBasicBlock "binop.rhs" s).1) = false := by
        show termL (getBlock (cond x (newBasicBlock "binop.rhs" s).1 (newBasicBlock "binop.done" (newBasicBlock "binop.rhs" s).2).1 (newBasicBlock "binop.done" (newBasicBlock "binop.rhs" s).2).2) (newBasicBlock "binop.rhs" s).1).instrs = false
        rw [hS23.2.2.1 _ (by omega) hne_r, hi_r2]
        rfl
      have hdi : terminatedB (getBlock (cond x (newBasicBlock "binop.rhs" s).1 (newBasicBlock "binop.done" (newBasicBlock "binop.rhs" s).2).1 (newBasicBlock "binop.done" (newBasicBlock "binop.rhs" s).2).2) (newBasicBlock "binop.done" (newBasicBlock "binop.rhs" s).2).1) = false := by
        show termL (getBlock (cond x (newBasicBlock "binop.rhs" s).1 (newBasicBlock "binop.done" (newBasicBlock "binop.rhs" s).2).1 (newBasicBlock "binop.done" (newBasicBlock "binop.rhs" s).2).2) (newBasicBlock "binop.done" (newBasicBlock "binop.rhs" s).2).1).instrs = false
        rw [hS23.2.2.1 _ (by omega) hne_d, hi_d2]
        rfl
      exact (lb_tail_ok y vFalse "&&" (newBasicBlock "binop.rhs" s).1 (newBasicBlock "binop.done" (newBasicBlock "binop.rhs" s).2).1 s (cond x (newBasicBlock "binop.rhs" s).1 (newBasicBlock "binop.done" (newBasicBlock "binop.rhs" s).2).1 (newBasicBlock "binop.done" (newBasicBlock "binop.rhs" s).2).2)
        hrhsle hdonele hrd hS3 hnone3 htermS hrlt hdlt hri hdi) hinv
  | false =>
      intro hinv
      have hinv1 : invChk (newBasicBlock "binop.rhs" s).2 = true := invChk_newBB _ s hinv
      have hinv2 : invChk (newBasicBlock "binop.done" (newBasicBlock "binop.rhs" s).2).2 = true := invChk_newBB _ (newBasicBlock "binop.rhs" s).2 hinv1
      have hS01 : StepOk s (newBasicBlock "binop.rhs" s).2 := stepOk_newBB _ s hinv
      have hS12 : StepOk (newBasicBlock "binop.rhs" s).2 (newBasicBlock "binop.done" (newBasicBlock "binop.rhs" s).2).2 := stepOk_newBB _ (newBasicBlock "binop.rhs" s).2 hinv1
      obtain ⟨hS23, hnone3, hterm3⟩ := cond_ok x ((newBasicBlock "binop.done" (newBasicBlock "binop.rhs" s).2).1) ((newBasicBlock "binop.rhs" s).1) (newBasicBlock "binop.done" (newBasicBlock "binop.rhs" s).2).2 hinv2
      have hS3 : StepOk s (cond x (newBasicBlock "binop.done" (newBasicBlock "binop.rhs" s).2).1 (newBasicBlock "binop.rhs" s).1 (newBasicBlock "binop.done" (newBasicBlock "binop.rhs" s).2).2) :=
        stepOk_trans _ _ _ (stepOk_trans _ _ _ hS01 hS12) hS23
      have hfr : (newBasicBlock "binop.rhs" s).1 = s.blocks.length := rfl
      have hfd : (newBasicBlock "binop.done" (newBasicBlock "binop.rhs" s).2).1 = s.blocks.length + 1 :=
        length_newBB "binop.rhs" s
      have hlen2 : ((newBasicBlock "binop.done" (newBasicBlock "binop.rhs" s).2).2).blocks.length = s.blocks.length + 2 := by
        rw [length_newBB, length_newBB]
      have hrhsle : s.blocks.length ≤ (newBasicBlock "binop.rhs" s).1 := hfr.ge
      have hdonele : s.blocks.length ≤ (newBasicBlock "binop.done" (newBasicBlock "binop.rhs" s).2).1 := by omega
      have hrd : (newBasicBlock "binop.rhs" s).1 ≠ (newBasicBlock "binop.done" (newBasicBlock "binop.rhs" s).2).1 := by omega
      have hcur2 : ((newBasicBlock "binop.done" (newBasicBlock "binop.rhs" s).2).2).currentBlock = s.currentBlock := by
        rw [cur_newBB, cur_newBB]
      have htermS : ∀ c, s.currentBlock = some c →
          terminatedB (getBlock (cond x (newBasicBlock "binop.done" (newBasicBlock "binop.rhs" s).2).1 (newBasicBlock "binop.rhs" s).1 (newBasicBlock "binop.done" (newBasicBlock "binop.rhs" s).2).2) c) = true := by
        intro c hc
        exact hterm3 c (by rw [hcur2]; exact hc)
      have hrlt : (newBasicBlock "binop.rhs" s).1 < (cond x (newBasicBlock "binop.done" (newBasicBlock "binop.rhs" s).2).1 (newBasicBlock "binop.rhs" s).1 (newBasicBlock "binop.done" (newBasicBlock "binop.rhs" s).2).2).blocks.length := by
        refine lt_of_lt_of_le ?_ hS23.2.1
        omega
      have hdlt : (newBasicBlock "binop.done" (newBasicBlock "binop.rhs" s).2).1 < (cond x (newBasicBlock "binop.done" (newBasicBlock "binop.rhs" s).2).1 (newBasicBlock "binop.rhs" s).1 (newBasicBlock "binop.done" (newBasicBlock "binop.rhs" s).2).2).blocks.length := by
        refine lt_of_lt_of_le ?_ hS23.2.1
        omega
      have hne_r : ((newBasicBlock "binop.done" (newBasicBlock "binop.rhs" s).2).2).currentBlock ≠ some (newBasicBlock "binop.rhs" s).1 := by
        rw [hcur2]
        exact cur_ne_big s hinv _ hrhsle
      have hne_d : ((newBasicBlock "binop.done" (newBasicBlock "binop.rhs" s).2).2).currentBlock ≠ some (newBasicBlock "binop.done" (newBasicBlock "binop.rhs" s).2).1 := by
        rw [hcur2]
        exact cur_ne_big s hinv _ hdonele
      have hi_r2 : (getBlock (newBasicBlock "binop.done" (newBasicBlock "binop.rhs" s).2).2 (newBasicBlock "binop.rhs" s).1).instrs = [] := by
        have hr1 : (newBasicBlock "binop.rhs" s).1 < ((newBasicBlock "binop.rhs" s).2).blocks.length := by
          rw [length_newBB]
          omega
        rw [getBlock_newBB _ _ _ hr1, hfr, getBlock_newBB_fresh]
      have hi_d2 : (getBlock (newBasicBlock "binop.done" (newBasicBlock "binop.rhs" s).2).2 (newBasicBlock "binop.done" (newBasicBlock "binop.rhs" s).2).1).instrs = [] := by
        have hd1 : (newBasicBlock "binop.done" (newBasicBlock "binop.rhs" s).2).1 = ((newBasicBlock "binop.rhs" s).2).blocks.length := rfl
        rw [hd1, getBlock_newBB_fresh]
      have hri : terminatedB (getBlock (cond x (newBasicBlock "binop.done" (newBasicBlock "binop.rhs" s).2).1 (newBasicBlock "binop.rhs" s).1 (newBasicBlock "binop.done" (newBasicBlock "binop.rhs" s).2).2) (newBasicBlock "binop.rhs" s).1) = false := by
        show termL (getBlock (cond x (newBasicBlock "binop.done" (newBasicBlock "binop.rhs" s).2).1 (newBasicBlock "binop.rhs" s).1 (newBasicBlock "binop.done" (newBasicBlock "binop.rhs" s).2).2) (newBasicBlock "binop.rhs" s).1).instrs = false
        rw [hS23.2.2.1 _ (by omega) hne_r, hi_r2]
        rfl
      have hdi : terminatedB (getBlock (cond x (newBasicBlock "binop.done" (newBasicBlock "binop.rhs" s).2).1 (newBasicBlock "binop.rhs" s).1 (newBasicBlock "binop.done" (newBasicBlock "binop.rhs" s).2).2) (newBasicBlock "binop.done" (newBasicBlock "binop.rhs" s).2).1) = false := by
        show termL (getBlock (cond x (newBasicBlock "binop.done" (newBasicBlock "binop.rhs" s).2).1 (newBasicBlock "binop.rhs" s).1 (newBasicBlock "binop.done" (newBasicBlock "binop.rhs" s).2).2) (newBasicBlock "binop.done" (newBasicBlock "binop.rhs" s).2).1).instrs = false
        rw [hS23.2.2.1 _ (by omega) hne_d, hi_d2]
        rfl
      exact (lb_tail_ok y vTrue "||" (newBasicBlock "binop.rhs" s).1 (newBasicBlock "binop.done" (newBasicBlock "binop.rhs" s).2).1 s (cond x (newBasicBlock "binop.done" (newBasicBlock "binop.rhs" s).2).1 (newBasicBlock "binop.rhs" s).1 (newBasicBlock "binop.done" (newBasicBlock "binop.rhs" s).2).2)
        hrhsle hdonele hrd hS3 hnone3 htermS hrlt hdlt hri hdi) hinv
termination_by (2 + sizeOf x + sizeOf y, 0)

/-- The value-step contract for Builder.builtin whenever it handles the
call. -/
theorem builtin_ok (name : String) (args : List Expr) (typ : Ty) (s : FnState)
    (r : Value × FnState) (h : builtin name args typ s = some r) : EProp s r.2 := by
  by_cases hn1 : name = "make"
  · subst hn1
    cases args with
    | nil =>
        rw [builtin.eq_5 [] typ s (fun _ _ _ hx => by simp at hx)
          (fun _ hx => by simp at hx) (fun _ _ hx => by simp at hx)] at h
        split at h
        · exact Option.noConfusion h
        · exact Option.noConfusion h
        · exact Option.noConfusion h
        · exact Option.noConfusion h
    | cons a args1 =>
        cases args1 with
        | nil =>
            rw [builtin.eq_3] at h
            split at h
            · exact Option.noConfusion h
            · injection h with h2
              subst h2
              exact eprop_emit _ _ s rfl
            · injection h with h2
              subst h2
              exact eprop_emit _ _ s rfl
            · exact Option.noConfusion h
        | cons b args2 =>
            cases args2 with
            | nil =>
                rw [builtin.eq_1] at h
                split at h
                · injection h with h2
                  subst h2
                  exact eprop_trans _ _ _ (expr_ok b s) (eprop_emit _ _ (expr b s).2 rfl)
                · cases hk : expr b s with
                  | mk v s1 =>
                      simp only [hk] at h
                      injection h with h2
                      subst h2
                      have hx := expr_ok b s
                      rw [hk] at hx
                      exact eprop_trans _ _ _ hx (eprop_emit _ _ s1 rfl)
                · cases hk : expr b s with
                  | mk v s1 =>
                      simp only [hk] at h
                      injection h with h2
                      subst h2
                      have hx := expr_ok b s
                      rw [hk] at hx
                      exact eprop_trans _ _ _ hx (eprop_emit _ _ s1 rfl)
                · exact Option.noConfusion h
            | cons c args3 =>
                cases args3 with
                | nil =>
                    rw [builtin.eq_2] at h
                    split at h
                    · cases hk : expr c (expr b s).2 with
                      | mk m s1 =>
                          simp only [hk] at h
                          injection h with h2
                          subst h2
                          have hy := expr_ok c (expr b s).2
                          rw [hk] at hy
                          exact eprop_trans _ _ _ (expr_ok b s)
                            (eprop_trans _ _ _ hy (eprop_emit _ _ s1 rfl))
                    · exact Option.noConfusion h
                    · exact Option.noConfusion h
                    · exact Option.noConfusion h
                | cons d args4 =>
                    rw [builtin.eq_5 (a :: b :: c :: d :: args4) typ s
                      (fun _ _ _ hx => by simp at hx)
                      (fun _ hx => by simp at hx) (fun _ _ hx => by simp at hx)] at h
                    split at h
                    · exact Option.noConfusion h
                    · exact Option.noConfusion h
                    · exact Option.noConfusion h
                    · exact Option.noConfusion h
  · by_cases hn2 : name = "new"
    · subst hn2
      rw [builtin.eq_6] at h
      injection h with h2
      subst h2
      exact eprop_emitNew _ s
    · by_cases hn3 : name = "len"
      · subst hn3
        cases args with
        | nil =>
            rw [builtin.eq_8 [] typ s (fun _ hx => by simp at hx)] at h
            exact Option.noConfusion h
        | cons a args1 =>
            cases args1 with
            | nil =>
                rw [builtin.eq_7] at h
                split at h
                · cases hk : expr a s with
                  | mk v s1 =>
                      simp only [hk] at h
                      injection h with h2
                      subst h2
                      have hx := expr_ok a s
                      rw [hk] at hx
                      exact hx
                · exact Option.noConfusion h
            | cons b args2 =>
                rw [builtin.eq_8 (a :: b :: args2) typ s (fun _ hx => by simp at hx)] at h
                exact Option.noConfusion h
      · by_cases hn4 : name = "cap"
        · subst hn4
          cases args with
          | nil =>
              rw [builtin.eq_10 [] typ s (fun _ hx => by simp at hx)] at h
              exact Option.noConfusion h
          | cons a args1 =>
              cases args1 with
              | nil =>
                  rw [builtin.eq_9] at h
                  split at h
                  · cases hk : expr a s with
                    | mk v s1 =>
                        simp only [hk] at h
                        injection h with h2
                        subst h2
                        have hx := expr_ok a s
                        rw [hk] at hx
                        exact hx
                  · exact Option.noConfusion h
              | cons b args2 =>
                  rw [builtin.eq_10 (a :: b :: args2) typ s (fun _ hx => by simp at hx)] at h
                  exact Option.noConfusion h
        · by_cases hn5 : name = "panic"
          · subst hn5
            cases args with
            | nil =>
                rw [builtin.eq_12 [] typ s (fun _ hx => by simp at hx)] at h
                exact Option.noConfusion h
            | cons a args1 =>
                cases args1 with
                | nil =>
                    rw [builtin.eq_11] at h
                    cases hk : expr a s with
                    | mk v s1 =>
                        simp only [hk] at h
                        cases hk2 : emitConv v .anyT s1 with
                        | mk v2 s2 =>
                            simp only [hk2] at h
                            cases hk3 : emit (.panicI v2) .invalid s2 with
                            | mk w s3 =>
                                simp only [hk3] at h
                                cases hk4 : newBasicBlock "unreachable" s3 with
                                | mk ub s4 =>
                                    simp only [hk4] at h
                                    injection h with h2
                                    subst h2
                                    have hx := expr_ok a s
                                    rw [hk] at hx
                                    have hc2 := eprop_emitConv v .anyT s1
                                    rw [hk2] at hc2
                                    have hp := eprop_panic_seq v2 s2
                                    simp only [hk3, hk4] at hp
                                    exact eprop_trans _ _ _ hx (eprop_trans _ _ _ hc2 hp)
                | cons b args2 =>
                    rw [builtin.eq_12 (a :: b :: args2) typ s (fun _ hx => by simp at hx)] at h
                    exact Option.noConfusion h
          · rw [builtin.eq_13 name args typ s (fun hx => hn1 hx) (fun hx => hn2 hx)
              (fun hx => hn3 hx) (fun hx => hn4 hx) (fun hx => hn5 hx)] at h
            exact Option.noConfusion h
termination_by (sizeOf args, 0)

/-- The value-step contract for the argument evaluation loop. -/
theorem evalArgs_ok (args : List Expr) (acc : List Value) (s : FnState) :
    EProp s (evalArgs args acc s).2 := by
  rw [evalArgs.eq_def]
  cases args with
  | nil => exact eprop_refl s
  | cons a rest =>
      have hx := expr_ok a s
      cases hk : expr a s with
      | mk v s1 =>
          rw [hk] at hx
          simp only [hk]
          have hf := eprop_flattenArg v acc s1
          cases hk2 : flattenArg v acc s1 with
          | mk acc2 s2 =>
              rw [hk2] at hf
              simp only [hk2]
              exact eprop_trans _ _ _ hx (eprop_trans _ _ _ hf (evalArgs_ok rest acc2 s2))
termination_by (sizeOf args, 0)

/-- The value-step contract for the explicit-ellipsis argument loop. -/
theorem ellipsisArgs_ok (sig : Sig) (nArgs i : Nat) (args : List Expr)
    (acc : List Value) (s : FnState) :
    EProp s (ellipsisArgs sig nArgs i args acc s).2 := by
  rw [ellipsisArgs.eq_def]
  cases args with
  | nil => exact eprop_refl s
  | cons a rest =>
      have hx := expr_ok a s
      cases hk : expr a s with
      | mk v s1 =>
          rw [hk] at hx
          simp only [hk]
          have hc := eprop_emitConv v
            (if sig.variadic && i == nArgs - 1 then Ty.slice (sig.params.getD i .invalid)
             else sig.params.getD i .invalid) s1
          cases hk2 : emitConv v
              (if sig.variadic && i == nArgs - 1 then Ty.slice (sig.params.getD i .invalid)
               else sig.params.getD i .invalid) s1 with
          | mk v2 s2 =>
              rw [hk2] at hc
              simp only [hk2]
              exact eprop_trans _ _ _ hx (eprop_trans _ _ _ hc
                (ellipsisArgs_ok sig nArgs (i + 1) rest (acc ++ [v2]) s2))
termination_by (sizeOf args, 0)

/-- The value-step contract for Builder.emitCallArgs. -/
theorem emitCallArgs_ok (sig : Sig) (hasDots : Bool) (args : List Expr)
    (pre : List Value) (s : FnState) :
    EProp s (emitCallArgs sig hasDots args pre s).2 := by
  rw [emitCallArgs.eq_def]
  split
  · exact ellipsisArgs_ok sig args.length 0 args pre s
  · have he := evalArgs_ok args pre s
    cases hk : evalArgs args pre s with
    | mk acc s1 =>
        rw [hk] at he
        simp only [hk]
        have hc := eprop_convLoop pre.length (sig.params.take (normalParams sig)) 0 acc s1
        cases hk2 : convLoop pre.length (sig.params.take (normalParams sig)) 0 acc s1 with
        | mk acc2 s2 =>
            rw [hk2] at hc
            simp only [hk2]
            split
            · split
              · exact eprop_trans _ _ _ he hc
              · have hn := eprop_emitNew
                  (Ty.array (sig.params.getD (normalParams sig) .invalid)
                    (acc2.drop (pre.length + normalParams sig)).length) s2
                cases hk3 : emitNew
                    (Ty.array (sig.params.getD (normalParams sig) .invalid)
                      (acc2.drop (pre.length + normalParams sig)).length) s2 with
                | mk av s3 =>
                    rw [hk3] at hn
                    simp only [hk3]
                    have hsv := eprop_storeVarargs av
                      (sig.params.getD (normalParams sig) .invalid)
                      (acc2.drop (pre.length + normalParams sig)) 0 s3
                    exact eprop_trans _ _ _ he (eprop_trans _ _ _ hc
                      (eprop_trans _ _ _ hn (eprop_trans _ _ _ hsv
                        (eprop_emit _ _ _ rfl))))
            · exact eprop_trans _ _ _ he hc
termination_by (sizeOf args, 1)

end

end SSAV

namespace SSAV

/-- C9: Builder.cond terminates the current block on every path:
whatever the shape of the condition expression (parenthesised, negated,
and/or, constant, or general), under the build invariant cond returns
with no current block, the entry current block ends in a terminator
(and the preserved invariant keeps every block at one terminator at
most, at its tail), and a condition proven constant dispatches to
exactly one unconditional jump, to t for true and to f for false. -/
theorem condTerminatesCurrent (e : Expr) (t f : Nat) (s : FnState) (c : Nat)
    (hinv : invChk s = true) (hc : s.currentBlock = some c) :
    (cond e t f s).currentBlock = none ∧
    invChk (cond e t f s) = true ∧
    terminatedB (getBlock (cond e t f s) c) = true ∧
    cond (.boolLit true) t f s = emitJump t s ∧
    cond (.boolLit false) t f s = emitJump f s := by
  obtain ⟨hS, hnone, hterm⟩ := cond_ok e t f s hinv
  refine ⟨hnone, hS.1, hterm c hc, ?_, ?_⟩
  · simp [cond, expr, valueOf]
  · simp [cond, expr, valueOf]

/-- C9 witness: a concrete invariant-satisfying state with a current
entry block, run on the condition a and-and b. -/
theorem condTerminatesCurrentWitness :
    invChk (mkState [] 0) = true ∧
    (mkState [] 0).currentBlock = some 0 ∧
    ((cond (.bin .land (.ident "a" .boolT) (.ident "b" .boolT)) 1 2
        (mkState [] 0)).currentBlock = none ∧
      invChk (cond (.bin .land (.ident "a" .boolT) (.ident "b" .boolT)) 1 2
        (mkState [] 0)) = true ∧
      terminatedB (getBlock (cond (.bin .land (.ident "a" .boolT) (.ident "b" .boolT)) 1 2
        (mkState [] 0)) 0) = true ∧
      cond (.boolLit true) 1 2 (mkState [] 0) = emitJump 1 (mkState [] 0) ∧
      cond (.boolLit false) 1 2 (mkState [] 0) = emitJump 2 (mkState [] 0)) :=
  ⟨by decide, rfl,
    condTerminatesCurrent (.bin .land (.ident "a" .boolT) (.ident "b" .boolT)) 1 2
      (mkState [] 0) 0 (by decide) rfl⟩

end SSAV
